import Mathlib

/-!
# sgraph indexer: a shallow embedding of the harvest / fetch / process pipeline

The definitions below follow `indexer/cli/cli.go`, `indexer/processor.go`, `indexer/main.go`,
`indexer/repo/redis.go`, `indexer/api.go` and `indexer/srv/srv.go`.

Conventions of the embedding

* Go `uint64`, `uint` and `int` values that are only compared, indexed with or copied are
  natural numbers; `int64` values are integers, and a conversion that can wrap is written out
  (`toInt64`).
* A Go `map` is an association list with distinct keys (`GoMap`).  Go leaves the iteration
  order of a map unspecified, so every function that ranges over a map takes the order as an
  argument (`MapOrder`), and the theorems hold for every order.
* A run-time panic (index or slice bound out of range) is the result `none`.
* Code that lives outside the repository sources that were available (the generated block
  loader, the Solana SDK, Borsh, the queue and the store) is an argument of the function that
  calls it.
-/

namespace Indexer

/-! ## Go maps -/

/-- Go map as an association list; `set` keeps the keys distinct. -/
abbrev GoMap (κ ν : Type) := List (κ × ν)

namespace GoMap

variable {κ ν : Type} [DecidableEq κ]

/-- Assignment `m[k] = v`. -/
def set : GoMap κ ν → κ → ν → GoMap κ ν
  | [], k, v => [(k, v)]
  | (k', v') :: rest, k, v => if k' = k then (k, v) :: rest else (k', v') :: set rest k v

/-- Lookup `m[k]` with the presence flag. -/
def get? : GoMap κ ν → κ → Option ν
  | [], _ => none
  | (k', v') :: rest, k => if k' = k then some v' else get? rest k

end GoMap

/-- Iteration order chosen by the runtime for one `range` over a map. -/
abbrev MapOrder (κ ν : Type) := GoMap κ ν → List (κ × ν)

/-- Every order a runtime may choose enumerates exactly the entries of the map. -/
def MapOrder.Valid {κ ν : Type} (ord : MapOrder κ ν) : Prop := ∀ m, (ord m).Perm m

/-- Generic helper `keys` of cli.go and main.go, under the iteration order `ord`. -/
def keys {κ ν : Type} (ord : MapOrder κ ν) (m : GoMap κ ν) : List κ := (ord m).map Prod.fst

/-- Generic helper `values` of cli.go and main.go, under the iteration order `ord`. -/
def values {κ ν : Type} (ord : MapOrder κ ν) (m : GoMap κ ν) : List ν := (ord m).map Prod.snd

/-! ## Byte slices -/

/-- Go `[]byte`: the backing array from the first element of the slice up to its capacity,
and the length.  The visible bytes are `backing.take len`. -/
structure ByteSlice where
  backing : List Nat
  len : Nat
deriving DecidableEq, Repr

namespace ByteSlice

/-- A slice whose capacity equals its length. -/
def ofBytes (bs : List Nat) : ByteSlice := ⟨bs, bs.length⟩

/-- Builtin `cap(s)`. -/
def cap (s : ByteSlice) : Nat := s.backing.length

/-- Visible bytes of the slice. -/
def bytes (s : ByteSlice) : List Nat := s.backing.take s.len

/-- Slice expression `s[:hi]`; the bound is checked against the capacity. -/
def sliceTo (s : ByteSlice) (hi : Nat) : Option ByteSlice :=
  if hi ≤ s.cap then some ⟨s.backing, hi⟩ else none

/-- Slice expression `s[lo:]`; the bound is checked against the length. -/
def sliceFrom (s : ByteSlice) (lo : Nat) : Option ByteSlice :=
  if lo ≤ s.len then some ⟨s.backing.drop lo, s.len - lo⟩ else none

/-- Length never exceeds capacity. -/
def WF (s : ByteSlice) : Prop := s.len ≤ s.cap

end ByteSlice

/-! ## Data model (cli.go) -/

/-- Type `common.PublicKey`, 32 bytes. -/
abbrev PublicKey := List Nat

/-- Type `types.AccountMeta` of the SDK. -/
structure AccountMeta where
  PubKey : PublicKey
  IsSigner : Bool
  IsWritable : Bool
deriving DecidableEq, Repr

/-- Type `types.Instruction` of the SDK. -/
structure Instruction where
  ProgramID : PublicKey
  Accounts : List AccountMeta
  Data : ByteSlice
deriving DecidableEq, Repr

/-- Type `TokenBalanceChange`. -/
structure TokenBalanceChange where
  Delta : Int
  Decimals : Nat
  Owner : PublicKey
  Mint : PublicKey
deriving DecidableEq, Repr

/-- Type `TxMeta`. -/
structure TxMeta where
  BalanceChanges : GoMap PublicKey Int
  TokenBalanceChanges : GoMap PublicKey TokenBalanceChange
  Logs : List String
deriving DecidableEq, Repr

/-- Type `Tx`, the parsed transaction. -/
structure Tx where
  TxHash : String
  Meta : TxMeta
  Insts : List Instruction
  InnerInsts : GoMap Int (List Instruction)
deriving DecidableEq, Repr

/-- Type `Block`, the parsed block. -/
structure Block where
  ParentSlot : Nat
  BlockTime : Nat
  Blockhash : String
  Transactions : List Tx
deriving DecidableEq, Repr

/-- Zero value `Tx{}`. -/
def Tx.zero : Tx := ⟨"", ⟨[], [], []⟩, [], []⟩

/-- Zero value `Block{}`, what `make([]Block, n)` fills a slice with. -/
def Block.zero : Block := ⟨0, 0, "", []⟩

instance : Inhabited Block := ⟨Block.zero⟩

/-! ## RPC.GetBlocks (cli.go 224-270) -/

/-- The call `r.blockLoader.fetch(blocksIds)`.  The first argument is the `retries` value of
the `GetBlocks` call that issues the fetch, so that a loader may answer differently on every
attempt.  The result is the pair `(blocksResp, errs)`; `none` in `errs` is a nil error. -/
abbrev Loader := Nat → List Nat → List Block × List (Option String)

/-- Loop of lines 232-238: `failed[blocksIds[i]] = i` for every non-nil `errs[i]`. -/
def recordFailed (blocksIds : List Nat) :
    List (Option String) → Nat → GoMap Nat Nat → Option (GoMap Nat Nat)
  | [], _, failed => some failed
  | none :: errs, i, failed => recordFailed blocksIds errs (i + 1) failed
  | some _ :: errs, i, failed =>
    match blocksIds[i]? with
    | none => none
    | some id => recordFailed blocksIds errs (i + 1) (failed.set id i)

/-- Lines 241-242: `blocks := make([]Block, n); copy(blocks, blocksResp)`. -/
def copyBlocks (n : Nat) (blocksResp : List Block) : List Block :=
  blocksResp.take n ++ List.replicate (n - blocksResp.length) Block.zero

/-- Loop of lines 265-267: `blocks[failed[id]] = missingBlocks[i]`. -/
def augment (failed : GoMap Nat Nat) (missingBlocks : List Block) :
    List Nat → Nat → List Block → Option (List Block)
  | [], _, blocks => some blocks
  | id :: rest, i, blocks =>
    match missingBlocks[i]? with
    | none => none
    | some b =>
      let pos := (failed.get? id).getD 0
      if pos < blocks.length then augment failed missingBlocks rest (i + 1) (blocks.set pos b)
      else none

/-- Method `RPC.GetBlocks`.  The result is `(blocks, failedIdx)`; the error result of the
source is nil on every path and is left out.  `ord r` is the iteration order of the map
`failed` in the call with `retries = r`. -/
def GetBlocks (loader : Loader) (ord : Nat → MapOrder Nat Nat) :
    Nat → List Nat → Option (List Block × List Nat)
  | 0, blocksIds =>
    match recordFailed blocksIds (loader 0 blocksIds).2 0 [] with
    | none => none
    | some failed =>
      let blocks := copyBlocks blocksIds.length (loader 0 blocksIds).1
      if failed.length = 0 then some (blocks, [])
      else some (blocks, values (ord 0) failed)
  | retries + 1, blocksIds =>
    match recordFailed blocksIds (loader (retries + 1) blocksIds).2 0 [] with
    | none => none
    | some failed =>
      let blocks := copyBlocks blocksIds.length (loader (retries + 1) blocksIds).1
      if failed.length = 0 then some (blocks, [])
      else
        let toRetryIds := keys (ord (retries + 1)) failed
        match GetBlocks loader ord retries toRetryIds with
        | none => none
        | some (missingBlocks, failedIdx) =>
          match augment failed missingBlocks toRetryIds 0 blocks with
          | none => none
          | some blocks' => some (blocks', failedIdx)

/-! ## Domain extractor (processor.go 215-286) -/

/-- Type `graph.Relation` of the SDK, as `Processor.process` fills it. -/
structure Relation where
  From : PublicKey
  To : PublicKey
  Provider : PublicKey
  ConnectedAt : Int
  DisconnectedAt : Option Int
  Extra : List Nat
deriving DecidableEq, Repr

/-- Type `addRelationParams`. -/
structure addRelationParams where
  From : PublicKey
  To : PublicKey
  Extra : List Nat
deriving DecidableEq, Repr

/-- Type `addIx`. -/
structure addIx where
  params : addRelationParams
  accounts : List AccountMeta
deriving DecidableEq, Repr

/-- What the extractor is configured with: the package variable `graphProgramID`, the
constant `graph.AddRelationInstructionDiscriminator` (8 bytes) and the decoder
`borsh.Deserialize` at type `addRelationParams` (`none` is a decoding error). -/
structure Program where
  graphProgramID : PublicKey
  discriminator : List Nat
  borshDeserialize : List Nat → Option addRelationParams

/-- Conversion `int64(x)` of a `uint64`. -/
def toInt64 (x : Nat) : Int :=
  if x % 2 ^ 64 < 2 ^ 63 then ((x % 2 ^ 64 : Nat) : Int) else ((x % 2 ^ 64 : Nat) : Int) - 2 ^ 64

/-- Lines 259-262: the outer instructions followed by the inner ones, in the order `ord`
visits the map `tx.InnerInsts`. -/
def allInsts (ord : MapOrder Int (List Instruction)) (tx : Tx) : List Instruction :=
  tx.Insts ++ (values ord tx.InnerInsts).flatten

/-- Condition of line 269,
`len(inst.Data) < 8 && !bytes.Equal(inst.Data[:8], discriminator[:])`.
The right operand is evaluated only when the left one holds; `none` is the panic of
`inst.Data[:8]`. -/
def notAddRelation (P : Program) (inst : Instruction) : Option Bool :=
  if inst.Data.len < 8 then
    match inst.Data.sliceTo 8 with
    | none => none
    | some pre => some (!(decide (pre.bytes = P.discriminator)))
  else some false

/-- Body of the loop of lines 264-282 for one instruction: `some none` is `continue`,
`some (some ix)` appends `ix` to the results, `none` is a panic. -/
def findAddInstStep (P : Program) (inst : Instruction) : Option (Option addIx) :=
  if inst.ProgramID ≠ P.graphProgramID then some none
  else
    match notAddRelation P inst with
    | none => none
    | some true => some none
    | some false =>
      match inst.Data.sliceFrom 8 with
      | none => none
      | some payload =>
        match P.borshDeserialize payload.bytes with
        | none => some none
        | some params => some (some ⟨params, inst.Accounts⟩)

/-- Loop of lines 264-282. -/
def findAddInstLoop (P : Program) : List Instruction → List addIx → Option (List addIx)
  | [], results => some results
  | inst :: rest, results =>
    match findAddInstStep P inst with
    | none => none
    | some none => findAddInstLoop P rest results
    | some (some ix) => findAddInstLoop P rest (results ++ [ix])

/-- Method `Processor.findAddInst`; `none` is a panic. -/
def findAddInst (P : Program) (ord : MapOrder Int (List Instruction)) (tx : Tx) :
    Option (List addIx) :=
  findAddInstLoop P (allInsts ord tx) []

/-- Closure of lines 221-230; `tx.accounts[0]` panics on an empty account list. -/
def relationOf (blockTime : Nat) (tx : addIx) : Option Relation :=
  match tx.accounts[0]? with
  | none => none
  | some a => some ⟨tx.params.From, tx.params.To, a.PubKey, toInt64 blockTime, none, tx.params.Extra⟩

/-- Helper `sliceMap` applied to a closure that may panic. -/
def sliceMap {α β : Type} (f : α → Option β) : List α → Option (List β)
  | [] => some []
  | a :: rest =>
    match f a with
    | none => none
    | some b =>
      match sliceMap f rest with
      | none => none
      | some bs => some (b :: bs)

/-! ## Collaborators of the processor -/

/-- One call made to a collaborator, in the order the calls are made. -/
inductive Event where
  | FindStaleBlocks (batchSize : Nat)
  | FetchStreamEvents (batchSize : Nat)
  | GetBlocks (retries : Nat) (blocksIds : List Nat)
  | SaveRelations (relations : List Relation)
  | AddBlocks (blocks : List Nat)
  | AcknowledgeBlocks (events : List String)
deriving DecidableEq, Repr

/-- Answers of the collaborators (`Redis`, `Mongo` and `RPC` interfaces of main.go) and of
the Go runtime.  Every answer may depend on the calls made so far.  An error result is
`some msg` or `Except.error msg`. -/
structure Env where
  FindStaleBlocks : List Event → Nat → Except String (GoMap String Nat)
  FetchStreamEvents : List Event → Nat → Except String (GoMap String Nat)
  GetBlocks : List Event → Nat → List Nat → List Block × List Nat × Option String
  SaveRelations : List Event → List Relation → Option String
  AddBlocks : List Event → List Nat → Option String
  AcknowledgeBlocks : List Event → List String → Option String
  /-- order of `range tx.InnerInsts` in `findAddInst` -/
  ordInner : MapOrder Int (List Instruction)
  /-- order of `range staleBatch` in the merge loop of `ProcessBlocks` -/
  ordStale : MapOrder String Nat
  /-- order of `values(batch)` -/
  ordValues : MapOrder String Nat
  /-- order of `keys(batch)` -/
  ordKeys : MapOrder String Nat

/-! ## Processor (processor.go 114-239) -/

/-- Method `Processor.process`: the calls made so far and the returned error; `none` is a
panic. -/
def process (P : Program) (env : Env) (tr : List Event) (tx : Tx) (blockTime : Nat) :
    Option (List Event × Option String) :=
  match findAddInst P env.ordInner tx with
  | none => none
  | some addTxs =>
    if addTxs.length = 0 then some (tr, none)
    else
      match sliceMap (relationOf blockTime) addTxs with
      | none => none
      | some relations =>
        match env.SaveRelations tr relations with
        | some e => some (tr ++ [Event.SaveRelations relations], some ("save relations: " ++ e))
        | none => some (tr ++ [Event.SaveRelations relations], none)

/-- Inner loop of lines 204-209 over the transactions of one block. -/
def processTxs (P : Program) (env : Env) (blockTime : Nat) :
    List Tx → List Event → Option (List Event × Option String)
  | [], tr => some (tr, none)
  | tx :: rest, tr =>
    match process P env tr tx blockTime with
    | none => none
    | some (tr', some e) => some (tr', some e)
    | some (tr', none) => processTxs P env blockTime rest tr'

/-- Outer loop of lines 203-210 over the blocks. -/
def classify (P : Program) (env : Env) :
    List Block → List Event → Option (List Event × Option String)
  | [], tr => some (tr, none)
  | block :: rest, tr =>
    match processTxs P env block.BlockTime block.Transactions tr with
    | none => none
    | some (tr', some e) => some (tr', some e)
    | some (tr', none) => classify P env rest tr'

/-- Lines 190-198: `failed[i] = ids[f]` for every `f` of `failedIdx`. -/
def failedIds (ids : List Nat) (failedIdx : List Nat) : Option (List Nat) :=
  sliceMap (fun f => ids[f]?) failedIdx

/-- Constant `retries` of `processBlocks`. -/
def retries : Nat := 4

/-- Method `Processor.processBlocks`: the calls made so far and either the error or the
block ids to put back on the queue; `none` is a panic. -/
def processBlocks (P : Program) (env : Env) (tr : List Event) (ids : List Nat) :
    Option (List Event × Except String (List Nat)) :=
  match env.GetBlocks tr retries ids with
  | (_, _, some e) =>
    some (tr ++ [Event.GetBlocks retries ids], Except.error ("process batch: get blocks: " ++ e))
  | (blocks, failedIdx, none) =>
    match failedIds ids failedIdx with
    | none => none
    | some failed =>
      match classify P env blocks (tr ++ [Event.GetBlocks retries ids]) with
      | none => none
      | some (tr', some e) => some (tr', Except.error ("process batch: " ++ e))
      | some (tr', none) => some (tr', Except.ok failed)

/-- The two counters of `Processor` that `ProcessBlocks` writes. -/
structure Processor where
  lastProcessedBlock : Nat
  processedBlocksCount : Nat
deriving DecidableEq, Repr

/-- Constant `batchSize` of `ProcessBlocks`. -/
def batchSize : Nat := 20

/-- Line 126: `uint(batchSize - len(staleBatch))`. -/
def remainingOf (staleLen : Nat) : Nat := (((batchSize : Int) - staleLen) % 2 ^ 64).toNat

/-- Lines 134-136: `batch[id] = b` for every entry of `staleBatch`. -/
def mergeStale (stale : List (String × Nat)) (batch : GoMap String Nat) : GoMap String Nat :=
  stale.foldl (fun b e => b.set e.1 e.2) batch

/-- Lines 166-167: the two atomic updates. -/
def bump (p : Processor) (last : Nat) (n : Nat) : Processor :=
  ⟨last, (p.processedBlocksCount + n) % 2 ^ 64⟩

/-- Lines 156-169 of `ProcessBlocks`, after `processBlocks` returned `failed`. -/
def finishBatch (env : Env) (p : Processor) (tr : List Event) (batch : GoMap String Nat)
    (ids failed : List Nat) : Option (Processor × List Event × Option String) :=
  let afterAdd : List Event × Option String :=
    if failed.length > 0 then (tr ++ [Event.AddBlocks failed], env.AddBlocks tr failed)
    else (tr, none)
  match afterAdd with
  | (tr1, some e) => some (p, tr1, some ("adding failed blocks: " ++ e))
  | (tr1, none) =>
    let acked := keys env.ordKeys batch
    match env.AcknowledgeBlocks tr1 acked with
    | some e => some (p, tr1 ++ [Event.AcknowledgeBlocks acked], some ("aknowledge blocks: " ++ e))
    | none =>
      match ids.getLast? with
      | none => none
      | some last => some (bump p last ids.length, tr1 ++ [Event.AcknowledgeBlocks acked], none)

/-- Method `Processor.ProcessBlocks`: the counters, the calls made so far and the returned
error; `none` is a panic.  The log line 144 reads `ids[0]`, which exists because `ids`
enumerates the non-empty `batch`; the same holds for `ids[len(ids)-1]` of line 166, which
`finishBatch` checks. -/
def ProcessBlocks (P : Program) (env : Env) (p : Processor) (tr : List Event) :
    Option (Processor × List Event × Option String) :=
  match env.FindStaleBlocks tr batchSize with
  | Except.error e =>
    some (p, tr ++ [Event.FindStaleBlocks batchSize], some ("await new transaction events: " ++ e))
  | Except.ok staleBatch =>
    let tr1 := tr ++ [Event.FindStaleBlocks batchSize]
    let remaining := remainingOf staleBatch.length
    match env.FetchStreamEvents tr1 remaining with
    | Except.error e =>
      some (p, tr1 ++ [Event.FetchStreamEvents remaining],
        some ("await new transaction events: " ++ e))
    | Except.ok fresh =>
      let tr2 := tr1 ++ [Event.FetchStreamEvents remaining]
      let batch := mergeStale (env.ordStale staleBatch) fresh
      if batch.length = 0 then some (p, tr2, none)
      else
        let ids := values env.ordValues batch
        match processBlocks P env tr2 ids with
        | none => none
        | some (tr3, Except.error e) => some (p, tr3, some e)
        | some (tr3, Except.ok failed) => finishBatch env p tr3 batch ids failed

/-! ## Transaction parser (cli.go 372-546) -/

/-- Field `Version` of a raw transaction, a decoded JSON value of type `any`: JSON null, a
JSON string, or any other JSON value (a number for versioned transactions). -/
inductive Version where
  | null
  | str (v : String)
  | other
deriving DecidableEq, Repr

/-- Type `rpc.TransactionMetaTokenBalance` of the SDK, with the fields of `UITokenAmount`
that the parser reads. -/
structure TransactionMetaTokenBalance where
  AccountIndex : Nat
  Mint : String
  Owner : String
  Amount : String
  Decimals : Nat
deriving DecidableEq, Repr

/-- Element type of `metaInnerInstructions.Instructions`. -/
structure rawInnerInstruction where
  Accounts : List Int
  Data : String
  ProgramIDIdx : Int
deriving DecidableEq, Repr

/-- Type `metaInnerInstructions`. -/
structure metaInnerInstructions where
  Index : Nat
  Instructions : List rawInnerInstruction
deriving DecidableEq, Repr

/-- Type `txMeta`; `Err` is `none` for JSON null. -/
structure txMeta where
  Err : Option String
  Fee : Nat
  PreBalances : List Int
  PostBalances : List Int
  PreTokenBalances : List TransactionMetaTokenBalance
  PostTokenBalances : List TransactionMetaTokenBalance
  LogMessages : List String
  InnerInstructions : List metaInnerInstructions
deriving DecidableEq, Repr

/-- Type `BlockRawTransaction`. -/
structure BlockRawTransaction where
  Meta : txMeta
  Transaction : String × String
  Version : Version
deriving DecidableEq, Repr

/-- Type `types.MessageHeader` of the SDK; the three counts are `uint8`. -/
structure MessageHeader where
  NumRequireSignatures : Nat
  NumReadonlySignedAccounts : Nat
  NumReadonlyUnsignedAccounts : Nat
deriving DecidableEq, Repr

/-- Type `types.Message` of the SDK; `Body` stands for the compiled instructions and the
recent block hash, which only the SDK reads. -/
structure Message where
  Header : MessageHeader
  Accounts : List PublicKey
  Body : List Nat
deriving DecidableEq, Repr

/-- Type `types.Transaction` of the SDK. -/
structure Transaction where
  Signatures : List (List Nat)
  Message : Message
deriving DecidableEq, Repr

/-- Library functions the parser calls: `base64.StdEncoding.DecodeString`,
`types.TransactionDeserialize`, `Message.DecompileInstructions`, `base58.Decode` (the slice
it returns together with its error), `base58.Encode`, and the constant
`common.VoteProgramID`. -/
structure SDK where
  base64Decode : String → Except String (List Nat)
  TransactionDeserialize : List Nat → Except String Transaction
  DecompileInstructions : Message → List Instruction
  base58Decode : String → ByteSlice × Option String
  base58Encode : List Nat → String
  VoteProgramID : PublicKey

/-- Two's-complement wrap of an `int64` result. -/
def wrapInt64 (z : Int) : Int := (z + 2 ^ 63) % 2 ^ 64 - 2 ^ 63

/-- Library function `strconv.ParseUint(s, 10, 64)`: a non-empty string of decimal digits
whose value fits 64 bits. -/
def parseUint (s : String) : Except String Nat :=
  let cs := s.toList
  if cs = [] then Except.error "invalid syntax"
  else if cs.all Char.isDigit then
    let n := cs.foldl (fun acc c => 10 * acc + (c.toNat - 48)) 0
    if n < 2 ^ 64 then Except.ok n else Except.error "value out of range"
  else Except.error "invalid syntax"

/-- Function `toCommonPub`: the conversion of a slice to a 32-byte array panics on a slice
shorter than 32 bytes. -/
def toCommonPub (pub : ByteSlice) : Option PublicKey :=
  if 32 ≤ pub.len then some (pub.bytes.take 32) else none

/-- Function `find`, with `none` for the result -1. -/
def find {α : Type} (predicate : α → Bool) : List α → Option Nat
  | [] => none
  | elem :: rest => if predicate elem then some 0 else (find predicate rest).map (· + 1)

/-- Lines 447-453 of `parseIx` for one referenced account index. -/
def accountMetaAt (m : Message) (k : Int) : Option AccountMeta :=
  if k < 0 then none
  else
    match m.Accounts[k.toNat]? with
    | none => none
    | some pk =>
      let h := m.Header
      some ⟨pk, decide (k < (h.NumRequireSignatures : Int)),
        decide (k < (((h.NumRequireSignatures + 256 - h.NumReadonlySignedAccounts % 256) % 256 :
            Nat) : Int)) ||
          (decide (k ≥ (h.NumRequireSignatures : Int)) &&
            decide (k < (m.Accounts.length : Int) - (h.NumReadonlyUnsignedAccounts : Int)))⟩

/-- Body of the loop of `parseIx` for one inner instruction. -/
def parseIxOne (sdk : SDK) (m : Message) (cins : rawInnerInstruction) : Option Instruction :=
  match sliceMap (accountMetaAt m) cins.Accounts with
  | none => none
  | some accounts =>
    if cins.ProgramIDIdx < 0 then none
    else
      match m.Accounts[cins.ProgramIDIdx.toNat]? with
      | none => none
      | some pid => some ⟨pid, accounts, (sdk.base58Decode cins.Data).1⟩

/-- Function `parseIx`. -/
def parseIx (sdk : SDK) (m : Message) (inner : metaInnerInstructions) :
    Option (List Instruction) :=
  sliceMap (parseIxOne sdk m) inner.Instructions

/-- Function `decompileInnerInstructions`. -/
def decompileInnerInstructions (sdk : SDK) (m : Message) :
    List metaInnerInstructions → GoMap Int (List Instruction) →
      Option (GoMap Int (List Instruction))
  | [], result => some result
  | inner :: rest, result =>
    match parseIx sdk m inner with
    | none => none
    | some insts => decompileInnerInstructions sdk m rest (result.set (toInt64 inner.Index) insts)

/-- Loop of `parseSolChange` from index `i` on. -/
def parseSolChangeLoop (preBalances : List Int) (accounts : List PublicKey) :
    List Int → Nat → GoMap PublicKey Int → Option (GoMap PublicKey Int)
  | [], _, balanceChanges => some balanceChanges
  | post :: rest, i, balanceChanges =>
    match accounts[i]? with
    | none => none
    | some account =>
      match preBalances[i]? with
      | none => none
      | some pre =>
        parseSolChangeLoop preBalances accounts rest (i + 1)
          (balanceChanges.set account (wrapInt64 (post - pre)))

/-- Function `parseSolChange`. -/
def parseSolChange (m : txMeta) (accounts : List PublicKey) : Option (GoMap PublicKey Int) :=
  parseSolChangeLoop m.PreBalances accounts m.PostBalances 0 []

/-- Body of the loop of `parseTokenChange` for one post balance: the account and its change,
or the returned error; `none` is a panic. -/
def tokenChangeOf (sdk : SDK) (m : txMeta) (accounts : List PublicKey)
    (postChange : TransactionMetaTokenBalance) :
    Option (Except String (PublicKey × TokenBalanceChange)) :=
  match accounts[postChange.AccountIndex]? with
  | none => none
  | some account =>
    match sdk.base58Decode postChange.Owner with
    | (_, some e) => some (Except.error ("decode owner: " ++ e))
    | (owner, none) =>
      match sdk.base58Decode postChange.Mint with
      | (_, some e) => some (Except.error ("decode mint: " ++ e))
      | (mint, none) =>
        match toCommonPub owner, toCommonPub mint with
        | some o, some mt =>
          match parseUint postChange.Amount with
          | Except.error e => some (Except.error ("parse post UITokenAmount: " ++ e))
          | Except.ok postAmount =>
            match find (fun t => decide (t.AccountIndex = postChange.AccountIndex))
                m.PreTokenBalances with
            | none => some (Except.ok (account, ⟨toInt64 postAmount, postChange.Decimals, o, mt⟩))
            | some preIdx =>
              match m.PreTokenBalances[preIdx]? with
              | none => none
              | some pre =>
                match parseUint pre.Amount with
                | Except.error e => some (Except.error ("parse pre UITokenAmount: " ++ e))
                | Except.ok preAmount =>
                  some (Except.ok (account,
                    ⟨wrapInt64 (toInt64 postAmount - toInt64 preAmount), postChange.Decimals,
                      o, mt⟩))
        | _, _ => none

/-- Loop of `parseTokenChange`. -/
def parseTokenChangeLoop (sdk : SDK) (m : txMeta) (accounts : List PublicKey) :
    List TransactionMetaTokenBalance → GoMap PublicKey TokenBalanceChange →
      Option (Except String (GoMap PublicKey TokenBalanceChange))
  | [], changes => some (Except.ok changes)
  | postChange :: rest, changes =>
    match tokenChangeOf sdk m accounts postChange with
    | none => none
    | some (Except.error e) => some (Except.error e)
    | some (Except.ok (account, change)) =>
      parseTokenChangeLoop sdk m accounts rest (changes.set account change)

/-- Function `parseTokenChange`. -/
def parseTokenChange (sdk : SDK) (m : txMeta) (accounts : List PublicKey) :
    Option (Except String (GoMap PublicKey TokenBalanceChange)) :=
  parseTokenChangeLoop sdk m accounts m.PostTokenBalances []

/-- Condition of line 377: the version is non-nil and is not the string "legacy". -/
def skipVersion : Version → Bool
  | Version.null => false
  | Version.str v => v != "legacy"
  | Version.other => true

/-- Condition of line 395: the first instruction invokes the vote program. -/
def isVote (sdk : SDK) (insts : List Instruction) : Bool :=
  match insts with
  | [] => false
  | inst :: _ => decide (inst.ProgramID = sdk.VoteProgramID)

/-- Lines 405-428 of `TxFromBlockTransaction`, for a transaction that passed the filters. -/
def buildTx (sdk : SDK) (blockTx : BlockRawTransaction) (tx : Transaction)
    (insts : List Instruction) : Option (Tx × Bool × Option String) :=
  let txHash := match tx.Signatures with
    | [] => ""
    | sig :: _ => sdk.base58Encode sig
  match decompileInnerInstructions sdk tx.Message blockTx.Meta.InnerInstructions [] with
  | none => none
  | some inner =>
    match parseSolChange blockTx.Meta tx.Message.Accounts with
    | none => none
    | some balanceChanges =>
      match parseTokenChange sdk blockTx.Meta tx.Message.Accounts with
      | none => none
      | some (Except.error e) =>
        some (Tx.zero, false, some ("parse tx: parse token balance changes: " ++ e))
      | some (Except.ok tokenBalanceChanges) =>
        some (⟨txHash, ⟨balanceChanges, tokenBalanceChanges, blockTx.Meta.LogMessages⟩, insts,
          inner⟩, true, none)

/-- Function `TxFromBlockTransaction`: `(transaction, include, err)`; `none` is a panic. -/
def TxFromBlockTransaction (sdk : SDK) (blockTx : BlockRawTransaction) :
    Option (Tx × Bool × Option String) :=
  if skipVersion blockTx.Version then some (Tx.zero, false, none)
  else
    match sdk.base64Decode blockTx.Transaction.1 with
    | Except.error e => some (Tx.zero, false, some ("parse tx: " ++ e))
    | Except.ok rawTx =>
      match sdk.TransactionDeserialize rawTx with
      | Except.error e => some (Tx.zero, false, some ("parse tx: deserializing transaction: " ++ e))
      | Except.ok tx =>
        let insts := sdk.DecompileInstructions tx.Message
        if isVote sdk insts then some (Tx.zero, false, none)
        else if blockTx.Meta.Err.isSome then some (Tx.zero, false, none)
        else buildTx sdk blockTx tx insts

/-! ## RPC.fetchBlocks (cli.go 44-114) -/

/-- Type `getBlockResult`. -/
structure getBlockResult where
  BlockHeight : Nat
  BlockTime : Nat
  ParentSlot : Nat
  Blockhash : String
  PreviousBlockhash : String
  Transactions : List BlockRawTransaction
deriving DecidableEq, Repr

/-- Type `getBlockRpcResponse`; `Error` is `none` for a nil pointer. -/
structure getBlockRpcResponse where
  Error : Option String
  Result : getBlockResult
deriving DecidableEq, Repr

/-- Loop of lines 93-103 over the raw transactions of one block: the included transactions
and the value of `errors[i]`. -/
def parseTxs (sdk : SDK) :
    List BlockRawTransaction → List Tx → Option String → Option (List Tx × Option String)
  | [], txs, err => some (txs, err)
  | btx :: rest, txs, err =>
    match TxFromBlockTransaction sdk btx with
    | none => none
    | some (_, _, some e) => parseTxs sdk rest txs (some e)
    | some (tx, incl, none) => parseTxs sdk rest (if incl then txs ++ [tx] else txs) err

/-- Body of the loop of lines 83-111 for one response: `(results[i], errors[i])`. -/
def parseResponse (sdk : SDK) (resp : getBlockRpcResponse) : Option (Block × Option String) :=
  match resp.Error with
  | some e => some (Block.zero, some ("rpc errored with message: " ++ e))
  | none =>
    match parseTxs sdk resp.Result.Transactions [] none with
    | none => none
    | some (txs, err) =>
      some (⟨resp.Result.ParentSlot, resp.Result.BlockTime, resp.Result.Blockhash, txs⟩, err)

/-- Method `RPC.fetchBlocks`.  `call keys` is the batched `getBlock` request for `keys`
followed by the decoding of the response body (lines 49-74). -/
def fetchBlocks (sdk : SDK) (call : List Nat → Except String (List getBlockRpcResponse))
    (keys : List Nat) : Option (List Block × List (Option String)) :=
  match call keys with
  | Except.error e => some ([], [some ("batch fetch transactions: " ++ e)])
  | Except.ok response =>
    if response.length ≠ keys.length then
      some ([], [some "batch fetch transactions: wtf, rpc returned more responses that requested"])
    else
      match sliceMap (parseResponse sdk) response with
      | none => none
      | some rs => some (rs.map Prod.fst, rs.map Prod.snd)

/-! ## Harvester (main.go 331-384, redis.go 47-89) -/

/-- One call made by the harvester, in the order the calls are made. -/
inductive HarvestEvent where
  | GetLastSeenBlock
  | GetLatestBlock
  | GetBlocksWithLimit (start limit : Nat)
  | AddBlocks (blocks : List Nat)
  | SaveLastSeenBlock (block : Nat)
deriving DecidableEq, Repr

/-- Answers of the harvester's collaborators, each a function of the calls made so far.
`done` tells whether the context is cancelled at the check of lines 337-341.  `getFails` is
the failure of the `GET` of `GetLastSeenBlock` (connection, reply or parse error).
`saveFails` is the failure of the `SET` of `SaveLastSeenBlock`, with a flag telling whether
the server applied the write before the failure. -/
structure HarvestEnv where
  done : List HarvestEvent → Bool
  getFails : List HarvestEvent → Option String
  GetLatestBlock : List HarvestEvent → Except String Nat
  GetBlocksWithLimit : List HarvestEvent → Nat → Nat → Except String (List Nat)
  AddBlocks : List HarvestEvent → List Nat → Option String
  saveFails : List HarvestEvent → Nat → Option (String × Bool)

/-- Method `Redis.GetLastSeenBlock` (redis.go 66-89) on a store whose key `last_seen_block`
holds `stored` (`none`: the key is absent, the reply is `ErrNil`).  The decimal text kept
under the key is identified with the number it denotes. -/
def GetLastSeenBlock (fail : Option String) (stored : Option Nat) : Except String Nat :=
  match fail with
  | some e => Except.error ("error getting last seen block: " ++ e)
  | none =>
    match stored with
    | none => Except.ok 0
    | some block => Except.ok block

/-- Method `Redis.SaveLastSeenBlock` (redis.go 49-64): the new content of the key and the
returned error. -/
def SaveLastSeenBlock (fail : Option (String × Bool)) (stored : Option Nat) (block : Nat) :
    Option Nat × Option String :=
  match fail with
  | some (e, applied) =>
    (if applied then some block else stored, some ("error saving last seen block: " ++ e))
  | none => (some block, none)

/-- Constant `blockLimit` of `HarvestBlocks`. -/
def blockLimit : Nat := 1000

/-- Lines 343-355: the calls made and the start block, or the error. -/
def startBlockOf (env : HarvestEnv) (stored : Option Nat) (tr : List HarvestEvent) :
    List HarvestEvent × Except String Nat :=
  match GetLastSeenBlock (env.getFails tr) stored with
  | Except.error e => (tr ++ [HarvestEvent.GetLastSeenBlock], Except.error e)
  | Except.ok startBlock =>
    if startBlock = 0 then
      (tr ++ [HarvestEvent.GetLastSeenBlock, HarvestEvent.GetLatestBlock],
        env.GetLatestBlock (tr ++ [HarvestEvent.GetLastSeenBlock]))
    else (tr ++ [HarvestEvent.GetLastSeenBlock], Except.ok startBlock)

/-- Lines 371-375: `lastSeen` is the start block, or the last block plus one in `uint64`. -/
def lastSeenOf (startBlock : Nat) (blocks : List Nat) : Nat :=
  match blocks.getLast? with
  | none => startBlock
  | some last => (last + 1) % 2 ^ 64

/-- Lines 357-379: the content of the key, the calls made and the returned error (`none`:
the pass goes on to the sleep of line 382). -/
def harvestFrom (env : HarvestEnv) (stored : Option Nat) (tr : List HarvestEvent)
    (startBlock : Nat) : Option Nat × List HarvestEvent × Option String :=
  match env.GetBlocksWithLimit tr startBlock blockLimit with
  | Except.error e =>
    (stored, tr ++ [HarvestEvent.GetBlocksWithLimit startBlock blockLimit],
      some ("harvest blocks: " ++ e))
  | Except.ok blocks =>
    let tr1 := tr ++ [HarvestEvent.GetBlocksWithLimit startBlock blockLimit]
    match env.AddBlocks tr1 blocks with
    | some e =>
      (stored, tr1 ++ [HarvestEvent.AddBlocks blocks],
        some ("harvest blocks: error adding blocks to the queue: " ++ e))
    | none =>
      let tr2 := tr1 ++ [HarvestEvent.AddBlocks blocks]
      let lastSeen := lastSeenOf startBlock blocks
      match SaveLastSeenBlock (env.saveFails tr2 lastSeen) stored lastSeen with
      | (stored', some e) =>
        (stored', tr2 ++ [HarvestEvent.SaveLastSeenBlock lastSeen], some ("harvest blocks: " ++ e))
      | (stored', none) => (stored', tr2 ++ [HarvestEvent.SaveLastSeenBlock lastSeen], none)

/-- One pass of the loop of `HarvestBlocks` (lines 337-382). -/
def harvestPass (env : HarvestEnv) (stored : Option Nat) (tr : List HarvestEvent) :
    Option Nat × List HarvestEvent × Option String :=
  if env.done tr then (stored, tr, some "harvest blocks: context canceled")
  else
    match startBlockOf env stored tr with
    | (tr1, Except.error e) => (stored, tr1, some ("harvest blocks: " ++ e))
    | (tr1, Except.ok startBlock) => harvestFrom env stored tr1 startBlock

/-- Method `BlockHarvester.HarvestBlocks`, run for at most `n` passes: the loop ends only by
returning an error; after `n` passes without one the result carries no error and the loop
is still running. -/
def HarvestBlocks (env : HarvestEnv) :
    Nat → Option Nat → List HarvestEvent → Option Nat × List HarvestEvent × Option String
  | 0, stored, tr => (stored, tr, none)
  | n + 1, stored, tr =>
    match harvestPass env stored tr with
    | (stored', tr', some e) => (stored', tr', some e)
    | (stored', tr', none) => HarvestBlocks env n stored' tr'

/-! ## Read API (api.go 20-57) -/

/-- Type `GetRelationsParams`. -/
structure GetRelationsParams where
  From : String
  To : String
  Providers : List String
  After : String
  Limit : Nat
deriving DecidableEq, Repr

/-- Type `types.Relation`, the view returned by the API; a `time.Time` is identified with its
Unix seconds. -/
structure RelationView where
  From : String
  To : String
  Provider : String
  ConnectedAt : Int
  DisconnectedAt : Option Int
  Extra : List Nat
deriving DecidableEq, Repr

/-- One call of `Mongo.FetchRelations` with its arguments. -/
structure FetchCall where
  From : String
  To : String
  Providers : List String
  After : String
  Limit : Nat
deriving DecidableEq, Repr

/-- Closure of lines 46-55; `toBase58` is `PublicKey.ToBase58` of the SDK. -/
def viewOf (toBase58 : PublicKey → String) (r : Relation) : RelationView :=
  ⟨toBase58 r.From, toBase58 r.To, toBase58 r.Provider, r.ConnectedAt, r.DisconnectedAt, r.Extra⟩

/-- Method `API.FindRelations`: the calls made to the store and the response or error. -/
def FindRelations (FetchRelations : FetchCall → Except String (List Relation))
    (toBase58 : PublicKey → String) (params : GetRelationsParams) :
    List FetchCall × Except String (List RelationView) :=
  let limit := if params.Limit = 0 then 100 else params.Limit
  if limit > 1000 then ([], Except.error "invalid limit")
  else
    let call : FetchCall := ⟨params.From, params.To, params.Providers, params.After, limit⟩
    match FetchRelations call with
    | Except.error e => ([call], Except.error ("fetch relations: " ++ e))
    | Except.ok relations => ([call], Except.ok (relations.map (viewOf toBase58)))

/-! ## Progress status (processor.go 92-110) -/

/-- A Go `float64` as far as a comparison sees it: not-a-number, an infinity, or a finite
value, which is a rational number. -/
inductive Float64 where
  | nan
  | posInf
  | negInf
  | finite (q : ℚ)

/-- Comparison `x > 1.0`; false for not-a-number. -/
def Float64.gtOne : Float64 → Bool
  | Float64.nan => false
  | Float64.posInf => true
  | Float64.negInf => false
  | Float64.finite q => decide (q > 1)

/-- Constant `delayTolerance` of `calcStatus`. -/
def delayTolerance : Nat := 250

/-- Function `calcStatus`; a `%d` verb prints the decimal numeral. -/
def calcStatus (latestBlock lastProcessed : Nat) (gainRate : Float64) : String :=
  if latestBlock < lastProcessed then "UNKNOWN"
  else
    let remaining := latestBlock - lastProcessed
    if remaining < delayTolerance then
      "UP-TO-DATE (" ++ toString remaining ++ " slots behind)"
    else if gainRate.gtOne then "CATCHING UP (" ++ toString remaining ++ " slots behind)"
    else "STALLED!!! (" ++ toString remaining ++ " slots behind)"

/-! ## JSON-RPC dispatch (srv.go 12-119) -/

/-- Type `json.RawMessage`; `none` is the nil slice. -/
abbrev RawMessage := Option String

/-- Type `HandlerFunc`: the response and the error (`none` is a nil error). -/
abbrev HandlerFunc := RawMessage → RawMessage × Option String

/-- Type `RpcRequest`; `ID` is a decoded JSON value, `none` when nil. -/
structure RpcRequest where
  Jsonrpc : String
  Method : String
  Params : RawMessage
  ID : Option String
deriving DecidableEq, Repr

/-- Type `RpcError`; the field `Data` is never set. -/
structure RpcError where
  Code : Int
  Message : String
deriving DecidableEq, Repr

/-- Type `RpcResponse`. -/
structure RpcResponse where
  Jsonrpc : String
  Result : RawMessage
  Error : Option RpcError
  ID : Option String
deriving DecidableEq, Repr

/-- Type `Server`. -/
structure Server where
  handlers : GoMap String HandlerFunc

/-- Function `NewServer`. -/
def NewServer : Server := ⟨[]⟩

/-- Method `Server.Register`; `toLower` is `strings.ToLower`. -/
def Server.Register (toLower : String → String) (s : Server) (method : String)
    (h : HandlerFunc) : Server :=
  ⟨s.handlers.set (toLower method) h⟩

/-- Method `Server.process`. -/
def Server.process (toLower : String → String) (s : Server) (req : RpcRequest) : RpcResponse :=
  match s.handlers.get? (toLower req.Method) with
  | none => ⟨"2.0", none, some ⟨-32601, "method not found"⟩, none⟩
  | some handler =>
    match handler req.Params with
    | (_, some e) => ⟨"2.0", none, some ⟨-32000, e⟩, none⟩
    | (response, none) => ⟨"2.0", response, none, req.ID⟩

/-- The server after a sequence of `Register` calls on a new server. -/
def registerAll (toLower : String → String) (regs : List (String × HandlerFunc)) : Server :=
  regs.foldl (fun s r => s.Register toLower r.1 r.2) NewServer

/-! ## Fetch calls of RPC.GetBlocks -/

/-- Method `RPC.GetBlocks` together with the fetch calls it makes, each with the `retries`
value of the call that issues it and its keys, in order.  The second component is the result
of `GetBlocks`. -/
def GetBlocksTraced (loader : Loader) (ord : Nat → MapOrder Nat Nat) :
    Nat → List Nat → List (Nat × List Nat) × Option (List Block × List Nat)
  | 0, blocksIds =>
    match recordFailed blocksIds (loader 0 blocksIds).2 0 [] with
    | none => ([(0, blocksIds)], none)
    | some failed =>
      let blocks := copyBlocks blocksIds.length (loader 0 blocksIds).1
      if failed.length = 0 then ([(0, blocksIds)], some (blocks, []))
      else ([(0, blocksIds)], some (blocks, values (ord 0) failed))
  | retries + 1, blocksIds =>
    match recordFailed blocksIds (loader (retries + 1) blocksIds).2 0 [] with
    | none => ([(retries + 1, blocksIds)], none)
    | some failed =>
      let blocks := copyBlocks blocksIds.length (loader (retries + 1) blocksIds).1
      if failed.length = 0 then ([(retries + 1, blocksIds)], some (blocks, []))
      else
        let toRetryIds := keys (ord (retries + 1)) failed
        match GetBlocksTraced loader ord retries toRetryIds with
        | (calls, none) => ((retries + 1, blocksIds) :: calls, none)
        | (calls, some (missingBlocks, failedIdx)) =>
          match augment failed missingBlocks toRetryIds 0 blocks with
          | none => ((retries + 1, blocksIds) :: calls, none)
          | some blocks' => ((retries + 1, blocksIds) :: calls, some (blocks', failedIdx))

/-! ## Specification predicates -/

/-- `FetchedFor loader ord r ids id b`: during `GetBlocks` with `retries = r` on `ids`, the
loader returned the block `b` at a position whose key is `id`, either in the fetch of this
call or in a fetch of one of the retries that follow it. -/
inductive FetchedFor (loader : Loader) (ord : Nat → MapOrder Nat Nat) :
    Nat → List Nat → Nat → Block → Prop where
  | first (r : Nat) (ids : List Nat) (j id : Nat) (b : Block) :
      ids[j]? = some id → (loader r ids).1[j]? = some b → FetchedFor loader ord r ids id b
  | retry (r : Nat) (ids : List Nat) (failed : GoMap Nat Nat) (id : Nat) (b : Block) :
      recordFailed ids (loader (r + 1) ids).2 0 [] = some failed →
      failed.length ≠ 0 →
      FetchedFor loader ord r (keys (ord (r + 1)) failed) id b →
      FetchedFor loader ord (r + 1) ids id b

/-- The event is a call of the sink, `Mongo.SaveRelations`. -/
def Event.isSave : Event → Bool
  | Event.SaveRelations _ => true
  | _ => false

/-- The transaction is kept by `fetchBlocks`: it parsed without error and is included. -/
def includedTx (sdk : SDK) (btx : BlockRawTransaction) : Option Tx :=
  match TxFromBlockTransaction sdk btx with
  | some (tx, true, none) => some tx
  | _ => none

/-- The relations `process` builds from one transaction (lines 216-230); `none` is a panic. -/
def relationsOf (P : Program) (ord : MapOrder Int (List Instruction)) (blockTime : Nat)
    (tx : Tx) : Option (List Relation) :=
  match findAddInst P ord tx with
  | none => none
  | some addTxs => sliceMap (relationOf blockTime) addTxs

/-! ## Example inputs -/

/-- A parsed block for slot `k`. -/
def exBlock (k : Nat) : Block := ⟨k - 1, 1700000000, "hash", []⟩

/-- A loader for which slot 20 fails on every attempt and every other slot succeeds. -/
def exLoader : Loader := fun _ ks =>
  (ks.map (fun k => if k = 20 then Block.zero else exBlock k),
   ks.map (fun k => if k = 20 then some "rpc errored with message: slot skipped" else none))

/-- A loader for which every slot fails on every attempt. -/
def exLoaderDown : Loader := fun _ ks =>
  (ks.map (fun _ => Block.zero), ks.map (fun _ => some "rpc errored with message: down"))

/-- The Borsh layout of `addRelationParams`: 32 bytes, 32 bytes, a little-endian `u32`
length and that many bytes. -/
def borshAddRelation (bs : List Nat) : Option addRelationParams :=
  if bs.length < 68 then none
  else
    let n := bs.getD 64 0 + 256 * bs.getD 65 0 + 65536 * bs.getD 66 0 + 16777216 * bs.getD 67 0
    if bs.length < 68 + n then none
    else some ⟨bs.take 32, (bs.drop 32).take 32, (bs.drop 68).take n⟩

/-- A target program id. -/
def exGraphID : PublicKey := List.replicate 32 9

/-- An extractor configuration with the discriminator `disc`. -/
def exProgram (disc : List Nat) : Program := ⟨exGraphID, disc, borshAddRelation⟩

/-- Borsh encoding of from = 32 times 1, to = 32 times 2, extra = 0x01. -/
def exPayload : List Nat := List.replicate 32 1 ++ List.replicate 32 2 ++ [1, 0, 0, 0] ++ [1]

/-- Accounts of the example instructions; the first one is the provider. -/
def exAccounts : List AccountMeta := [⟨List.replicate 32 3, true, true⟩]

/-- A transaction with one outer instruction of the target program carrying `data`. -/
def exTx (data : ByteSlice) : Tx := ⟨"sig", ⟨[], [], []⟩, [⟨exGraphID, exAccounts, data⟩], []⟩

/-- The discriminator used in the examples. -/
def exDisc : List Nat := [1, 2, 3, 4, 5, 6, 7, 8]

/-- A transaction with one AddRelation instruction of the target program. -/
def exRelTx : Tx := exTx (ByteSlice.ofBytes (exDisc ++ exPayload))

/-- The relation that `exRelTx` yields in a block with block time 1700000000. -/
def exRelation : Relation :=
  ⟨List.replicate 32 1, List.replicate 32 2, List.replicate 32 3, 1700000000, none, [1]⟩

/-- The blocks of slots 1004 and 1003; the first one holds `exRelTx`. -/
def exBlocks : List Block := [⟨1003, 1700000000, "hash", [exRelTx]⟩, exBlock 1003]

/-- Collaborators for one step: a reclaimed entry for slot 1003 and a fresh one for slot
1004; `GetBlocks` answers `exBlocks` with the failed indices `failedIdx`; the sink and
`AddBlocks` answer `sinkErr` and `addErr`; every map is visited in storage order. -/
def exEnv (failedIdx : List Nat) (sinkErr addErr : Option String) : Env where
  FindStaleBlocks := fun _ _ => Except.ok [("1-0", 1003)]
  FetchStreamEvents := fun _ _ => Except.ok [("2-0", 1004)]
  GetBlocks := fun _ _ _ => (exBlocks, failedIdx, none)
  SaveRelations := fun _ _ => sinkErr
  AddBlocks := fun _ _ => addErr
  AcknowledgeBlocks := fun _ _ => none
  ordInner := fun m => m
  ordStale := fun m => m
  ordValues := fun m => m
  ordKeys := fun m => m

/-- The calls of a step of `exEnv` up to the sink call. -/
def exCalls : List Event :=
  [Event.FindStaleBlocks 20, Event.FetchStreamEvents 19, Event.GetBlocks 4 [1004, 1003],
    Event.SaveRelations [exRelation]]

/-- A deserialized transaction with one signature and two accounts. -/
def exTransaction : Transaction :=
  ⟨[[5]], ⟨⟨1, 0, 1⟩, [List.replicate 32 3, List.replicate 32 4], []⟩⟩

/-- Library stubs for the examples: base64 rejects the empty string and base58 rejects the
empty string; every raw transaction deserializes to `exTransaction`, which has one
instruction of a program that is not the vote program. -/
def exSDK : SDK where
  base64Decode := fun s => if s = "" then Except.error "illegal base64 data" else Except.ok [1]
  TransactionDeserialize := fun _ => Except.ok exTransaction
  DecompileInstructions := fun _ =>
    [⟨List.replicate 32 0, [⟨List.replicate 32 3, true, true⟩], ByteSlice.ofBytes [2, 0, 0, 0]⟩]
  base58Decode := fun s =>
    if s = "" then (⟨[], 0⟩, some "zero length string")
    else (ByteSlice.ofBytes (List.replicate 32 7), none)
  base58Encode := fun _ => "sig"
  VoteProgramID := List.replicate 32 8

/-- A raw legacy transaction without execution error, carrying the post token balances
`post`. -/
def exRawTx (payload : String) (post : List TransactionMetaTokenBalance) : BlockRawTransaction :=
  ⟨⟨none, 5000, [10, 0], [5, 5], [], post, [], []⟩, (payload, "base64"), Version.null⟩

/-- What `exRawTx "AQ==" []` parses to. -/
def exParsedTx : Tx :=
  ⟨"sig", ⟨[(List.replicate 32 3, -5), (List.replicate 32 4, 5)], [], []⟩,
    [⟨List.replicate 32 0, [⟨List.replicate 32 3, true, true⟩], ByteSlice.ofBytes [2, 0, 0, 0]⟩],
    []⟩

/-- A `getBlock` answer for one slot whose first transaction is not valid base64. -/
def exResponse : List getBlockRpcResponse :=
  [⟨none, ⟨900, 1700000000, 1002, "hash", "prev", [exRawTx "" [], exRawTx "AQ==" []]⟩⟩]

/-- The batched request answered with `exResponse`. -/
def exCall : List Nat → Except String (List getBlockRpcResponse) := fun _ => Except.ok exResponse

/-- A raw transaction with a post token balance whose owner field is empty. -/
def exRawTxNoOwner : BlockRawTransaction := exRawTx "AQ==" [⟨1, "mint", "", "100", 6⟩]

/-- Two account keys of the examples. -/
def exKeyA : PublicKey := List.replicate 32 3

/-- The second account key of the examples. -/
def exKeyB : PublicKey := List.replicate 32 4

/-- A transaction meta without execution error carrying the given balances. -/
def exMeta (pre post : List Int) (preTok postTok : List TransactionMetaTokenBalance) : txMeta :=
  ⟨none, 5000, pre, post, preTok, postTok, [], []⟩

/-- Harvester collaborators that never fail: the latest slot is `latest` and every
`GetBlocksWithLimit` call answers `slots`. -/
def exHarvestEnv (latest : Nat) (slots : List Nat) : HarvestEnv where
  done := fun _ => false
  getFails := fun _ => none
  GetLatestBlock := fun _ => Except.ok latest
  GetBlocksWithLimit := fun _ _ _ => Except.ok slots
  AddBlocks := fun _ _ => none
  saveFails := fun _ _ => none

/-- As `exHarvestEnv`, with a queue that refuses every `AddBlocks`. -/
def exHarvestEnvDown (latest : Nat) (slots : List Nat) : HarvestEnv where
  done := fun _ => false
  getFails := fun _ => none
  GetLatestBlock := fun _ => Except.ok latest
  GetBlocksWithLimit := fun _ _ _ => Except.ok slots
  AddBlocks := fun _ _ => some "connection refused"
  saveFails := fun _ _ => none

/-- As `exSDK`, but every transaction decompiles to one AddRelation instruction of the target
program. -/
def exGraphSDK : SDK :=
  { exSDK with
    DecompileInstructions := fun _ =>
      [⟨exGraphID, exAccounts, ByteSlice.ofBytes (exDisc ++ exPayload)⟩] }

/-- As `exEnv`, with `GetBlocks` answered by `RPC.GetBlocks` over `fetchBlocks` for the
response `exResponse`. -/
def exFetchEnv : Env :=
  { exEnv [] none none with
    GetBlocks := fun _ r ids =>
      match GetBlocks (fun _ ks => (fetchBlocks exGraphSDK exCall ks).getD ([], []))
          (fun _ m => m) r ids with
      | some (blocks, failedIdx) => (blocks, failedIdx, none)
      | none => ([], [], none) }

/-- A store with no relation. -/
def exStore : FetchCall → Except String (List Relation) := fun _ => Except.ok []

/-! ## Theorems -/

/-- C1 (code defect).  With `ids = [10, 20]`, `retries = 1` and a loader for which only slot
20 fails, `GetBlocks` returns the failed index 0: it is the position of slot 20 in the retry
list `[20]`, not in `ids`, where position 0 holds the block of slot 10, fetched without an
error, and position 1, the one that failed, is not reported.  With `ids = [7, 7]`,
`retries = 0` and both fetches failing, only position 1 is reported. -/
theorem GetBlocks_failed_index_of_retry_list :
    GetBlocks exLoader (fun _ m => m) 1 [10, 20] = some ([exBlock 10, Block.zero], [0]) ∧
    (exLoader 1 [10, 20]).2 = [none, some "rpc errored with message: slot skipped"] ∧
    GetBlocks exLoaderDown (fun _ m => m) 0 [7, 7] = some ([Block.zero, Block.zero], [1]) := by
  refine ⟨?_, ?_, ?_⟩ <;> decide

/-- An entry of `m.set k v` is the new entry or an entry of `m`. -/
theorem GoMap.mem_set {κ ν : Type} [DecidableEq κ] (m : GoMap κ ν) (k : κ) (v : ν)
    (p : κ × ν) (h : p ∈ GoMap.set m k v) : p = (k, v) ∨ p ∈ m := by
  induction m with
  | nil => simp [GoMap.set] at h; exact Or.inl h
  | cons hd tl ih =>
    obtain ⟨k', v'⟩ := hd
    unfold GoMap.set at h
    split at h
    · rcases List.mem_cons.1 h with h | h
      · exact Or.inl h
      · exact Or.inr (List.mem_cons_of_mem _ h)
    · rcases List.mem_cons.1 h with h | h
      · exact Or.inr (h ▸ List.mem_cons_self _ _)
      · rcases ih h with h | h
        · exact Or.inl h
        · exact Or.inr (List.mem_cons_of_mem _ h)

/-- A successful lookup returns an entry of the map. -/
theorem GoMap.get?_mem {κ ν : Type} [DecidableEq κ] (m : GoMap κ ν) (k : κ) (v : ν)
    (h : GoMap.get? m k = some v) : (k, v) ∈ m := by
  induction m with
  | nil => simp [GoMap.get?] at h
  | cons hd tl ih =>
    obtain ⟨k', v'⟩ := hd
    unfold GoMap.get? at h
    split at h
    · rename_i hk
      cases h
      subst hk
      exact List.mem_cons_self _ _
    · exact List.mem_cons_of_mem _ (ih h)

/-- A key of the map is found by the lookup. -/
theorem GoMap.get?_of_mem {κ ν : Type} [DecidableEq κ] (m : GoMap κ ν) (k : κ) (v : ν)
    (h : (k, v) ∈ m) : ∃ w, GoMap.get? m k = some w := by
  induction m with
  | nil => simp at h
  | cons hd tl ih =>
    obtain ⟨k', v'⟩ := hd
    unfold GoMap.get?
    split
    · exact ⟨v', rfl⟩
    · rename_i hk
      rcases List.mem_cons.1 h with h | h
      · cases h; exact absurd rfl hk
      · exact ih h

/-- Every entry written by the loop of lines 232-238 maps a block id to one of its positions. -/
theorem recordFailed_inv (ids : List Nat) :
    ∀ (errs : List (Option String)) (i : Nat) (failed0 failed : GoMap Nat Nat),
      (∀ p ∈ failed0, ids[p.2]? = some p.1) →
      recordFailed ids errs i failed0 = some failed →
      ∀ p ∈ failed, ids[p.2]? = some p.1 := by
  intro errs
  induction errs with
  | nil =>
    intro i failed0 failed h0 h
    simp [recordFailed] at h
    subst h
    exact h0
  | cons e errs ih =>
    intro i failed0 failed h0 h
    cases e with
    | none =>
      simp only [recordFailed] at h
      exact ih _ _ _ h0 h
    | some msg =>
      simp only [recordFailed] at h
      split at h
      · cases h
      · rename_i id hid
        refine ih _ _ _ ?_ h
        intro p hp
        rcases GoMap.mem_set _ _ _ _ hp with hp | hp
        · subst hp; exact hid
        · exact h0 p hp

/-- The loop of lines 232-238 does not panic when `errs` is no longer than `blocksIds`. -/
theorem recordFailed_total (ids : List Nat) :
    ∀ (errs : List (Option String)) (i : Nat) (failed0 : GoMap Nat Nat),
      errs.length + i ≤ ids.length → ∃ failed, recordFailed ids errs i failed0 = some failed := by
  intro errs
  induction errs with
  | nil => intro i failed0 _; exact ⟨failed0, rfl⟩
  | cons e errs ih =>
    intro i failed0 hlen
    simp only [List.length_cons] at hlen
    cases e with
    | none =>
      simp only [recordFailed]
      exact ih _ _ (by omega)
    | some msg =>
      simp only [recordFailed]
      have hi : i < ids.length := by omega
      rw [List.getElem?_eq_getElem hi]
      exact ih _ _ (by omega)

/-- Line 241: the returned slice has the length of `blocksIds`. -/
theorem copyBlocks_length (n : Nat) (l : List Block) : (copyBlocks n l).length = n := by
  simp [copyBlocks, List.length_take]
  omega

/-- Line 242: a position holds the loader's block of that position or the zero block. -/
theorem copyBlocks_getElem? (n : Nat) (l : List Block) (i : Nat) (b : Block)
    (h : (copyBlocks n l)[i]? = some b) : b = Block.zero ∨ l[i]? = some b := by
  unfold copyBlocks at h
  rw [List.getElem?_append] at h
  split at h
  · rw [List.getElem?_take] at h
    split at h
    · exact Or.inr h
    · cases h
  · rw [List.getElem?_replicate] at h
    split at h
    · cases h; exact Or.inl rfl
    · cases h

/-- The loop of lines 265-267 keeps the length, and a position holds its former block or the
block of a retried id stored at `failed[id]`. -/
theorem augment_spec (failed : GoMap Nat Nat) (missing : List Block) :
    ∀ (rest : List Nat) (i : Nat) (blocks blocks' : List Block),
      augment failed missing rest i blocks = some blocks' →
      blocks'.length = blocks.length ∧
      ∀ p b, blocks'[p]? = some b →
        blocks[p]? = some b ∨
        ∃ j id, rest[j]? = some id ∧ missing[i + j]? = some b ∧ p = (failed.get? id).getD 0 := by
  intro rest
  induction rest with
  | nil =>
    intro i blocks blocks' h
    simp [augment] at h
    subst h
    exact ⟨rfl, fun p b hb => Or.inl hb⟩
  | cons id rest ih =>
    intro i blocks blocks' h
    simp only [augment] at h
    split at h
    · cases h
    · rename_i b0 hb0
      split at h
      · rename_i hpos
        obtain ⟨hl, hp⟩ := ih _ _ _ h
        refine ⟨by rw [hl, List.length_set], ?_⟩
        intro p b hb
        rcases hp p b hb with h1 | ⟨j, id', hj, hm, hpe⟩
        · rw [List.getElem?_set] at h1
          split at h1
          · rename_i heq
            cases h1
            exact Or.inr ⟨0, id, by simp, by simpa using hb0, heq.symm⟩
          · exact Or.inl h1
        · exact Or.inr ⟨j + 1, id', by simpa using hj, by rw [← hm]; congr 1; omega, hpe⟩
      · cases h

/-- The loop of lines 265-267 does not panic when `missingBlocks` is long enough and every
`failed[id]` is a position of `blocks`. -/
theorem augment_total (failed : GoMap Nat Nat) (missing : List Block) :
    ∀ (rest : List Nat) (i : Nat) (blocks : List Block),
      rest.length + i ≤ missing.length →
      (∀ id ∈ rest, (failed.get? id).getD 0 < blocks.length) →
      ∃ blocks', augment failed missing rest i blocks = some blocks' := by
  intro rest
  induction rest with
  | nil => intro i blocks _ _; exact ⟨blocks, rfl⟩
  | cons id rest ih =>
    intro i blocks hlen hpos
    simp only [List.length_cons] at hlen
    simp only [augment]
    have hi : i < missing.length := by omega
    rw [List.getElem?_eq_getElem hi]
    simp only
    rw [if_pos (hpos id (List.mem_cons_self _ _))]
    refine ih _ _ (by omega) ?_
    intro id' hid'
    rw [List.length_set]
    exact hpos id' (List.mem_cons_of_mem _ hid')


/-- A key enumerated from `failed` is found in it, at one of its positions in `ids`. -/
theorem keys_get? (ord : MapOrder Nat Nat) (hord : ord.Valid) (ids : List Nat)
    (failed : GoMap Nat Nat) (hinv : ∀ p ∈ failed, ids[p.2]? = some p.1) (id : Nat)
    (hid : id ∈ keys ord failed) :
    ∃ w, failed.get? id = some w ∧ ids[w]? = some id := by
  unfold keys at hid
  obtain ⟨p, hp, rfl⟩ := List.mem_map.1 hid
  have hp' : p ∈ failed := (hord failed).mem_iff.1 hp
  obtain ⟨w, hw⟩ := GoMap.get?_of_mem failed p.1 p.2 hp'
  exact ⟨w, hw, hinv _ (GoMap.get?_mem _ _ _ hw)⟩

/-- C2.  For every loader, iteration order, `retries` and `ids`: whenever `GetBlocks` returns,
the block list has exactly `|ids|` elements and position `i` holds the zero block or a block
that the loader returned for the key `ids[i]`, in the first fetch or in a retry; and with a
loader that returns no more errors than keys, `GetBlocks` does return. -/
theorem GetBlocks_positions (loader : Loader) (ord : Nat → MapOrder Nat Nat)
    (hord : ∀ r, (ord r).Valid) (r : Nat) (ids : List Nat) :
    (∀ (blocks : List Block) (failedIdx : List Nat),
      GetBlocks loader ord r ids = some (blocks, failedIdx) →
      blocks.length = ids.length ∧
      ∀ (i id : Nat), ids[i]? = some id →
        ∃ b, blocks[i]? = some b ∧ (b = Block.zero ∨ FetchedFor loader ord r ids id b)) ∧
    ((∀ k ks, (loader k ks).2.length ≤ ks.length) → (GetBlocks loader ord r ids).isSome) := by
  have first : ∀ (r : Nat) (ids : List Nat) (i id : Nat) (b : Block), ids[i]? = some id →
      (copyBlocks ids.length (loader r ids).1)[i]? = some b →
      b = Block.zero ∨ FetchedFor loader ord r ids id b := by
    intro r ids i id b hid hb
    rcases copyBlocks_getElem? _ _ _ _ hb with h | h
    · exact Or.inl h
    · exact Or.inr (FetchedFor.first r ids i id b hid h)
  have copied : ∀ (r : Nat) (ids : List Nat) (i id : Nat), ids[i]? = some id →
      ∃ b, (copyBlocks ids.length (loader r ids).1)[i]? = some b := by
    intro r ids i id hid
    have hi : i < ids.length := (List.getElem?_eq_some.1 hid).1
    have : i < (copyBlocks ids.length (loader r ids).1).length := by
      rw [copyBlocks_length]; exact hi
    exact ⟨_, List.getElem?_eq_getElem this⟩
  induction r generalizing ids with
  | zero =>
    constructor
    · intro blocks failedIdx h
      simp only [GetBlocks] at h
      split at h
      · cases h
      · split at h <;>
        · cases h
          refine ⟨copyBlocks_length _ _, fun i id hid => ?_⟩
          obtain ⟨b, hb⟩ := copied 0 ids i id hid
          exact ⟨b, hb, first 0 ids i id b hid hb⟩
    · intro hlen
      obtain ⟨failed, hf⟩ := recordFailed_total ids (loader 0 ids).2 0 [] (by simpa using hlen 0 ids)
      simp only [GetBlocks, hf]
      split <;> rfl
  | succ r ih =>
    constructor
    · intro blocks failedIdx h
      simp only [GetBlocks] at h
      split at h
      · cases h
      · rename_i failed hf
        split at h
        · cases h
          refine ⟨copyBlocks_length _ _, fun i id hid => ?_⟩
          obtain ⟨b, hb⟩ := copied (r + 1) ids i id hid
          exact ⟨b, hb, first (r + 1) ids i id b hid hb⟩
        · rename_i hne
          split at h
          · cases h
          · rename_i missing fIdx hrec
            split at h
            · cases h
            · rename_i blocks' haug
              obtain ⟨hbb, hff⟩ : blocks' = blocks ∧ fIdx = failedIdx := by simpa using h
              subst hbb hff
              obtain ⟨hlen', hpos⟩ := augment_spec _ _ _ _ _ _ haug
              have hinv := recordFailed_inv ids _ 0 [] failed (by simp) hf
              obtain ⟨_, hmiss⟩ := (ih (keys (ord (r + 1)) failed)).1 missing _ hrec
              refine ⟨by rw [hlen', copyBlocks_length], fun i id hid => ?_⟩
              have hi : i < blocks'.length := by
                rw [hlen', copyBlocks_length]; exact (List.getElem?_eq_some.1 hid).1
              refine ⟨blocks'[i], List.getElem?_eq_getElem hi, ?_⟩
              rcases hpos i blocks'[i] (List.getElem?_eq_getElem hi) with h1 | ⟨j, id', hj, hm, hpe⟩
              · exact first (r + 1) ids i id _ hid h1
              · obtain ⟨w, hw, hidw⟩ := keys_get? (ord (r + 1)) (hord (r + 1)) ids failed hinv id'
                  (List.getElem?_mem hj)
                rw [hw] at hpe
                simp only [Option.getD_some] at hpe
                subst hpe
                rw [hidw] at hid
                have hii : id' = id := by simpa using hid
                subst hii
                obtain ⟨b', hb', hgood⟩ := hmiss j id' hj
                rw [Nat.zero_add] at hm
                rw [hm] at hb'
                cases hb'
                rcases hgood with h0 | hF
                · exact Or.inl h0
                · exact Or.inr (FetchedFor.retry r ids failed id' _ hf hne hF)
    · intro hlen
      obtain ⟨failed, hf⟩ := recordFailed_total ids (loader (r + 1) ids).2 0 []
        (by simpa using hlen (r + 1) ids)
      have hinv := recordFailed_inv ids _ 0 [] failed (by simp) hf
      simp only [GetBlocks, hf]
      split
      · rfl
      · have hsome := (ih (keys (ord (r + 1)) failed)).2 hlen
        obtain ⟨⟨missing, fIdx⟩, hrec⟩ := Option.isSome_iff_exists.1 hsome
        obtain ⟨hml, _⟩ := (ih (keys (ord (r + 1)) failed)).1 missing fIdx hrec
        obtain ⟨blocks', haug⟩ := augment_total failed missing (keys (ord (r + 1)) failed) 0
          (copyBlocks ids.length (loader (r + 1) ids).1) (by omega) (by
            intro id hid
            obtain ⟨w, hw, hidw⟩ := keys_get? (ord (r + 1)) (hord (r + 1)) ids failed hinv id hid
            rw [hw, copyBlocks_length]
            exact (List.getElem?_eq_some.1 hidw).1)
        simp only [hrec, haug]
        rfl

/-- C2 at `ids = [10, 20]`, `retries = 1`, with the loader that fails for slot 20. -/
theorem GetBlocks_positions_witness :
    (∀ r : Nat, MapOrder.Valid ((fun _ m => m : Nat → MapOrder Nat Nat) r)) ∧
    ((∀ (blocks : List Block) (failedIdx : List Nat),
      GetBlocks exLoader (fun _ m => m) 1 [10, 20] = some (blocks, failedIdx) →
      blocks.length = [10, 20].length ∧
      ∀ (i id : Nat), [10, 20][i]? = some id →
        ∃ b, blocks[i]? = some b ∧
          (b = Block.zero ∨ FetchedFor exLoader (fun _ m => m) 1 [10, 20] id b)) ∧
    ((∀ k ks, (exLoader k ks).2.length ≤ ks.length) →
      (GetBlocks exLoader (fun _ m => m) 1 [10, 20]).isSome)) :=
  ⟨fun _ m => List.Perm.refl m,
    GetBlocks_positions exLoader (fun _ m => m) (fun _ m => List.Perm.refl m) 1 [10, 20]⟩

/-- `process` adds nothing to the calls but sink calls, and it returns an error only when
the sink call it just made returned one. -/
theorem process_trace (P : Program) (env : Env) (tr : List Event) (tx : Tx) (blockTime : Nat)
    (tr' : List Event) (r : Option String)
    (h : process P env tr tx blockTime = some (tr', r)) :
    (∃ saves, tr' = tr ++ saves ∧ ∀ ev ∈ saves, ev.isSave = true) ∧
    (∀ e, r = some e → ∃ pre rels e0, tr' = pre ++ [Event.SaveRelations rels] ∧
      env.SaveRelations pre rels = some e0 ∧ e = "save relations: " ++ e0) := by
  unfold process at h
  split at h
  · cases h
  · split at h
    · cases h
      exact ⟨⟨[], by simp, by simp⟩, fun e he => by cases he⟩
    · split at h
      · cases h
      · rename_i relations _
        split at h
        · rename_i e0 he0
          cases h
          exact ⟨⟨[Event.SaveRelations relations], rfl, by simp [Event.isSave]⟩,
            fun e he => ⟨tr, relations, e0, rfl, he0, by cases he; rfl⟩⟩
        · cases h
          exact ⟨⟨[Event.SaveRelations relations], rfl, by simp [Event.isSave]⟩,
            fun e he => by cases he⟩

/-- The loop over the transactions of a block: as `process_trace`. -/
theorem processTxs_trace (P : Program) (env : Env) (blockTime : Nat) :
    ∀ (txs : List Tx) (tr tr' : List Event) (r : Option String),
      processTxs P env blockTime txs tr = some (tr', r) →
      (∃ saves, tr' = tr ++ saves ∧ ∀ ev ∈ saves, ev.isSave = true) ∧
      (∀ e, r = some e → ∃ pre rels e0, tr' = pre ++ [Event.SaveRelations rels] ∧
        env.SaveRelations pre rels = some e0 ∧ e = "save relations: " ++ e0) := by
  intro txs
  induction txs with
  | nil =>
    intro tr tr' r h
    simp only [processTxs] at h
    cases h
    exact ⟨⟨[], by simp, by simp⟩, fun e he => by cases he⟩
  | cons tx rest ih =>
    intro tr tr' r h
    simp only [processTxs] at h
    split at h
    · cases h
    · rename_i tr1 e hp
      cases h
      exact process_trace P env tr tx blockTime _ _ hp
    · rename_i tr1 hp
      obtain ⟨⟨s1, hs1, hs1'⟩, _⟩ := process_trace P env tr tx blockTime _ _ hp
      obtain ⟨⟨s2, hs2, hs2'⟩, herr⟩ := ih _ _ _ h
      refine ⟨⟨s1 ++ s2, by rw [hs2, hs1, List.append_assoc], ?_⟩, herr⟩
      intro ev hev
      rcases List.mem_append.1 hev with h1 | h1
      · exact hs1' ev h1
      · exact hs2' ev h1

/-- The loop over the blocks: as `process_trace`. -/
theorem classify_trace (P : Program) (env : Env) :
    ∀ (blocks : List Block) (tr tr' : List Event) (r : Option String),
      classify P env blocks tr = some (tr', r) →
      (∃ saves, tr' = tr ++ saves ∧ ∀ ev ∈ saves, ev.isSave = true) ∧
      (∀ e, r = some e → ∃ pre rels e0, tr' = pre ++ [Event.SaveRelations rels] ∧
        env.SaveRelations pre rels = some e0 ∧ e = "save relations: " ++ e0) := by
  intro blocks
  induction blocks with
  | nil =>
    intro tr tr' r h
    simp only [classify] at h
    cases h
    exact ⟨⟨[], by simp, by simp⟩, fun e he => by cases he⟩
  | cons block rest ih =>
    intro tr tr' r h
    simp only [classify] at h
    split at h
    · cases h
    · rename_i tr1 e hp
      cases h
      exact processTxs_trace P env _ _ _ _ _ hp
    · rename_i tr1 hp
      obtain ⟨⟨s1, hs1, hs1'⟩, _⟩ := processTxs_trace P env _ _ _ _ _ hp
      obtain ⟨⟨s2, hs2, hs2'⟩, herr⟩ := ih _ _ _ h
      refine ⟨⟨s1 ++ s2, by rw [hs2, hs1, List.append_assoc], ?_⟩, herr⟩
      intro ev hev
      rcases List.mem_append.1 hev with h1 | h1
      · exact hs1' ev h1
      · exact hs2' ev h1

/-- Lines 190-198: with every failed index in range, `failed` is `ids[f]` for each `f` in
order. -/
theorem sliceMap_getElem?_total (ids : List Nat) :
    ∀ (F : List Nat), (∀ f ∈ F, f < ids.length) →
      sliceMap (fun f => ids[f]?) F = some (F.map (fun f => ids.getD f 0)) := by
  intro F
  induction F with
  | nil => intro _; rfl
  | cons f rest ih =>
    intro h
    have hf : f < ids.length := h f (List.mem_cons_self _ _)
    simp only [sliceMap, List.getElem?_eq_getElem hf, ih (fun g hg => h g (List.mem_cons_of_mem _ hg)),
      List.map_cons, List.getD_eq_getElem?_getD, Option.getD_some]

/-- The keys after `m[k'] = v` are `k'` and the keys of `m`. -/
theorem GoMap.mem_keys_set {κ ν : Type} [DecidableEq κ] (m : GoMap κ ν) (k' : κ) (v : ν) (k : κ) :
    k ∈ (GoMap.set m k' v).map Prod.fst ↔ k = k' ∨ k ∈ m.map Prod.fst := by
  induction m with
  | nil => simp [GoMap.set]
  | cons hd tl ih =>
    obtain ⟨a, b⟩ := hd
    unfold GoMap.set
    split
    · rename_i hab
      subst hab
      simp only [List.map_cons, List.mem_cons]
      tauto
    · simp only [List.map_cons, List.mem_cons, ih]
      tauto

/-- Lines 134-136: the keys of the merged batch are those of both batches. -/
theorem mem_keys_mergeStale (k : String) :
    ∀ (l : List (String × Nat)) (m : GoMap String Nat),
      k ∈ (mergeStale l m).map Prod.fst ↔ k ∈ l.map Prod.fst ∨ k ∈ m.map Prod.fst := by
  intro l
  induction l with
  | nil => intro m; simp [mergeStale]
  | cons hd tl ih =>
    intro m
    have := ih (GoMap.set m hd.1 hd.2)
    simp only [mergeStale, List.foldl_cons] at this ⊢
    rw [this, GoMap.mem_keys_set]
    simp only [List.map_cons, List.mem_cons]
    tauto

/-- The calls of `processBlocks` are one `GetBlocks` call followed by sink calls. -/
theorem processBlocks_trace (P : Program) (env : Env) (tr : List Event) (ids : List Nat)
    (tr' : List Event) (r : Except String (List Nat))
    (h : processBlocks P env tr ids = some (tr', r)) :
    ∃ saves, tr' = tr ++ [Event.GetBlocks retries ids] ++ saves ∧ ∀ ev ∈ saves, ev.isSave = true := by
  unfold processBlocks at h
  split at h
  · cases h
    exact ⟨[], by simp, by simp⟩
  · split at h
    · cases h
    · split at h
      · cases h
      · rename_i hc
        cases h
        exact (classify_trace P env _ _ _ _ hc).1
      · rename_i hc
        cases h
        exact (classify_trace P env _ _ _ _ hc).1

/-- Lines 156-169 without an error: the re-enqueue call if `failed` is not empty, then one
acknowledgement of `keys(batch)`, then the two counter updates. -/
theorem finishBatch_ok (env : Env) (p p' : Processor) (tr tr' : List Event)
    (batch : GoMap String Nat) (ids failed : List Nat)
    (h : finishBatch env p tr batch ids failed = some (p', tr', none)) :
    ∃ last, ids.getLast? = some last ∧ p' = bump p last ids.length ∧
      tr' = tr ++ (if failed.length > 0 then [Event.AddBlocks failed] else []) ++
        [Event.AcknowledgeBlocks (keys env.ordKeys batch)] ∧
      env.AcknowledgeBlocks (tr ++ (if failed.length > 0 then [Event.AddBlocks failed] else []))
        (keys env.ordKeys batch) = none ∧
      (failed.length > 0 → env.AddBlocks tr failed = none) := by
  unfold finishBatch at h
  by_cases hfl : failed.length > 0
  · simp only [hfl, if_true] at h ⊢
    cases hadd : env.AddBlocks tr failed with
    | some e => simp [hadd] at h
    | none =>
      simp only [hadd] at h
      cases hack : env.AcknowledgeBlocks (tr ++ [Event.AddBlocks failed]) (keys env.ordKeys batch) with
      | some e => simp [hack] at h
      | none =>
        simp only [hack] at h
        cases hl : ids.getLast? with
        | none => simp [hl] at h
        | some last =>
          simp only [hl, Option.some.injEq, Prod.mk.injEq, and_true] at h
          exact ⟨last, rfl, h.1.symm, h.2.symm, rfl, fun _ => rfl⟩
  · simp only [hfl, if_false] at h ⊢
    cases hack : env.AcknowledgeBlocks tr (keys env.ordKeys batch) with
    | some e => simp [hack] at h
    | none =>
      simp only [hack] at h
      cases hl : ids.getLast? with
      | none => simp [hl] at h
      | some last =>
        simp only [hl, Option.some.injEq, Prod.mk.injEq, and_true] at h
        exact ⟨last, rfl, h.1.symm, by simpa using h.2.symm, by simpa using hack, fun hh => False.elim hh⟩

/-- C3.  In a step of `ProcessBlocks` on a non-empty batch whose fetch succeeded, if the loop
over the transactions stops with an error `e`, then `ProcessBlocks` returns the error
("process batch: " followed by `e`), the counters are the ones it started with, the error is
the one a sink call just returned, and the calls of the step are `FindStaleBlocks`,
`FetchStreamEvents`, `GetBlocks` and sink calls only: neither `AddBlocks` nor
`AcknowledgeBlocks` is called. -/
theorem ProcessBlocks_sink_error (P : Program) (env : Env) (p : Processor) (tr : List Event)
    (stale fresh : GoMap String Nat) (blocks : List Block) (failedIdx : List Nat)
    (tr' : List Event) (e : String)
    (hs : env.FindStaleBlocks tr batchSize = Except.ok stale)
    (hf : env.FetchStreamEvents (tr ++ [Event.FindStaleBlocks batchSize])
      (remainingOf stale.length) = Except.ok fresh)
    (hne : (mergeStale (env.ordStale stale) fresh).length ≠ 0)
    (hg : env.GetBlocks
      (tr ++ [Event.FindStaleBlocks batchSize] ++ [Event.FetchStreamEvents (remainingOf stale.length)])
      retries (values env.ordValues (mergeStale (env.ordStale stale) fresh)) =
        (blocks, failedIdx, none))
    (hin : ∀ f ∈ failedIdx, f < (values env.ordValues (mergeStale (env.ordStale stale) fresh)).length)
    (hc : classify P env blocks
      (tr ++ [Event.FindStaleBlocks batchSize] ++ [Event.FetchStreamEvents (remainingOf stale.length)]
        ++ [Event.GetBlocks retries (values env.ordValues (mergeStale (env.ordStale stale) fresh))])
      = some (tr', some e)) :
    ProcessBlocks P env p tr = some (p, tr', some ("process batch: " ++ e)) ∧
    (∃ pre rels e0, tr' = pre ++ [Event.SaveRelations rels] ∧
      env.SaveRelations pre rels = some e0 ∧ e = "save relations: " ++ e0) ∧
    (∃ saves, tr' = tr ++ [Event.FindStaleBlocks batchSize,
        Event.FetchStreamEvents (remainingOf stale.length),
        Event.GetBlocks retries (values env.ordValues (mergeStale (env.ordStale stale) fresh))]
        ++ saves ∧ ∀ ev ∈ saves, ev.isSave = true) := by
  obtain ⟨⟨saves, hsv, hsv'⟩, herr⟩ := classify_trace P env _ _ _ _ hc
  refine ⟨?_, herr e rfl, ⟨saves, by simpa using hsv, hsv'⟩⟩
  have hpb : processBlocks P env
      (tr ++ [Event.FindStaleBlocks batchSize] ++ [Event.FetchStreamEvents (remainingOf stale.length)])
      (values env.ordValues (mergeStale (env.ordStale stale) fresh)) =
      some (tr', Except.error ("process batch: " ++ e)) := by
    unfold processBlocks
    rw [hg]
    simp only [failedIds, sliceMap_getElem?_total _ _ hin, hc]
  unfold ProcessBlocks
  simp only [hs, hf, hne, if_false, hpb]
/-- Lines 156-169 do not panic on a non-empty `ids`: an empty `failed` goes to the
acknowledgement, a non-empty one is first passed to `AddBlocks`, whose error ends the step. -/
theorem finishBatch_total (env : Env) (p : Processor) (tr : List Event)
    (batch : GoMap String Nat) (ids failed : List Nat) (hids : ids ≠ []) :
    (failed = [] → ∃ p' err, finishBatch env p tr batch ids failed =
      some (p', tr ++ [Event.AcknowledgeBlocks (keys env.ordKeys batch)], err)) ∧
    (failed ≠ [] → ∀ e, env.AddBlocks tr failed = some e →
      finishBatch env p tr batch ids failed =
        some (p, tr ++ [Event.AddBlocks failed], some ("adding failed blocks: " ++ e))) ∧
    (failed ≠ [] → env.AddBlocks tr failed = none →
      ∃ p' err, finishBatch env p tr batch ids failed =
        some (p', tr ++ [Event.AddBlocks failed, Event.AcknowledgeBlocks (keys env.ordKeys batch)],
          err)) := by
  obtain ⟨last, hl⟩ : ∃ last, ids.getLast? = some last := by
    cases h : ids.getLast? with
    | none => exact absurd (List.getLast?_eq_none_iff.1 h) hids
    | some last => exact ⟨last, rfl⟩
  refine ⟨?_, ?_, ?_⟩
  · intro hf
    subst hf
    unfold finishBatch
    simp only [List.length_nil, gt_iff_lt, lt_self_iff_false, if_false]
    cases hack : env.AcknowledgeBlocks tr (keys env.ordKeys batch) with
    | some e => exact ⟨_, _, rfl⟩
    | none => simp only [hl]; exact ⟨_, _, rfl⟩
  · intro hf e he
    have hpos : failed.length > 0 := List.length_pos.2 hf
    unfold finishBatch
    simp only [hpos, if_true, he]
  · intro hf he
    have hpos : failed.length > 0 := List.length_pos.2 hf
    unfold finishBatch
    simp only [hpos, if_true, he]
    cases hack : env.AcknowledgeBlocks (tr ++ [Event.AddBlocks failed]) (keys env.ordKeys batch) with
    | some e => exact ⟨p, some ("aknowledge blocks: " ++ e), by simp⟩
    | none => simp only [hl]; exact ⟨bump p last ids.length, none, by simp⟩

/-- C7 (amended).  In a step on a non-empty batch where `GetBlocks` returns the failed indices
`F`, all in range, and no sink call fails: `processBlocks` returns exactly `ids[f]` for each `f` of
`F`, in order; its calls are `GetBlocks` and sink calls only; with `F` empty `ProcessBlocks`
goes on with the acknowledgement and `AddBlocks` is not called; with `F` non-empty it calls
`AddBlocks` once with that list, and then either returns its error or acknowledges. -/
theorem processBlocks_reenqueue (P : Program) (env : Env) (p : Processor) (tr : List Event)
    (stale fresh : GoMap String Nat) (blocks : List Block) (F : List Nat) (tr3 : List Event)
    (hs : env.FindStaleBlocks tr batchSize = Except.ok stale)
    (hf : env.FetchStreamEvents (tr ++ [Event.FindStaleBlocks batchSize])
      (remainingOf stale.length) = Except.ok fresh)
    (hne : (mergeStale (env.ordStale stale) fresh).length ≠ 0)
    (hv : env.ordValues.Valid)
    (hg : env.GetBlocks
      (tr ++ [Event.FindStaleBlocks batchSize] ++ [Event.FetchStreamEvents (remainingOf stale.length)])
      retries (values env.ordValues (mergeStale (env.ordStale stale) fresh)) = (blocks, F, none))
    (hin : ∀ f ∈ F, f < (values env.ordValues (mergeStale (env.ordStale stale) fresh)).length)
    (hc : classify P env blocks
      (tr ++ [Event.FindStaleBlocks batchSize] ++ [Event.FetchStreamEvents (remainingOf stale.length)]
        ++ [Event.GetBlocks retries (values env.ordValues (mergeStale (env.ordStale stale) fresh))])
      = some (tr3, none)) :
    processBlocks P env
      (tr ++ [Event.FindStaleBlocks batchSize] ++ [Event.FetchStreamEvents (remainingOf stale.length)])
      (values env.ordValues (mergeStale (env.ordStale stale) fresh)) =
      some (tr3, Except.ok
        (F.map (fun f => (values env.ordValues (mergeStale (env.ordStale stale) fresh)).getD f 0))) ∧
    (∃ saves, tr3 = tr ++ [Event.FindStaleBlocks batchSize,
        Event.FetchStreamEvents (remainingOf stale.length),
        Event.GetBlocks retries (values env.ordValues (mergeStale (env.ordStale stale) fresh))]
        ++ saves ∧ ∀ ev ∈ saves, ev.isSave = true) ∧
    (F = [] → ∃ p' err, ProcessBlocks P env p tr = some (p',
      tr3 ++ [Event.AcknowledgeBlocks (keys env.ordKeys (mergeStale (env.ordStale stale) fresh))],
      err)) ∧
    (F ≠ [] → ∀ e, env.AddBlocks tr3
        (F.map (fun f => (values env.ordValues (mergeStale (env.ordStale stale) fresh)).getD f 0))
        = some e →
      ProcessBlocks P env p tr = some (p, tr3 ++ [Event.AddBlocks
        (F.map (fun f => (values env.ordValues (mergeStale (env.ordStale stale) fresh)).getD f 0))],
        some ("adding failed blocks: " ++ e))) ∧
    (F ≠ [] → env.AddBlocks tr3
        (F.map (fun f => (values env.ordValues (mergeStale (env.ordStale stale) fresh)).getD f 0))
        = none →
      ∃ p' err, ProcessBlocks P env p tr = some (p', tr3 ++ [Event.AddBlocks
        (F.map (fun f => (values env.ordValues (mergeStale (env.ordStale stale) fresh)).getD f 0)),
        Event.AcknowledgeBlocks (keys env.ordKeys (mergeStale (env.ordStale stale) fresh))],
        err)) := by
  obtain ⟨⟨saves, hsv, hsv'⟩, _⟩ := classify_trace P env _ _ _ _ hc
  have hpb : processBlocks P env
      (tr ++ [Event.FindStaleBlocks batchSize] ++ [Event.FetchStreamEvents (remainingOf stale.length)])
      (values env.ordValues (mergeStale (env.ordStale stale) fresh)) =
      some (tr3, Except.ok
        (F.map (fun f => (values env.ordValues (mergeStale (env.ordStale stale) fresh)).getD f 0))) := by
    unfold processBlocks
    rw [hg]
    simp only [failedIds, sliceMap_getElem?_total _ _ hin, hc]
  have hids : values env.ordValues (mergeStale (env.ordStale stale) fresh) ≠ [] := by
    intro h0
    apply hne
    have := (hv (mergeStale (env.ordStale stale) fresh)).length_eq
    unfold values at h0
    rw [← this, ← List.length_map (env.ordValues (mergeStale (env.ordStale stale) fresh)) Prod.snd, h0]
    rfl
  have hPB : ProcessBlocks P env p tr = finishBatch env p tr3 (mergeStale (env.ordStale stale) fresh)
      (values env.ordValues (mergeStale (env.ordStale stale) fresh))
      (F.map (fun f => (values env.ordValues (mergeStale (env.ordStale stale) fresh)).getD f 0)) := by
    unfold ProcessBlocks
    simp only [hs, hf, hne, if_false, hpb]
  obtain ⟨h1, h2, h3⟩ := finishBatch_total env p tr3 (mergeStale (env.ordStale stale) fresh) _
    (F.map (fun f => (values env.ordValues (mergeStale (env.ordStale stale) fresh)).getD f 0)) hids
  refine ⟨hpb, ⟨saves, by simpa using hsv, hsv'⟩, ?_, ?_, ?_⟩
  · intro hF
    rw [hPB]
    exact h1 (by simp [hF])
  · intro hF e he
    rw [hPB]
    exact h2 (by simpa using hF) e he
  · intro hF he
    rw [hPB]
    exact h3 (by simpa using hF) he

/-- C7 (counterexample).  `GetBlocks` reports position 1 (slot 1003) as failed and the sink
call fails: `processBlocks` returns the error and no list, and `ProcessBlocks` returns
without calling `AddBlocks`. -/
theorem processBlocks_sink_error_drops_reenqueue :
    processBlocks (exProgram exDisc) (exEnv [1] (some "write failed") none)
      [Event.FindStaleBlocks 20, Event.FetchStreamEvents 19] [1004, 1003] =
      some (exCalls, Except.error "process batch: save relations: write failed") ∧
    ProcessBlocks (exProgram exDisc) (exEnv [1] (some "write failed") none) ⟨0, 0⟩ [] =
      some (⟨0, 0⟩, exCalls, some "process batch: save relations: write failed") ∧
    Event.AddBlocks [1003] ∉ exCalls := by
  refine ⟨by rfl, by rfl, by decide⟩

/-- C8.  When a step of `ProcessBlocks` on a non-empty batch returns without an error, its
calls end with one `AcknowledgeBlocks` call, no other call of the step is an
acknowledgement, and the entry ids passed are exactly the entry ids returned by
`FindStaleBlocks` together with those returned by `FetchStreamEvents`. -/
theorem ProcessBlocks_ack_once (P : Program) (env : Env) (p p' : Processor)
    (tr tr' : List Event) (stale fresh : GoMap String Nat)
    (hs : env.FindStaleBlocks tr batchSize = Except.ok stale)
    (hf : env.FetchStreamEvents (tr ++ [Event.FindStaleBlocks batchSize])
      (remainingOf stale.length) = Except.ok fresh)
    (hne : (mergeStale (env.ordStale stale) fresh).length ≠ 0)
    (hk : env.ordKeys.Valid) (hst : env.ordStale.Valid)
    (h : ProcessBlocks P env p tr = some (p', tr', none)) :
    ∃ mid acked, tr' = tr ++ mid ++ [Event.AcknowledgeBlocks acked] ∧
      (∀ ev ∈ mid, ∀ l, ev ≠ Event.AcknowledgeBlocks l) ∧
      ∀ id, id ∈ acked ↔ (id ∈ stale.map Prod.fst ∨ id ∈ fresh.map Prod.fst) := by
  unfold ProcessBlocks at h
  simp only [hs, hf, hne, if_false] at h
  split at h
  · cases h
  · cases h
  · rename_i tr3 failed hpb
    obtain ⟨saves, hsv, hsv'⟩ := processBlocks_trace P env _ _ _ _ hpb
    obtain ⟨last, _, _, htr, _, _⟩ := finishBatch_ok env p p' tr3 tr' _ _ _ h
    refine ⟨[Event.FindStaleBlocks batchSize, Event.FetchStreamEvents (remainingOf stale.length),
        Event.GetBlocks retries (values env.ordValues (mergeStale (env.ordStale stale) fresh))]
        ++ saves ++ (if failed.length > 0 then [Event.AddBlocks failed] else []),
      keys env.ordKeys (mergeStale (env.ordStale stale) fresh), ?_, ?_, ?_⟩
    · rw [htr, hsv]
      simp only [List.append_assoc, List.cons_append, List.nil_append, List.singleton_append]
    · intro ev hev l hl
      subst hl
      simp only [List.mem_append, List.mem_cons, List.mem_singleton] at hev
      rcases hev with (hev | hev) | hev
      · simp at hev
      · have := hsv' _ hev
        simp [Event.isSave] at this
      · split at hev <;> simp at hev
    · intro id
      unfold keys
      rw [((hk (mergeStale (env.ordStale stale) fresh)).map Prod.fst).mem_iff,
        mem_keys_mergeStale, ((hst stale).map Prod.fst).mem_iff]

/-- C3 at a step of `exEnv` whose sink answers "write failed". -/
theorem ProcessBlocks_sink_error_witness :
    ProcessBlocks (exProgram exDisc) (exEnv [] (some "write failed") none) ⟨0, 0⟩ [] =
      some (⟨0, 0⟩, exCalls, some ("process batch: " ++ "save relations: write failed")) :=
  (ProcessBlocks_sink_error (exProgram exDisc) (exEnv [] (some "write failed") none) ⟨0, 0⟩ []
    [("1-0", 1003)] [("2-0", 1004)] exBlocks [] exCalls "save relations: write failed"
    rfl rfl (by decide) rfl (by simp) rfl).1

/-- C7 (amended) at a step of `exEnv` in which position 1 (slot 1003) failed. -/
theorem processBlocks_reenqueue_witness :
    processBlocks (exProgram exDisc) (exEnv [1] none none)
      ([] ++ [Event.FindStaleBlocks batchSize] ++ [Event.FetchStreamEvents (remainingOf 1)])
      [1004, 1003] = some (exCalls, Except.ok [1003]) ∧
    ∃ p' err, ProcessBlocks (exProgram exDisc) (exEnv [1] none none) ⟨0, 0⟩ [] =
      some (p', exCalls ++ [Event.AddBlocks [1003], Event.AcknowledgeBlocks ["2-0", "1-0"]], err) :=
  have h := processBlocks_reenqueue (exProgram exDisc) (exEnv [1] none none) ⟨0, 0⟩ []
    [("1-0", 1003)] [("2-0", 1004)] exBlocks [1] exCalls
    rfl rfl (by decide) (fun m => List.Perm.refl m) rfl (by decide) rfl
  ⟨h.1, h.2.2.2.2 (by decide) rfl⟩

/-- C8 at a step of `exEnv` that completes. -/
theorem ProcessBlocks_ack_once_witness :
    ∃ mid acked, exCalls ++ [Event.AcknowledgeBlocks ["2-0", "1-0"]] =
        [] ++ mid ++ [Event.AcknowledgeBlocks acked] ∧
      (∀ ev ∈ mid, ∀ l, ev ≠ Event.AcknowledgeBlocks l) ∧
      ∀ id, id ∈ acked ↔
        (id ∈ [("1-0", 1003)].map Prod.fst ∨ id ∈ [("2-0", 1004)].map Prod.fst) :=
  ProcessBlocks_ack_once (exProgram exDisc) (exEnv [] none none) ⟨0, 0⟩ ⟨1003, 2⟩ []
    (exCalls ++ [Event.AcknowledgeBlocks ["2-0", "1-0"]]) [("1-0", 1003)] [("2-0", 1004)]
    rfl rfl (by decide) (fun m => List.Perm.refl m) (fun m => List.Perm.refl m) rfl

/-- The slice `s[lo:]` exists only for `lo ≤ len(s)` and holds the bytes of `s` after the first
`lo`. -/
theorem ByteSlice.sliceFrom_bytes (s t : ByteSlice) (lo : Nat) (h : s.sliceFrom lo = some t) :
    lo ≤ s.len ∧ t.bytes = s.bytes.drop lo := by
  unfold ByteSlice.sliceFrom at h
  split at h
  · rename_i hlo
    cases h
    refine ⟨hlo, ?_⟩
    simp only [ByteSlice.bytes]
    rw [List.drop_take]
  · cases h

/-- An instruction yields an entry only if it belongs to the target program, has at least
8 bytes of data, and the bytes after the first 8 decode. -/
theorem findAddInstStep_some (P : Program) (inst : Instruction) (ix : addIx)
    (h : findAddInstStep P inst = some (some ix)) :
    inst.ProgramID = P.graphProgramID ∧ 8 ≤ inst.Data.len ∧
    ∃ params, P.borshDeserialize (inst.Data.bytes.drop 8) = some params ∧
      ix = ⟨params, inst.Accounts⟩ := by
  unfold findAddInstStep at h
  split at h
  · cases h
  · rename_i hpid
    split at h
    · cases h
    · cases h
    · split at h
      · cases h
      · rename_i payload hpay
        obtain ⟨hlo, hb⟩ := ByteSlice.sliceFrom_bytes _ _ _ hpay
        split at h
        · cases h
        · rename_i params hparams
          cases h
          exact ⟨not_not.1 hpid, hlo, params, by rw [← hb]; exact hparams, rfl⟩

/-- Every result of the loop of lines 264-282 was there before or comes from one of the
instructions. -/
theorem findAddInstLoop_mem (P : Program) :
    ∀ (insts : List Instruction) (acc results : List addIx),
      findAddInstLoop P insts acc = some results →
      ∀ ix ∈ results, ix ∈ acc ∨ ∃ inst ∈ insts, findAddInstStep P inst = some (some ix) := by
  intro insts
  induction insts with
  | nil =>
    intro acc results h ix hix
    simp only [findAddInstLoop] at h
    cases h
    exact Or.inl hix
  | cons inst rest ih =>
    intro acc results h ix hix
    simp only [findAddInstLoop] at h
    split at h
    · cases h
    · rcases ih _ _ h ix hix with h1 | ⟨i, hi, hs⟩
      · exact Or.inl h1
      · exact Or.inr ⟨i, List.mem_cons_of_mem _ hi, hs⟩
    · rename_i ix0 hstep
      rcases ih _ _ h ix hix with h1 | ⟨i, hi, hs⟩
      · rcases List.mem_append.1 h1 with h2 | h2
        · exact Or.inl h2
        · simp only [List.mem_singleton] at h2
          subst h2
          exact Or.inr ⟨inst, List.mem_cons_self _ _, hstep⟩
      · exact Or.inr ⟨i, List.mem_cons_of_mem _ hi, hs⟩

/-- Results of `sliceMap`: as many as the inputs, each the image of an input. -/
theorem sliceMap_mem {α β : Type} (f : α → Option β) :
    ∀ (l : List α) (l' : List β), sliceMap f l = some l' →
      l'.length = l.length ∧ ∀ b ∈ l', ∃ a ∈ l, f a = some b := by
  intro l
  induction l with
  | nil =>
    intro l' h
    simp only [sliceMap] at h
    cases h
    exact ⟨rfl, by simp⟩
  | cons a rest ih =>
    intro l' h
    simp only [sliceMap] at h
    split at h
    · cases h
    · rename_i b hb
      split at h
      · cases h
      · rename_i bs hbs
        cases h
        obtain ⟨hl, hm⟩ := ih _ hbs
        refine ⟨by simp [hl], ?_⟩
        intro b' hb'
        rcases List.mem_cons.1 hb' with h1 | h1
        · subst h1
          exact ⟨a, List.mem_cons_self _ _, hb⟩
        · obtain ⟨a', ha', hf⟩ := hm b' h1
          exact ⟨a', List.mem_cons_of_mem _ ha', hf⟩

/-- Conversion `int64(x)` keeps a value below 2^63. -/
theorem toInt64_of_lt (x : Nat) (h : x < 2 ^ 63) : toInt64 x = (x : Int) := by
  unfold toInt64
  have h1 : x % 2 ^ 64 = x := Nat.mod_eq_of_lt (by omega)
  rw [h1, if_pos h]

/-- C9 (amended).  `process` either makes no sink call or makes exactly one, with a non-empty
list in which every relation comes from an instruction of the transaction that belongs to
the target program and has at least 8 bytes of data: `From`, `To` and `Extra` are the fields
decoded from the data after its first 8 bytes, `Provider` is the key of `accounts[0]`,
`DisconnectedAt` is nil, and `ConnectedAt` is `int64(blockTime)`, which is the block time
whenever that is below 2^63. -/
theorem process_relations (P : Program) (env : Env) (tr : List Event) (tx : Tx)
    (blockTime : Nat) (tr' : List Event) (err : Option String)
    (h : process P env tr tx blockTime = some (tr', err)) :
    (tr' = tr ∧ err = none) ∨
    ∃ rels, tr' = tr ++ [Event.SaveRelations rels] ∧ rels ≠ [] ∧
      ∀ rel ∈ rels, ∃ inst ∈ allInsts env.ordInner tx, ∃ params a,
        inst.ProgramID = P.graphProgramID ∧ 8 ≤ inst.Data.len ∧
        P.borshDeserialize (inst.Data.bytes.drop 8) = some params ∧
        inst.Accounts[0]? = some a ∧
        rel.Provider = a.PubKey ∧
        rel.ConnectedAt = toInt64 blockTime ∧
        (blockTime < 2 ^ 63 → rel.ConnectedAt = (blockTime : Int)) ∧
        rel.DisconnectedAt = none ∧
        rel.From = params.From ∧ rel.To = params.To ∧ rel.Extra = params.Extra := by
  unfold process at h
  split at h
  · cases h
  · rename_i addTxs hfind
    split at h
    · cases h
      exact Or.inl ⟨rfl, rfl⟩
    · rename_i hlen
      split at h
      · cases h
      · rename_i relations hrel
        right
        have htr : tr' = tr ++ [Event.SaveRelations relations] := by
          split at h <;> · cases h; rfl
        obtain ⟨hl, hm⟩ := sliceMap_mem _ _ _ hrel
        refine ⟨relations, htr, ?_, ?_⟩
        · intro h0
          rw [h0] at hl
          exact hlen hl.symm
        · intro rel hr
          obtain ⟨ix, hix, hro⟩ := hm rel hr
          unfold findAddInst at hfind
          rcases findAddInstLoop_mem P _ _ _ hfind ix hix with h1 | ⟨inst, hinst, hstep⟩
          · simp at h1
          · obtain ⟨hpid, h8, params, hdec, hixe⟩ := findAddInstStep_some P inst ix hstep
            subst hixe
            unfold relationOf at hro
            split at hro
            · cases hro
            · rename_i a ha
              cases hro
              exact ⟨inst, hinst, params, a, hpid, h8, hdec, ha, rfl, rfl,
                fun hlt => toInt64_of_lt _ hlt, rfl, rfl, rfl, rfl⟩

/-- C9 (counterexample).  With block time 2^63 the relation handed to the sink has
`ConnectedAt = -2^63`, not the block time. -/
theorem process_connected_at_wraps :
    process (exProgram exDisc) (exEnv [] none none) [] exRelTx (2 ^ 63) =
      some ([Event.SaveRelations [⟨List.replicate 32 1, List.replicate 32 2, List.replicate 32 3,
        -(2 ^ 63), none, [1]⟩]], none) ∧
    (-(2 ^ 63) : Int) ≠ ((2 ^ 63 : Nat) : Int) := by
  constructor
  · rfl
  · decide

/-- C9 (amended) at `exRelTx` with block time 1700000000. -/
theorem process_relations_witness :
    ([Event.SaveRelations [exRelation]] = [] ∧ (none : Option String) = none) ∨
    ∃ rels, [Event.SaveRelations [exRelation]] = [] ++ [Event.SaveRelations rels] ∧ rels ≠ [] ∧
      ∀ rel ∈ rels, ∃ inst ∈ allInsts (exEnv [] none none).ordInner exRelTx, ∃ params a,
        inst.ProgramID = (exProgram exDisc).graphProgramID ∧ 8 ≤ inst.Data.len ∧
        (exProgram exDisc).borshDeserialize (inst.Data.bytes.drop 8) = some params ∧
        inst.Accounts[0]? = some a ∧
        rel.Provider = a.PubKey ∧
        rel.ConnectedAt = toInt64 1700000000 ∧
        (1700000000 < 2 ^ 63 → rel.ConnectedAt = ((1700000000 : Nat) : Int)) ∧
        rel.DisconnectedAt = none ∧
        rel.From = params.From ∧ rel.To = params.To ∧ rel.Extra = params.Extra :=
  process_relations (exProgram exDisc) (exEnv [] none none) [] exRelTx 1700000000
    [Event.SaveRelations [exRelation]] none rfl

/-- Lines 93-103: the kept transactions are the included ones, in order, and `errors[i]`
stays nil exactly when no transaction returned an error. -/
theorem parseTxs_spec (sdk : SDK) :
    ∀ (btxs : List BlockRawTransaction) (txs : List Tx) (err : Option String)
      (txs' : List Tx) (err' : Option String),
      parseTxs sdk btxs txs err = some (txs', err') →
      txs' = txs ++ btxs.filterMap (includedTx sdk) ∧
      (err' = none ↔ err = none ∧ ∀ btx ∈ btxs, ∀ (t : Tx) (incl : Bool) (e : Option String),
        TxFromBlockTransaction sdk btx = some (t, incl, e) → e = none) := by
  intro btxs
  induction btxs with
  | nil =>
    intro txs err txs' err' h
    simp only [parseTxs] at h
    obtain ⟨rfl, rfl⟩ : txs = txs' ∧ err = err' := by simpa using h
    simp
  | cons btx rest ih =>
    intro txs err txs' err' h
    simp only [parseTxs] at h
    split at h
    · cases h
    · rename_i t0 i0 e0 hT
      obtain ⟨h1, h2⟩ := ih _ _ _ _ h
      refine ⟨?_, ?_⟩
      · rw [h1]
        simp [List.filterMap_cons, includedTx, hT]
      · rw [h2]
        constructor
        · intro hh; exact absurd hh.1 (by simp)
        · intro hh
          have := hh.2 btx (List.mem_cons_self _ _) _ _ _ hT
          exact absurd this (by simp)
    · rename_i t0 i0 hT
      obtain ⟨h1, h2⟩ := ih _ _ _ _ h
      refine ⟨?_, ?_⟩
      · rw [h1]
        cases i0 <;> simp [List.filterMap_cons, includedTx, hT]
      · rw [h2]
        constructor
        · rintro ⟨he, hall⟩
          refine ⟨he, ?_⟩
          intro b hb t incl e hbe
          rcases List.mem_cons.1 hb with hb | hb
          · subst hb
            rw [hT] at hbe
            simp only [Option.some.injEq, Prod.mk.injEq] at hbe
            exact hbe.2.2.symm
          · exact hall b hb t incl e hbe
        · rintro ⟨he, hall⟩
          exact ⟨he, fun b hb => hall b (List.mem_cons_of_mem _ hb)⟩

/-- Lines 93-103 return when no transaction panics. -/
theorem parseTxs_total (sdk : SDK) :
    ∀ (btxs : List BlockRawTransaction) (txs : List Tx) (err : Option String),
      (∀ btx ∈ btxs, (TxFromBlockTransaction sdk btx).isSome) →
      (parseTxs sdk btxs txs err).isSome := by
  intro btxs
  induction btxs with
  | nil => intro txs err _; rfl
  | cons btx rest ih =>
    intro txs err h
    have hb := h btx (List.mem_cons_self _ _)
    obtain ⟨⟨t, incl, e⟩, hT⟩ := Option.isSome_iff_exists.1 hb
    have hrest : ∀ b ∈ rest, (TxFromBlockTransaction sdk b).isSome :=
      fun b hb' => h b (List.mem_cons_of_mem _ hb')
    simp only [parseTxs, hT]
    cases e with
    | none => exact ih _ _ hrest
    | some e => exact ih _ _ hrest

/-- Results of `sliceMap` are position-aligned with the inputs. -/
theorem sliceMap_getElem? {α β : Type} (f : α → Option β) :
    ∀ (l : List α) (l' : List β), sliceMap f l = some l' →
      ∀ (i : Nat) (a : α), l[i]? = some a → ∃ b, l'[i]? = some b ∧ f a = some b := by
  intro l
  induction l with
  | nil => intro l' _ i a ha; simp at ha
  | cons x rest ih =>
    intro l' h i a ha
    simp only [sliceMap] at h
    split at h
    · cases h
    · rename_i b hb
      split at h
      · cases h
      · rename_i bs hbs
        cases h
        cases i with
        | zero =>
          simp only [List.getElem?_cons_zero, Option.some.injEq] at ha
          subst ha
          exact ⟨b, by simp, hb⟩
        | succ j =>
          simp only [List.getElem?_cons_succ] at ha ⊢
          exact ih _ hbs j a ha

/-- Function `sliceMap` returns when the closure does on every input. -/
theorem sliceMap_total {α β : Type} (f : α → Option β) :
    ∀ (l : List α), (∀ a ∈ l, (f a).isSome) → (sliceMap f l).isSome := by
  intro l
  induction l with
  | nil => intro _; rfl
  | cons x rest ih =>
    intro h
    obtain ⟨b, hb⟩ := Option.isSome_iff_exists.1 (h x (List.mem_cons_self _ _))
    obtain ⟨bs, hbs⟩ := Option.isSome_iff_exists.1 (ih (fun a ha => h a (List.mem_cons_of_mem _ ha)))
    simp only [sliceMap, hb, hbs]
    rfl

/-- C6 (amended).  For a batch answered with as many responses as keys: whenever
`fetchBlocks` returns, results and errors have one entry per key, and at the position of a
response without RPC error the block holds exactly the transactions that parse and are
included, in order, while the error of that position is nil exactly when no transaction of
the block returned a parse error; `fetchBlocks` returns when no transaction panics. -/
theorem fetchBlocks_bad_transaction (sdk : SDK)
    (call : List Nat → Except String (List getBlockRpcResponse)) (keys : List Nat)
    (response : List getBlockRpcResponse)
    (hcall : call keys = Except.ok response) (hlen : response.length = keys.length) :
    (∀ (results : List Block) (errors : List (Option String)),
      fetchBlocks sdk call keys = some (results, errors) →
      results.length = keys.length ∧ errors.length = keys.length ∧
      ∀ (i : Nat) (resp : getBlockRpcResponse), response[i]? = some resp → resp.Error = none →
        ∃ blk err, results[i]? = some blk ∧ errors[i]? = some err ∧
          blk = ⟨resp.Result.ParentSlot, resp.Result.BlockTime, resp.Result.Blockhash,
            resp.Result.Transactions.filterMap (includedTx sdk)⟩ ∧
          (err = none ↔ ∀ btx ∈ resp.Result.Transactions,
            ∀ (t : Tx) (incl : Bool) (e : Option String),
              TxFromBlockTransaction sdk btx = some (t, incl, e) → e = none)) ∧
    ((∀ resp ∈ response, ∀ btx ∈ resp.Result.Transactions,
        (TxFromBlockTransaction sdk btx).isSome) →
      (fetchBlocks sdk call keys).isSome) := by
  constructor
  · intro results errors h
    unfold fetchBlocks at h
    simp only [hcall, hlen, ne_eq, not_true_eq_false, if_false] at h
    split at h
    · cases h
    · rename_i rs hrs
      obtain ⟨rfl, rfl⟩ : rs.map Prod.fst = results ∧ rs.map Prod.snd = errors := by simpa using h
      obtain ⟨hl, _⟩ := sliceMap_mem _ _ _ hrs
      refine ⟨by simp [hl, hlen], by simp [hl, hlen], ?_⟩
      intro i resp hi herr
      obtain ⟨⟨blk, err⟩, hb, hpr⟩ := sliceMap_getElem? _ _ _ hrs i resp hi
      refine ⟨blk, err, by simp [hb], by simp [hb], ?_⟩
      unfold parseResponse at hpr
      simp only [herr] at hpr
      split at hpr
      · cases hpr
      · rename_i txs e hp
        obtain ⟨h1, h2⟩ := parseTxs_spec sdk _ _ _ _ _ hp
        simp only [Option.some.injEq, Prod.mk.injEq] at hpr
        obtain ⟨hblk, he⟩ := hpr
        subst hblk he
        refine ⟨by simp [h1], ?_⟩
        rw [h2]
        simp
  · intro hall
    unfold fetchBlocks
    simp only [hcall, hlen, ne_eq, not_true_eq_false, if_false]
    have : (sliceMap (parseResponse sdk) response).isSome := by
      apply sliceMap_total
      intro resp hresp
      unfold parseResponse
      cases herr : resp.Error with
      | some e => rfl
      | none =>
        obtain ⟨⟨txs, e⟩, hp⟩ := Option.isSome_iff_exists.1
          (parseTxs_total sdk resp.Result.Transactions [] none (hall resp hresp))
        simp only [hp]
        rfl
    obtain ⟨rs, hrs⟩ := Option.isSome_iff_exists.1 this
    simp only [hrs]
    rfl

/-- C6 (counterexample).  A block whose first transaction is not valid base64 comes back with
its other transaction and with a non-nil error at its position, and `GetBlocks` reports the
position as failed. -/
theorem fetchBlocks_bad_transaction_fails_block :
    fetchBlocks exSDK exCall [1003] =
      some ([⟨1002, 1700000000, "hash", [exParsedTx]⟩], [some "parse tx: illegal base64 data"]) ∧
    GetBlocks (fun _ ks => (fetchBlocks exSDK exCall ks).getD ([], [])) (fun _ m => m) 0 [1003] =
      some ([⟨1002, 1700000000, "hash", [exParsedTx]⟩], [0]) := by
  constructor <;> rfl

/-- C6 (amended) at the answer `exResponse` for slot 1003. -/
theorem fetchBlocks_bad_transaction_witness :
    [(⟨1002, 1700000000, "hash", [exParsedTx]⟩ : Block)].length = [1003].length ∧
    [some "parse tx: illegal base64 data"].length = [1003].length ∧
    ∀ (i : Nat) (resp : getBlockRpcResponse), exResponse[i]? = some resp → resp.Error = none →
      ∃ blk err, [(⟨1002, 1700000000, "hash", [exParsedTx]⟩ : Block)][i]? = some blk ∧
        [some "parse tx: illegal base64 data"][i]? = some err ∧
        blk = ⟨resp.Result.ParentSlot, resp.Result.BlockTime, resp.Result.Blockhash,
          resp.Result.Transactions.filterMap (includedTx exSDK)⟩ ∧
        (err = none ↔ ∀ btx ∈ resp.Result.Transactions,
          ∀ (t : Tx) (incl : Bool) (e : Option String),
            TxFromBlockTransaction exSDK btx = some (t, incl, e) → e = none) :=
  (fetchBlocks_bad_transaction exSDK exCall [1003] exResponse rfl rfl).1 _ _ (by rfl)

/-- Line 377 lets a transaction through exactly when its version is null or "legacy". -/
theorem skipVersion_eq_false (v : Version) :
    skipVersion v = false ↔ v = Version.null ∨ v = Version.str "legacy" := by
  cases v with
  | null => simp [skipVersion]
  | str s => simp [skipVersion]
  | other => simp [skipVersion]

/-- Lines 405-428: the transaction is included exactly when its token balances parse, and
then the error is nil; the code returns unless an index is out of range. -/
theorem buildTx_include (sdk : SDK) (blockTx : BlockRawTransaction) (tx : Transaction)
    (insts : List Instruction) :
    (∀ (t : Tx) (incl : Bool) (err : Option String),
      buildTx sdk blockTx tx insts = some (t, incl, err) →
      (incl = true ↔
        ∃ ch, parseTokenChange sdk blockTx.Meta tx.Message.Accounts = some (Except.ok ch)) ∧
      (incl = true ↔ err = none)) ∧
    ((decompileInnerInstructions sdk tx.Message blockTx.Meta.InnerInstructions []).isSome →
      (parseSolChange blockTx.Meta tx.Message.Accounts).isSome →
      (parseTokenChange sdk blockTx.Meta tx.Message.Accounts).isSome →
      (buildTx sdk blockTx tx insts).isSome) := by
  unfold buildTx
  cases hin : decompileInnerInstructions sdk tx.Message blockTx.Meta.InnerInstructions [] with
  | none => simp
  | some inner =>
    cases hsol : parseSolChange blockTx.Meta tx.Message.Accounts with
    | none => simp
    | some bal =>
      cases htok : parseTokenChange sdk blockTx.Meta tx.Message.Accounts with
      | none => simp
      | some r =>
        cases r with
        | error e =>
          simp only [Option.some.injEq, Prod.mk.injEq, and_imp, Option.isSome_some, imp_self,
            and_true]
          intro t incl err _ h2 h3
          subst h2 h3
          simp
        | ok ch =>
          simp only [Option.some.injEq, Prod.mk.injEq, and_imp, Option.isSome_some, imp_self,
            and_true]
          intro t incl err _ h2 h3
          subst h2 h3
          simp

/-- C10 (amended).  For a raw transaction whose payload decodes and deserializes: if the
version is neither null nor "legacy", or the first instruction invokes the vote program, or
`meta.err` is not null, the result is `(Tx{}, false, nil)`; otherwise, whenever the function
returns, `include` is true exactly when the token balance changes parse, and exactly when
the error is nil; and it does return when no index of the balances and inner instructions is
out of range. -/
theorem TxFromBlockTransaction_include (sdk : SDK) (blockTx : BlockRawTransaction)
    (rawTx : List Nat) (tx : Transaction)
    (hd : sdk.base64Decode blockTx.Transaction.1 = Except.ok rawTx)
    (ht : sdk.TransactionDeserialize rawTx = Except.ok tx) :
    (¬ ((blockTx.Version = Version.null ∨ blockTx.Version = Version.str "legacy") ∧
        isVote sdk (sdk.DecompileInstructions tx.Message) = false ∧
        blockTx.Meta.Err = none) →
      TxFromBlockTransaction sdk blockTx = some (Tx.zero, false, none)) ∧
    (((blockTx.Version = Version.null ∨ blockTx.Version = Version.str "legacy") ∧
        isVote sdk (sdk.DecompileInstructions tx.Message) = false ∧
        blockTx.Meta.Err = none) →
      (∀ (t : Tx) (incl : Bool) (err : Option String),
        TxFromBlockTransaction sdk blockTx = some (t, incl, err) →
        (incl = true ↔
          ∃ ch, parseTokenChange sdk blockTx.Meta tx.Message.Accounts = some (Except.ok ch)) ∧
        (incl = true ↔ err = none)) ∧
      ((decompileInnerInstructions sdk tx.Message blockTx.Meta.InnerInstructions []).isSome →
        (parseSolChange blockTx.Meta tx.Message.Accounts).isSome →
        (parseTokenChange sdk blockTx.Meta tx.Message.Accounts).isSome →
        (TxFromBlockTransaction sdk blockTx).isSome)) := by
  constructor
  · intro hnot
    unfold TxFromBlockTransaction
    by_cases hv : skipVersion blockTx.Version = true
    · simp [hv]
    · have hv' : skipVersion blockTx.Version = false := by simpa using hv
      simp only [hv', hd, ht]
      by_cases hvote : isVote sdk (sdk.DecompileInstructions tx.Message) = true
      · simp [hvote]
      · have hvote' : isVote sdk (sdk.DecompileInstructions tx.Message) = false := by
          simpa using hvote
        cases herr : blockTx.Meta.Err with
        | some e => simp [hvote']
        | none => exact absurd ⟨(skipVersion_eq_false _).1 hv', hvote', herr⟩ hnot
  · rintro ⟨hv, hvote, herr⟩
    have hv' := (skipVersion_eq_false _).2 hv
    have hT : TxFromBlockTransaction sdk blockTx =
        buildTx sdk blockTx tx (sdk.DecompileInstructions tx.Message) := by
      unfold TxFromBlockTransaction
      simp [hv', hd, ht, hvote, herr]
    rw [hT]
    exact buildTx_include sdk blockTx tx _

/-- C10 (counterexample).  A legacy transaction that decodes and deserializes, whose first
instruction is not a vote and whose `meta.err` is null, is not included when a post token
balance has an empty owner: the result is `include = false` with a non-nil error. -/
theorem TxFromBlockTransaction_token_error_excludes :
    TxFromBlockTransaction exSDK exRawTxNoOwner =
      some (Tx.zero, false,
        some "parse tx: parse token balance changes: decode owner: zero length string") ∧
    exRawTxNoOwner.Version = Version.null ∧
    exRawTxNoOwner.Meta.Err = none ∧
    exSDK.base64Decode exRawTxNoOwner.Transaction.1 = Except.ok [1] ∧
    exSDK.TransactionDeserialize [1] = Except.ok exTransaction ∧
    isVote exSDK (exSDK.DecompileInstructions exTransaction.Message) = false := by
  refine ⟨by rfl, rfl, rfl, by rfl, by rfl, by rfl⟩

/-- C10 (amended) at a transaction that passes the filters and parses. -/
theorem TxFromBlockTransaction_include_witness :
    TxFromBlockTransaction exSDK (exRawTx "AQ==" []) = some (exParsedTx, true, none) ∧
    (true = true ↔ ∃ ch, parseTokenChange exSDK (exRawTx "AQ==" []).Meta
      exTransaction.Message.Accounts = some (Except.ok ch)) :=
  ⟨by rfl,
    (((TxFromBlockTransaction_include exSDK (exRawTx "AQ==" []) [1] exTransaction
      (by rfl) (by rfl)).2 ⟨Or.inl rfl, by rfl, rfl⟩).1 exParsedTx true none (by rfl)).1⟩

/-- C4 (code defect).  Whatever the discriminator is, a target-program instruction whose
data is eight zero bytes followed by a Borsh payload is decoded into an entry: for data of
eight bytes or more the condition of line 269 is false and the prefix is never compared. -/
theorem findAddInst_ignores_discriminator (disc : List Nat) :
    findAddInst (exProgram disc) (fun m => m)
        (exTx (ByteSlice.ofBytes (List.replicate 8 0 ++ exPayload))) =
      some [⟨⟨List.replicate 32 1, List.replicate 32 2, [1]⟩, exAccounts⟩] := by
  rfl

/-- C5 (code defect).  A target-program instruction with empty data (length and capacity 0)
makes `findAddInst` panic in `inst.Data[:8]` instead of being skipped. -/
theorem findAddInst_empty_data_panics (disc : List Nat) :
    findAddInst (exProgram disc) (fun m => m) (exTx (ByteSlice.ofBytes [])) = none := by
  rfl

/-- After `m[k] = v` the lookup of `k` gives `v`. -/
theorem GoMap.get?_set_self {κ ν : Type} [DecidableEq κ] (m : GoMap κ ν) (k : κ) (v : ν) :
    GoMap.get? (GoMap.set m k v) k = some v := by
  induction m with
  | nil => simp [GoMap.set, GoMap.get?]
  | cons hd tl ih =>
    obtain ⟨a, b⟩ := hd
    unfold GoMap.set
    split
    · simp [GoMap.get?]
    · rename_i hne
      simp [GoMap.get?, hne, ih]

/-- Assignment `m[k] = v` leaves the other keys as they were. -/
theorem GoMap.get?_set_ne {κ ν : Type} [DecidableEq κ] (m : GoMap κ ν) (k k' : κ) (v : ν)
    (h : k' ≠ k) : GoMap.get? (GoMap.set m k v) k' = GoMap.get? m k' := by
  induction m with
  | nil => simp [GoMap.set, GoMap.get?, Ne.symm h]
  | cons hd tl ih =>
    obtain ⟨a, b⟩ := hd
    unfold GoMap.set
    split
    · rename_i hak
      subst hak
      simp [GoMap.get?, Ne.symm h]
    · rename_i hne
      by_cases hak : a = k'
      · simp [GoMap.get?, hak]
      · simp [GoMap.get?, hak, ih]

/-- A value that fits `int64` is not changed by the wrap. -/
theorem wrapInt64_of_range (z : Int) (h1 : -(2 ^ 63) ≤ z) (h2 : z < 2 ^ 63) : wrapInt64 z = z := by
  unfold wrapInt64
  omega

/-- Conversion `int64(x)` of a `uint64` is the wrap of its value. -/
theorem toInt64_eq_wrapInt64 (x : Nat) (h : x < 2 ^ 64) : toInt64 x = wrapInt64 (x : Int) := by
  unfold toInt64 wrapInt64
  have h1 : x % 2 ^ 64 = x := Nat.mod_eq_of_lt h
  rw [h1]
  split <;> omega

/-- Subtracting two converted `uint64` values in `int64` is the wrap of the exact difference. -/
theorem wrapInt64_sub_toInt64 (x y : Nat) (hx : x < 2 ^ 64) (hy : y < 2 ^ 64) :
    wrapInt64 (toInt64 x - toInt64 y) = wrapInt64 ((x : Int) - (y : Int)) := by
  rw [toInt64_eq_wrapInt64 x hx, toInt64_eq_wrapInt64 y hy]
  unfold wrapInt64
  omega

/-- A parsed amount fits 64 bits. -/
theorem parseUint_lt (s : String) (n : Nat) (h : parseUint s = Except.ok n) : n < 2 ^ 64 := by
  unfold parseUint at h
  simp only at h
  split at h
  · cases h
  · split at h
    · split at h
      · rename_i hlt
        cases h
        exact hlt
      · cases h
    · cases h

/-- Function `find` returns -1 when no element matches. -/
theorem find_eq_none {α : Type} (p : α → Bool) :
    ∀ (l : List α), (∀ x ∈ l, p x = false) → find p l = none := by
  intro l
  induction l with
  | nil => intro _; rfl
  | cons x rest ih =>
    intro h
    simp only [find, h x (List.mem_cons_self _ _), Bool.false_eq_true, if_false,
      ih (fun y hy => h y (List.mem_cons_of_mem _ hy)), Option.map_none']

/-- Function `find` returns the index of the first match. -/
theorem find_first {α : Type} (p : α → Bool) :
    ∀ (l : List α) (i : Nat) (x : α), l[i]? = some x → p x = true →
      (∀ i' y, i' < i → l[i']? = some y → p y = false) → find p l = some i := by
  intro l
  induction l with
  | nil => intro i x h; simp at h
  | cons a rest ih =>
    intro i x h hp hfirst
    cases i with
    | zero =>
      simp only [List.getElem?_cons_zero, Option.some.injEq] at h
      subst h
      simp [find, hp]
    | succ i =>
      have ha : p a = false := hfirst 0 a (by omega) (by simp)
      simp only [List.getElem?_cons_succ] at h
      have := ih i x h hp (fun i' y hi' hy => hfirst (i' + 1) y (by omega) (by simpa using hy))
      simp [find, ha, this]

/-- One pass of the loop of `parseTokenChange` that does not fail: the key is the account at
the balance's index and the delta follows lines 508-527. -/
theorem tokenChangeOf_ok (sdk : SDK) (m : txMeta) (accounts : List PublicKey)
    (pc : TransactionMetaTokenBalance) (account : PublicKey) (change : TokenBalanceChange)
    (h : tokenChangeOf sdk m accounts pc = some (Except.ok (account, change))) :
    accounts[pc.AccountIndex]? = some account ∧
    ∃ postAmount, parseUint pc.Amount = Except.ok postAmount ∧
      (find (fun t => decide (t.AccountIndex = pc.AccountIndex)) m.PreTokenBalances = none →
        change.Delta = toInt64 postAmount) ∧
      (∀ preIdx,
        find (fun t => decide (t.AccountIndex = pc.AccountIndex)) m.PreTokenBalances = some preIdx →
        ∃ pre preAmount, m.PreTokenBalances[preIdx]? = some pre ∧
          parseUint pre.Amount = Except.ok preAmount ∧
          change.Delta = wrapInt64 (toInt64 postAmount - toInt64 preAmount)) := by
  unfold tokenChangeOf at h
  split at h
  · cases h
  · rename_i acc hacc
    split at h
    · cases h
    · split at h
      · cases h
      · split at h
        · rename_i o mt _ _
          split at h
          · cases h
          · rename_i postAmount hpost
            split at h
            · rename_i hfind
              simp only [Option.some.injEq, Except.ok.injEq, Prod.mk.injEq] at h
              obtain ⟨h1, h2⟩ := h
              subst h1 h2
              exact ⟨hacc, postAmount, hpost, fun _ => rfl, fun i hi => by rw [hfind] at hi; cases hi⟩
            · rename_i preIdx hfind
              split at h
              · cases h
              · rename_i pre hpre
                split at h
                · cases h
                · rename_i preAmount hpa
                  simp only [Option.some.injEq, Except.ok.injEq, Prod.mk.injEq] at h
                  obtain ⟨h1, h2⟩ := h
                  subst h1 h2
                  refine ⟨hacc, postAmount, hpost, ?_, ?_⟩
                  · intro hn
                    rw [hfind] at hn
                    cases hn
                  · intro i hi
                    rw [hfind] at hi
                    cases hi
                    exact ⟨pre, preAmount, hpre, hpa, rfl⟩
        · cases h

/-- The loop of `parseTokenChange`: keys it does not write keep their entry, and the entry of
an account is the change of the last post balance that maps to it. -/
theorem parseTokenChangeLoop_get (sdk : SDK) (m : txMeta) (accounts : List PublicKey) :
    ∀ (posts : List TransactionMetaTokenBalance)
      (changes result : GoMap PublicKey TokenBalanceChange),
      parseTokenChangeLoop sdk m accounts posts changes = some (Except.ok result) →
      (∀ k, (∀ pc ∈ posts, accounts[pc.AccountIndex]? ≠ some k) →
        result.get? k = changes.get? k) ∧
      (∀ (j : Nat) (pc : TransactionMetaTokenBalance), posts[j]? = some pc →
        (∀ j' pc', j < j' → posts[j']? = some pc' →
          accounts[pc'.AccountIndex]? ≠ accounts[pc.AccountIndex]?) →
        ∃ account change, tokenChangeOf sdk m accounts pc = some (Except.ok (account, change)) ∧
          result.get? account = some change) := by
  intro posts
  induction posts with
  | nil =>
    intro changes result h
    simp only [parseTokenChangeLoop, Option.some.injEq, Except.ok.injEq] at h
    subst h
    exact ⟨fun _ _ => rfl, fun j pc hp => by simp at hp⟩
  | cons post rest ih =>
    intro changes result h
    simp only [parseTokenChangeLoop] at h
    split at h
    · cases h
    · cases h
    · rename_i account change htc
      obtain ⟨hacc, _⟩ := tokenChangeOf_ok sdk m accounts post account change htc
      obtain ⟨ih1, ih2⟩ := ih _ _ h
      constructor
      · intro k hk
        rw [ih1 k (fun pc hpc => hk pc (List.mem_cons_of_mem _ hpc))]
        apply GoMap.get?_set_ne
        intro hka
        have := hk post (List.mem_cons_self _ _)
        rw [hacc, hka] at this
        exact this rfl
      · intro j pc hp hlast
        cases j with
        | zero =>
          simp only [List.getElem?_cons_zero, Option.some.injEq] at hp
          subst hp
          refine ⟨account, change, htc, ?_⟩
          rw [ih1 account (fun pc' hpc' => by
            obtain ⟨j', hj'⟩ := List.mem_iff_getElem?.1 hpc'
            have := hlast (j' + 1) pc' (by omega) (by simpa using hj')
            rwa [hacc] at this)]
          exact GoMap.get?_set_self _ _ _
        | succ j =>
          exact ih2 j pc (by simpa using hp) (fun j' pc' hj' hp' =>
            hlast (j' + 1) pc' (by omega) (by simpa using hp'))

/-- The loop of `parseSolChange`: keys it does not write keep their entry, and the entry of an
account is the wrapped difference at the last index that maps to it. -/
theorem parseSolChangeLoop_get (pre : List Int) (accounts : List PublicKey) :
    ∀ (posts : List Int) (i : Nat) (m result : GoMap PublicKey Int),
      parseSolChangeLoop pre accounts posts i m = some result →
      (∀ k, (∀ j, j < posts.length → accounts[i + j]? ≠ some k) →
        result.get? k = m.get? k) ∧
      (∀ (j : Nat) (acct : PublicKey) (p q : Int),
        accounts[i + j]? = some acct → posts[j]? = some p → pre[i + j]? = some q →
        (∀ j', j < j' → j' < posts.length → accounts[i + j']? ≠ some acct) →
        result.get? acct = some (wrapInt64 (p - q))) := by
  intro posts
  induction posts with
  | nil =>
    intro i m result h
    simp only [parseSolChangeLoop] at h
    cases h
    exact ⟨fun _ _ => rfl, fun j acct p q _ hp => by simp at hp⟩
  | cons post rest ih =>
    intro i m result h
    simp only [parseSolChangeLoop] at h
    split at h
    · cases h
    · rename_i account hacc
      split at h
      · cases h
      · rename_i pre0 hpre
        obtain ⟨ih1, ih2⟩ := ih _ _ _ h
        constructor
        · intro k hk
          rw [ih1 k (fun j hj => by
            have := hk (j + 1) (by simpa using hj)
            rwa [show i + (j + 1) = i + 1 + j by omega] at this)]
          apply GoMap.get?_set_ne
          intro hka
          have := hk 0 (by simp)
          rw [Nat.add_zero, hacc, hka] at this
          exact this rfl
        · intro j acct p q ha hp hq hlast
          cases j with
          | zero =>
            rw [Nat.add_zero] at ha hq
            rw [hacc] at ha
            rw [hpre] at hq
            simp only [List.getElem?_cons_zero, Option.some.injEq] at hp
            cases ha; cases hq; subst hp
            rw [ih1 account (fun j hj => by
              have := hlast (j + 1) (by omega) (by simpa using hj)
              rwa [show i + (j + 1) = i + 1 + j by omega] at this)]
            exact GoMap.get?_set_self _ _ _
          | succ j =>
            refine ih2 j acct p q ?_ (by simpa using hp) ?_ ?_
            · rwa [show i + (j + 1) = i + 1 + j by omega] at ha
            · rwa [show i + (j + 1) = i + 1 + j by omega] at hq
            · intro j' hj' hlen
              have := hlast (j' + 1) (by omega) (by simpa using hlen)
              rwa [show i + (j' + 1) = i + 1 + j' by omega] at this

/-- The loop of `parseSolChange` panics exactly when a post balance has no account or no pre
balance at its index. -/
theorem parseSolChangeLoop_isSome (pre : List Int) (accounts : List PublicKey) :
    ∀ (posts : List Int) (i : Nat) (m : GoMap PublicKey Int),
      (parseSolChangeLoop pre accounts posts i m).isSome ↔
        (posts = [] ∨ (i + posts.length ≤ accounts.length ∧ i + posts.length ≤ pre.length)) := by
  intro posts
  induction posts with
  | nil => intro i m; simp [parseSolChangeLoop]
  | cons post rest ih =>
    intro i m
    simp only [parseSolChangeLoop, List.length_cons, List.cons_ne_nil, false_or, reduceCtorEq]
    cases hacc : accounts[i]? with
    | none =>
      have := List.getElem?_eq_none_iff.1 hacc
      simp only [Option.isSome_none, Bool.false_eq_true, false_iff, not_and, not_le]
      intro h; omega
    | some account =>
      have h1 := (List.getElem?_eq_some.1 hacc).1
      cases hpre : pre[i]? with
      | none =>
        have := List.getElem?_eq_none_iff.1 hpre
        simp only [Option.isSome_none, Bool.false_eq_true, false_iff, not_and, not_le]
        intro h; omega
      | some p =>
        have h2 := (List.getElem?_eq_some.1 hpre).1
        simp only [ih]
        constructor
        · rintro (h | h)
          · subst h; simp; omega
          · omega
        · intro h
          right; omega

/-- C11 (amended).  `parseSolChange` returns exactly when there are no more post balances than
accounts and than pre balances (otherwise it panics).  When it returns, for every index `a`
below the number of post balances whose account key does not occur again at a later such
index, the entry of account `a` is `post[a] - pre[a]` in wrapping `int64` arithmetic, which is
the exact difference whenever that fits `int64`; a key that is no account of such an index
has no entry. -/
theorem parseSolChange_entries (m : txMeta) (accounts : List PublicKey) :
    ((parseSolChange m accounts).isSome ↔
      (m.PostBalances.length ≤ accounts.length ∧
        m.PostBalances.length ≤ m.PreBalances.length)) ∧
    (∀ result, parseSolChange m accounts = some result →
      (∀ (a : Nat) (acct : PublicKey) (p q : Int),
        accounts[a]? = some acct → m.PostBalances[a]? = some p → m.PreBalances[a]? = some q →
        (∀ b, a < b → b < m.PostBalances.length → accounts[b]? ≠ some acct) →
        result.get? acct = some (wrapInt64 (p - q)) ∧
        (-(2 ^ 63) ≤ p - q → p - q < 2 ^ 63 → result.get? acct = some (p - q))) ∧
      (∀ k, (∀ a, a < m.PostBalances.length → accounts[a]? ≠ some k) →
        result.get? k = none)) := by
  constructor
  · unfold parseSolChange
    rw [parseSolChangeLoop_isSome]
    constructor
    · rintro (h | h)
      · rw [h]; simp
      · omega
    · intro h
      right; omega
  · intro result h
    unfold parseSolChange at h
    obtain ⟨h1, h2⟩ := parseSolChangeLoop_get _ _ _ _ _ _ h
    constructor
    · intro a acct p q ha hp hq hlast
      have := h2 a acct p q (by simpa using ha) hp (by simpa using hq)
        (fun j' hj' hl => by simpa using hlast j' hj' hl)
      refine ⟨this, fun hlo hhi => ?_⟩
      rw [this, wrapInt64_of_range _ hlo hhi]
    · intro k hk
      rw [h1 k (fun j hj => by simpa using hk j hj)]
      rfl

/-- C11 (counterexample).  With two post balances and one pre balance the function panics;
with the same key at indices 0 and 1 the only entry is the difference of index 1, so the
entry of account index 0 is 5, not 5 - 1; with pre = -1 and post = 2^63 - 1 the entry is
-2^63. -/
theorem parseSolChange_not_per_index :
    parseSolChange (exMeta [1] [5, 7] [] []) [exKeyA, exKeyB] = none ∧
    parseSolChange (exMeta [1, 2] [5, 7] [] []) [exKeyA, exKeyA] = some [(exKeyA, 5)] ∧
    parseSolChange (exMeta [-1] [2 ^ 63 - 1] [] []) [exKeyA] = some [(exKeyA, -(2 ^ 63))] := by
  refine ⟨by rfl, by rfl, by rfl⟩

/-- C12 (amended).  When `parseTokenChange` returns without error, for every post token balance
whose account is not written again by a later post balance, the account at its index has an
entry whose delta is: the post amount wrapped into `int64` when no pre token balance has that
account index (the post amount itself below 2^63); otherwise the post amount minus the amount
of the first pre token balance with that index, wrapped into `int64` (the exact difference
whenever it fits `int64`). -/
theorem parseTokenChange_delta (sdk : SDK) (m : txMeta) (accounts : List PublicKey)
    (changes : GoMap PublicKey TokenBalanceChange)
    (h : parseTokenChange sdk m accounts = some (Except.ok changes)) :
    ∀ (j : Nat) (pc : TransactionMetaTokenBalance), m.PostTokenBalances[j]? = some pc →
      (∀ j' pc', j < j' → m.PostTokenBalances[j']? = some pc' →
        accounts[pc'.AccountIndex]? ≠ accounts[pc.AccountIndex]?) →
      ∃ account change postAmount,
        accounts[pc.AccountIndex]? = some account ∧ changes.get? account = some change ∧
        parseUint pc.Amount = Except.ok postAmount ∧ postAmount < 2 ^ 64 ∧
        ((∀ t ∈ m.PreTokenBalances, t.AccountIndex ≠ pc.AccountIndex) →
          change.Delta = wrapInt64 (postAmount : Int) ∧
          (postAmount < 2 ^ 63 → change.Delta = (postAmount : Int))) ∧
        (∀ (i : Nat) (pre : TransactionMetaTokenBalance),
          m.PreTokenBalances[i]? = some pre → pre.AccountIndex = pc.AccountIndex →
          (∀ i' t, i' < i → m.PreTokenBalances[i']? = some t →
            t.AccountIndex ≠ pc.AccountIndex) →
          ∃ preAmount, parseUint pre.Amount = Except.ok preAmount ∧
            change.Delta = wrapInt64 ((postAmount : Int) - (preAmount : Int)) ∧
            (-(2 ^ 63) ≤ (postAmount : Int) - (preAmount : Int) →
              (postAmount : Int) - (preAmount : Int) < 2 ^ 63 →
              change.Delta = (postAmount : Int) - (preAmount : Int))) := by
  intro j pc hj hlast
  unfold parseTokenChange at h
  obtain ⟨_, h2⟩ := parseTokenChangeLoop_get sdk m accounts _ _ _ h
  obtain ⟨account, change, htc, hget⟩ := h2 j pc hj hlast
  obtain ⟨hacc, postAmount, hpost, hnone, hsome⟩ := tokenChangeOf_ok sdk m accounts pc _ _ htc
  have hlt := parseUint_lt _ _ hpost
  refine ⟨account, change, postAmount, hacc, hget, hpost, hlt, ?_, ?_⟩
  · intro hno
    have hd := hnone (find_eq_none _ _ (fun t ht => by simpa using hno t ht))
    rw [toInt64_eq_wrapInt64 _ hlt] at hd
    refine ⟨hd, fun h63 => ?_⟩
    rw [hd]
    exact wrapInt64_of_range _ (by omega) (by omega)
  · intro i pre hi hidx hfirst
    have hf := find_first (fun t => decide (t.AccountIndex = pc.AccountIndex)) _ i pre hi
      (by simpa using hidx) (fun i' t hi' ht => by simpa using hfirst i' t hi' ht)
    obtain ⟨pre', preAmount, hpre', hpa, hd⟩ := hsome i hf
    rw [hi] at hpre'
    cases hpre'
    rw [wrapInt64_sub_toInt64 _ _ hlt (parseUint_lt _ _ hpa)] at hd
    refine ⟨preAmount, hpa, hd, fun hlo hhi => ?_⟩
    rw [hd]
    exact wrapInt64_of_range _ hlo hhi

/-- C12 (counterexample).  A new token account with post amount 2^63, an unsigned 64-bit decimal
string, is recorded with delta -2^63. -/
theorem parseTokenChange_large_amount_wraps :
    parseTokenChange exSDK
        (exMeta [] [] [] [⟨1, "mint", "owner", "9223372036854775808", 6⟩]) [exKeyA, exKeyB] =
      some (Except.ok [(exKeyB, ⟨-(2 ^ 63), 6, List.replicate 32 7, List.replicate 32 7⟩)]) ∧
    parseUint "9223372036854775808" = Except.ok (2 ^ 63) ∧
    (-(2 ^ 63) : Int) ≠ ((2 ^ 63 : Nat) : Int) := by
  refine ⟨by rfl, by rfl, by decide⟩

/-- C12 (amended) at an account that had 1000 and has 700. -/
theorem parseTokenChange_delta_witness :
    ∃ account change postAmount,
      [exKeyA, exKeyB][1]? = some account ∧
      GoMap.get? [(exKeyB, (⟨-300, 6, List.replicate 32 7, List.replicate 32 7⟩ :
        TokenBalanceChange))] account = some change ∧
      parseUint "700" = Except.ok postAmount ∧ postAmount < 2 ^ 64 ∧
      change.Delta = -300 :=
  have h := parseTokenChange_delta exSDK
    (exMeta [] [] [⟨1, "mint", "owner", "1000", 6⟩] [⟨1, "mint", "owner", "700", 6⟩])
    [exKeyA, exKeyB] [(exKeyB, ⟨-300, 6, List.replicate 32 7, List.replicate 32 7⟩)] (by rfl)
    0 ⟨1, "mint", "owner", "700", 6⟩ (by rfl) (by intro j' pc' hj' hp'; cases j' with
      | zero => omega
      | succ n => simp [exMeta] at hp')
  match h with
  | ⟨account, change, postAmount, h1, h2, h3, h4, _, h6⟩ =>
    ⟨account, change, postAmount, h1, h2, h3, h4, by
      have h700 : postAmount = 700 := by
        have : parseUint "700" = Except.ok 700 := by rfl
        rw [this] at h3
        cases h3; rfl
      subst h700
      obtain ⟨preAmount, hpa, hd, _⟩ := h6 0 ⟨1, "mint", "owner", "1000", 6⟩ (by rfl) rfl
        (by intro i' t hi'; omega)
      have : parseUint "1000" = Except.ok 1000 := by rfl
      rw [this] at hpa
      cases hpa
      rw [hd]
      decide⟩

/-- Lines 447-453 for one referenced index: the key and the two flags as the source computes
them. -/
theorem accountMetaAt_some (m : Message) (k : Int) (am : AccountMeta)
    (h : accountMetaAt m k = some am) :
    0 ≤ k ∧ m.Accounts[k.toNat]? = some am.PubKey ∧
    am.IsSigner = decide (k < (m.Header.NumRequireSignatures : Int)) ∧
    am.IsWritable =
      (decide (k < (((m.Header.NumRequireSignatures + 256 -
          m.Header.NumReadonlySignedAccounts % 256) % 256 : Nat) : Int)) ||
        (decide (k ≥ (m.Header.NumRequireSignatures : Int)) &&
          decide (k < (m.Accounts.length : Int) -
            (m.Header.NumReadonlyUnsignedAccounts : Int)))) := by
  unfold accountMetaAt at h
  split at h
  · cases h
  · rename_i hk
    split at h
    · cases h
    · rename_i pk hpk
      simp only [Option.some.injEq] at h
      subst h
      exact ⟨by omega, hpk, rfl, rfl⟩

/-- C13 (amended).  When `parseIx` returns, every account index `k` referenced by an inner
instruction is in range and its meta has the key `accounts[k]`, `is_signer = (k <
num_required_signatures)` and `is_writable = (k < d) OR (k ≥ num_required_signatures AND k <
total_accounts − num_readonly_unsigned)`, where `d` is `num_required_signatures −
num_readonly_signed` computed in `uint8`; `d` is the plain difference whenever
`num_readonly_signed ≤ num_required_signatures`.  `parseIx` returns when every referenced
index and program index is in range. -/
theorem parseIx_flags (sdk : SDK) (m : Message) (inner : metaInnerInstructions) :
    (∀ insts, parseIx sdk m inner = some insts →
      ∀ (j : Nat) (cins : rawInnerInstruction), inner.Instructions[j]? = some cins →
        ∃ inst, insts[j]? = some inst ∧
          ∀ (p : Nat) (k : Int), cins.Accounts[p]? = some k →
            ∃ am, inst.Accounts[p]? = some am ∧
              0 ≤ k ∧ m.Accounts[k.toNat]? = some am.PubKey ∧
              am.IsSigner = decide (k < (m.Header.NumRequireSignatures : Int)) ∧
              am.IsWritable =
                (decide (k < (((m.Header.NumRequireSignatures + 256 -
                    m.Header.NumReadonlySignedAccounts % 256) % 256 : Nat) : Int)) ||
                  (decide (k ≥ (m.Header.NumRequireSignatures : Int)) &&
                    decide (k < (m.Accounts.length : Int) -
                      (m.Header.NumReadonlyUnsignedAccounts : Int)))) ∧
              (m.Header.NumReadonlySignedAccounts ≤ m.Header.NumRequireSignatures →
                m.Header.NumRequireSignatures < 256 →
                am.IsWritable =
                  (decide (k < (m.Header.NumRequireSignatures : Int) -
                      (m.Header.NumReadonlySignedAccounts : Int)) ||
                    (decide (k ≥ (m.Header.NumRequireSignatures : Int)) &&
                      decide (k < (m.Accounts.length : Int) -
                        (m.Header.NumReadonlyUnsignedAccounts : Int)))))) ∧
    ((∀ cins ∈ inner.Instructions,
        (0 ≤ cins.ProgramIDIdx ∧ cins.ProgramIDIdx < m.Accounts.length) ∧
        ∀ k ∈ cins.Accounts, 0 ≤ k ∧ k < m.Accounts.length) →
      (parseIx sdk m inner).isSome) := by
  constructor
  · intro insts h j cins hj
    unfold parseIx at h
    obtain ⟨inst, hinst, hone⟩ := sliceMap_getElem? _ _ _ h j cins hj
    refine ⟨inst, hinst, ?_⟩
    intro p k hp
    unfold parseIxOne at hone
    split at hone
    · cases hone
    · rename_i accounts hacc
      split at hone
      · cases hone
      · split at hone
        · cases hone
        · simp only [Option.some.injEq] at hone
          subst hone
          obtain ⟨am, ham, hmeta⟩ := sliceMap_getElem? _ _ _ hacc p k hp
          obtain ⟨h0, hpk, hs, hw⟩ := accountMetaAt_some m k am hmeta
          refine ⟨am, ham, h0, hpk, hs, hw, ?_⟩
          intro hle hlt
          rw [hw]
          have e : ((m.Header.NumRequireSignatures + 256 -
              m.Header.NumReadonlySignedAccounts % 256) % 256 : Nat) =
              m.Header.NumRequireSignatures - m.Header.NumReadonlySignedAccounts := by
            omega
          rw [e, Int.ofNat_sub hle]
  · intro hall
    unfold parseIx
    apply sliceMap_total
    intro cins hc
    obtain ⟨⟨hp0, hp1⟩, hk⟩ := hall cins hc
    unfold parseIxOne
    have hacc : (sliceMap (accountMetaAt m) cins.Accounts).isSome := by
      apply sliceMap_total
      intro k hkm
      obtain ⟨h0, h1⟩ := hk k hkm
      unfold accountMetaAt
      have hlt : k.toNat < m.Accounts.length := by omega
      simp [show ¬ k < 0 by omega, List.getElem?_eq_getElem hlt]
    obtain ⟨accounts, ha⟩ := Option.isSome_iff_exists.1 hacc
    have hlt : cins.ProgramIDIdx.toNat < m.Accounts.length := by omega
    simp [ha, show ¬ cins.ProgramIDIdx < 0 by omega, List.getElem?_eq_getElem hlt]

/-- C13 (counterexample).  With `num_required_signatures = 1` and `num_readonly_signed = 2` the
account index 0 is marked writable, while the formula of the claim gives false. -/
theorem parseIx_writable_wraps :
    parseIx exSDK ⟨⟨1, 2, 0⟩, [exKeyA, exKeyB], []⟩ ⟨0, [⟨[0], "data", 1⟩]⟩ =
      some [⟨exKeyB, [⟨exKeyA, true, true⟩], ByteSlice.ofBytes (List.replicate 32 7)⟩] ∧
    (decide ((0 : Int) < 1 - 2) || (decide ((0 : Int) ≥ 1) && decide ((0 : Int) < 2 - 0))) =
      false := by
  refine ⟨by rfl, by decide⟩

/-- Lines 343-355 make one cursor read, followed by a read of the latest slot exactly when
the cursor read gave 0. -/
theorem startBlockOf_calls (env : HarvestEnv) (stored : Option Nat) (tr tr1 : List HarvestEvent)
    (r : Except String Nat) (h : startBlockOf env stored tr = (tr1, r)) :
    (tr1 = tr ++ [HarvestEvent.GetLastSeenBlock] ∧
      (∀ start, r = Except.ok start → start = stored.getD 0 ∧ start ≠ 0)) ∨
    (tr1 = tr ++ [HarvestEvent.GetLastSeenBlock, HarvestEvent.GetLatestBlock] ∧
      stored.getD 0 = 0 ∧ env.getFails tr = none ∧
      r = env.GetLatestBlock (tr ++ [HarvestEvent.GetLastSeenBlock])) := by
  unfold startBlockOf GetLastSeenBlock at h
  cases hf : env.getFails tr with
  | some e =>
    simp only [hf, Prod.mk.injEq] at h
    obtain ⟨h1, h2⟩ := h
    subst h1 h2
    exact Or.inl ⟨rfl, fun start hs => by cases hs⟩
  | none =>
    cases stored with
    | none =>
      simp only [hf, if_true, Prod.mk.injEq] at h
      obtain ⟨h1, h2⟩ := h
      exact Or.inr ⟨h1.symm, rfl, rfl, h2.symm⟩
    | some c =>
      simp only [hf] at h
      split at h
      · rename_i hc
        simp only [Prod.mk.injEq] at h
        obtain ⟨h1, h2⟩ := h
        exact Or.inr ⟨h1.symm, by simpa using hc, rfl, h2.symm⟩
      · rename_i hc
        simp only [Prod.mk.injEq] at h
        obtain ⟨h1, h2⟩ := h
        subst h1 h2
        exact Or.inl ⟨rfl, fun start hs => by cases hs; exact ⟨rfl, hc⟩⟩

/-- With a non-zero stored cursor the start block is the cursor and the latest slot is not
read. -/
theorem startBlockOf_warm (env : HarvestEnv) (c : Nat) (tr : List HarvestEvent)
    (hg : env.getFails tr = none) (hc : c ≠ 0) :
    startBlockOf env (some c) tr = (tr ++ [HarvestEvent.GetLastSeenBlock], Except.ok c) := by
  unfold startBlockOf GetLastSeenBlock
  simp [hg, hc]

/-- With an absent or zero stored cursor the start block is the answer of `GetLatestBlock`. -/
theorem startBlockOf_cold (env : HarvestEnv) (stored : Option Nat) (tr : List HarvestEvent)
    (hg : env.getFails tr = none) (h0 : stored.getD 0 = 0) :
    startBlockOf env stored tr =
      (tr ++ [HarvestEvent.GetLastSeenBlock, HarvestEvent.GetLatestBlock],
        env.GetLatestBlock (tr ++ [HarvestEvent.GetLastSeenBlock])) := by
  unfold startBlockOf GetLastSeenBlock
  cases stored with
  | none => simp [hg]
  | some c =>
    have : c = 0 := by simpa using h0
    simp [hg, this]

/-- C14.  In a pass that is not cancelled: an error of the cursor read, of `GetLatestBlock`
(after a cursor read of 0), of `GetBlocksWithLimit` or of `AddBlocks` is returned by the pass
wrapped in "harvest blocks: ", the stored cursor is unchanged, and the calls of the pass end
with the failing call, so `SaveLastSeenBlock` is not called; `HarvestBlocks` returns whatever
error a pass returns. -/
theorem harvestPass_error_skips_save (env : HarvestEnv) (stored : Option Nat)
    (tr : List HarvestEvent) (n : Nat) (hd : env.done tr = false) :
    (∀ e, env.getFails tr = some e →
      harvestPass env stored tr = (stored, tr ++ [HarvestEvent.GetLastSeenBlock],
        some ("harvest blocks: " ++ ("error getting last seen block: " ++ e)))) ∧
    (∀ e, env.getFails tr = none → stored.getD 0 = 0 →
      env.GetLatestBlock (tr ++ [HarvestEvent.GetLastSeenBlock]) = Except.error e →
      harvestPass env stored tr =
        (stored, tr ++ [HarvestEvent.GetLastSeenBlock, HarvestEvent.GetLatestBlock],
          some ("harvest blocks: " ++ e))) ∧
    (∀ tr1 start e, startBlockOf env stored tr = (tr1, Except.ok start) →
      env.GetBlocksWithLimit tr1 start blockLimit = Except.error e →
      harvestPass env stored tr =
        (stored, tr1 ++ [HarvestEvent.GetBlocksWithLimit start blockLimit],
          some ("harvest blocks: " ++ e))) ∧
    (∀ tr1 start blocks e, startBlockOf env stored tr = (tr1, Except.ok start) →
      env.GetBlocksWithLimit tr1 start blockLimit = Except.ok blocks →
      env.AddBlocks (tr1 ++ [HarvestEvent.GetBlocksWithLimit start blockLimit]) blocks = some e →
      harvestPass env stored tr =
        (stored, tr1 ++ [HarvestEvent.GetBlocksWithLimit start blockLimit,
            HarvestEvent.AddBlocks blocks],
          some ("harvest blocks: error adding blocks to the queue: " ++ e))) ∧
    (∀ tr1 r, startBlockOf env stored tr = (tr1, r) →
      tr1 = tr ++ [HarvestEvent.GetLastSeenBlock] ∨
      tr1 = tr ++ [HarvestEvent.GetLastSeenBlock, HarvestEvent.GetLatestBlock]) ∧
    (∀ stored' tr' e, harvestPass env stored tr = (stored', tr', some e) →
      HarvestBlocks env (n + 1) stored tr = (stored', tr', some e)) := by
  refine ⟨?_, ?_, ?_, ?_, ?_, ?_⟩
  · intro e he
    unfold harvestPass startBlockOf GetLastSeenBlock
    simp [hd, he]
  · intro e hg h0 hl
    unfold harvestPass
    rw [startBlockOf_cold env stored tr hg h0, hl]
    simp [hd]
  · intro tr1 start e hs hb
    unfold harvestPass harvestFrom
    simp [hd, hs, hb]
  · intro tr1 start blocks e hs hb ha
    unfold harvestPass harvestFrom
    simp [hd, hs, hb, ha]
  · intro tr1 r hs
    rcases startBlockOf_calls env stored tr tr1 r hs with h | h
    · exact Or.inl h.1
    · exact Or.inr h.1
  · intro stored' tr' e h
    simp only [HarvestBlocks, h]


/-- Lines 371-375 with no block: the start block. -/
theorem lastSeenOf_nil (start : Nat) : lastSeenOf start [] = start := rfl

/-- Lines 371-375 with blocks: the last block plus one in `uint64`. -/
theorem lastSeenOf_getLast (start : Nat) (blocks : List Nat) (last : Nat)
    (h : blocks.getLast? = some last) : lastSeenOf start blocks = (last + 1) % 2 ^ 64 := by
  unfold lastSeenOf
  rw [h]

/-- Lines 357-379 leave the stored cursor as it was or set it to `lastSeen`. -/
theorem harvestFrom_stored (env : HarvestEnv) (stored : Option Nat) (tr : List HarvestEvent)
    (start : Nat) (stored' : Option Nat) (tr' : List HarvestEvent) (err : Option String)
    (h : harvestFrom env stored tr start = (stored', tr', err)) :
    stored' = stored ∨
    ∃ blocks, env.GetBlocksWithLimit tr start blockLimit = Except.ok blocks ∧
      stored' = some (lastSeenOf start blocks) := by
  unfold harvestFrom at h
  cases hb : env.GetBlocksWithLimit tr start blockLimit with
  | error e =>
    simp only [hb, Prod.mk.injEq] at h
    exact Or.inl h.1.symm
  | ok blocks =>
    simp only [hb] at h
    split at h
    · simp only [Prod.mk.injEq] at h
      exact Or.inl h.1.symm
    · unfold SaveLastSeenBlock at h
      split at h
      · rename_i st e hsave
        simp only [Prod.mk.injEq] at h
        obtain ⟨h1, _⟩ := h
        subst h1
        split at hsave
        · rename_i e0 applied _
          simp only [Prod.mk.injEq] at hsave
          obtain ⟨hs1, _⟩ := hsave
          subst hs1
          by_cases ha : applied = true
          · exact Or.inr ⟨blocks, rfl, by simp [ha]⟩
          · exact Or.inl (by simp [ha])
        · simp only [Prod.mk.injEq] at hsave
          exact Or.inr ⟨blocks, rfl, hsave.1.symm⟩
      · rename_i st hsave
        simp only [Prod.mk.injEq] at h
        obtain ⟨h1, _⟩ := h
        subst h1
        split at hsave
        · rename_i e0 applied _
          simp only [Prod.mk.injEq] at hsave
          obtain ⟨hs1, _⟩ := hsave
          subst hs1
          by_cases ha : applied = true
          · exact Or.inr ⟨blocks, rfl, by simp [ha]⟩
          · exact Or.inl (by simp [ha])
        · simp only [Prod.mk.injEq] at hsave
          exact Or.inr ⟨blocks, rfl, hsave.1.symm⟩

/-- C15 (amended).  For every pass, completed or aborted at any step: if every
`GetBlocksWithLimit` answer for the stored cursor `c` holds only slots that are at least `c`
and below 2^64 - 1, the stored cursor after the pass is at least the stored cursor before it
(an absent cursor counts as 0). -/
theorem harvestPass_cursor_monotone (env : HarvestEnv) (stored stored' : Option Nat)
    (tr tr' : List HarvestEvent) (err : Option String)
    (hge : ∀ tr1 blocks, env.GetBlocksWithLimit tr1 (stored.getD 0) blockLimit =
      Except.ok blocks → ∀ s ∈ blocks, stored.getD 0 ≤ s ∧ s < 2 ^ 64 - 1)
    (h : harvestPass env stored tr = (stored', tr', err)) :
    stored.getD 0 ≤ stored'.getD 0 := by
  unfold harvestPass at h
  split at h
  · simp only [Prod.mk.injEq] at h
    rw [← h.1]
  · split at h
    · simp only [Prod.mk.injEq] at h
      rw [← h.1]
    · rename_i tr1 start hs
      rcases harvestFrom_stored env stored tr1 start stored' tr' err h with h1 | ⟨blocks, hb, h1⟩
      · rw [h1]
      · rcases startBlockOf_calls env stored tr tr1 _ hs with ⟨_, hw⟩ | ⟨_, h0, _⟩
        · obtain ⟨hst, _⟩ := hw start rfl
          subst hst
          rw [h1]
          simp only [Option.getD_some]
          cases hl : blocks.getLast? with
          | none =>
            unfold lastSeenOf
            rw [hl]
          | some last =>
            rw [lastSeenOf_getLast _ _ _ hl]
            have hmem : last ∈ blocks := List.mem_of_mem_getLast? (by rw [hl]; exact rfl)
            obtain ⟨h2, h3⟩ := hge tr1 blocks hb last hmem
            omega
        · rw [h0]
          exact Nat.zero_le _

/-- C15 (counterexample).  With the stored cursor 5 and the answer `[2^64 - 1]`, a slot that is
at least 5, the pass stores the cursor 0. -/
theorem harvestPass_cursor_wraps :
    harvestPass (exHarvestEnv 1000 [2 ^ 64 - 1]) (some 5) [] =
      (some 0, [HarvestEvent.GetLastSeenBlock, HarvestEvent.GetBlocksWithLimit 5 1000,
        HarvestEvent.AddBlocks [2 ^ 64 - 1], HarvestEvent.SaveLastSeenBlock 0], none) ∧
    5 ≤ 2 ^ 64 - 1 := by
  refine ⟨by rfl, by decide⟩

/-- C15 (amended) at the stored cursor 5 and the answer `[6, 8]`. -/
theorem harvestPass_cursor_monotone_witness :
    (some 5 : Option Nat).getD 0 ≤ (some 9 : Option Nat).getD 0 :=
  harvestPass_cursor_monotone (exHarvestEnv 1000 [6, 8]) (some 5) (some 9) []
    [HarvestEvent.GetLastSeenBlock, HarvestEvent.GetBlocksWithLimit 5 1000,
      HarvestEvent.AddBlocks [6, 8], HarvestEvent.SaveLastSeenBlock 9] none
    (by
      intro tr1 blocks hb s hs
      have : blocks = [6, 8] := by
        simp only [exHarvestEnv, Except.ok.injEq] at hb
        exact hb.symm
      subst this
      simp only [List.mem_cons, List.mem_singleton, List.not_mem_nil, or_false] at hs
      rcases hs with rfl | rfl <;> decide)
    (by rfl)

/-- C16 (amended).  A pass that read the non-zero cursor `c`, received `L` and returned no error
made exactly the calls cursor read, `GetBlocksWithLimit(c, 1000)`, one `AddBlocks(L)` and
`SaveLastSeenBlock`, and the stored cursor afterwards is `c` if `L` is empty and
`last(L) + 1` in `uint64` otherwise, which is `last(L) + 1` whenever `last(L) < 2^64 - 1`. -/
theorem harvestPass_success (env : HarvestEnv) (c : Nat) (tr tr' : List HarvestEvent)
    (stored' : Option Nat) (L : List Nat) (hc : c ≠ 0)
    (hL : env.GetBlocksWithLimit (tr ++ [HarvestEvent.GetLastSeenBlock]) c blockLimit =
      Except.ok L)
    (h : harvestPass env (some c) tr = (stored', tr', none)) :
    tr' = tr ++ [HarvestEvent.GetLastSeenBlock, HarvestEvent.GetBlocksWithLimit c blockLimit,
      HarvestEvent.AddBlocks L, HarvestEvent.SaveLastSeenBlock (lastSeenOf c L)] ∧
    stored' = some (lastSeenOf c L) ∧
    (L = [] → lastSeenOf c L = c) ∧
    (∀ last, L.getLast? = some last →
      lastSeenOf c L = (last + 1) % 2 ^ 64 ∧ (last < 2 ^ 64 - 1 → lastSeenOf c L = last + 1)) := by
  have hlast : (L = [] → lastSeenOf c L = c) ∧
      (∀ last, L.getLast? = some last →
        lastSeenOf c L = (last + 1) % 2 ^ 64 ∧
        (last < 2 ^ 64 - 1 → lastSeenOf c L = last + 1)) := by
    constructor
    · intro h0; subst h0; rfl
    · intro last hl
      rw [lastSeenOf_getLast _ _ _ hl]
      exact ⟨rfl, fun hlt => Nat.mod_eq_of_lt (by omega)⟩
  unfold harvestPass at h
  split at h
  · simp at h
  · have hg : env.getFails tr = none := by
      cases hf : env.getFails tr with
      | none => rfl
      | some e =>
        unfold startBlockOf GetLastSeenBlock at h
        simp [hf] at h
    rw [startBlockOf_warm env c tr hg hc] at h
    simp only at h
    unfold harvestFrom at h
    simp only [hL] at h
    split at h
    · simp at h
    · unfold SaveLastSeenBlock at h
      split at h
      · simp at h
      · rename_i st hsave
        simp only [Prod.mk.injEq, and_true] at h
        obtain ⟨h1, h2⟩ := h
        subst h1 h2
        split at hsave
        · simp at hsave
        · simp only [Prod.mk.injEq, and_true] at hsave
          subst hsave
          exact ⟨by simp, rfl, hlast⟩

/-- C16 (counterexample).  With the cursor 7 and `L = [8, 2^64 - 1]` the stored cursor afterwards
is 0, not `last(L) + 1`. -/
theorem harvestPass_success_wraps :
    harvestPass (exHarvestEnv 1000 [8, 2 ^ 64 - 1]) (some 7) [] =
      (some 0, [HarvestEvent.GetLastSeenBlock, HarvestEvent.GetBlocksWithLimit 7 1000,
        HarvestEvent.AddBlocks [8, 2 ^ 64 - 1], HarvestEvent.SaveLastSeenBlock 0], none) ∧
    (0 : Nat) ≠ (2 ^ 64 - 1) + 1 := by
  refine ⟨by rfl, by decide⟩

/-- C16 (amended) at the cursor 1000 and `L = [1001, 1003]`. -/
theorem harvestPass_success_witness :
    ([HarvestEvent.GetLastSeenBlock, HarvestEvent.GetBlocksWithLimit 1000 1000,
        HarvestEvent.AddBlocks [1001, 1003], HarvestEvent.SaveLastSeenBlock 1004] =
      [] ++ [HarvestEvent.GetLastSeenBlock, HarvestEvent.GetBlocksWithLimit 1000 blockLimit,
        HarvestEvent.AddBlocks [1001, 1003],
        HarvestEvent.SaveLastSeenBlock (lastSeenOf 1000 [1001, 1003])]) ∧
    some 1004 = some (lastSeenOf 1000 [1001, 1003]) :=
  have h := harvestPass_success (exHarvestEnv 1000 [1001, 1003]) 1000 []
    [HarvestEvent.GetLastSeenBlock, HarvestEvent.GetBlocksWithLimit 1000 1000,
      HarvestEvent.AddBlocks [1001, 1003], HarvestEvent.SaveLastSeenBlock 1004]
    (some 1004) [1001, 1003] (by decide) (by rfl) (by rfl)
  ⟨h.1, h.2.1⟩

/-- C17 (amended).  In a pass that is not cancelled and whose cursor read succeeds: with an
absent (or zero) stored cursor and the latest slot `L`, the pass goes on in the same pass to
`GetBlocksWithLimit(L, 1000)`, enqueues the returned blocks with one `AddBlocks` call and
saves the cursor `L` if the list is empty, the last block plus one otherwise; with a non-zero
stored cursor `c` the calls are the cursor read and `GetBlocksWithLimit(c, 1000)`, and
`GetLatestBlock` is not called. -/
theorem harvestPass_cold_start (env : HarvestEnv) (stored : Option Nat)
    (tr : List HarvestEvent) (hd : env.done tr = false) (hg : env.getFails tr = none) :
    (stored.getD 0 = 0 → ∀ L blocks,
      env.GetLatestBlock (tr ++ [HarvestEvent.GetLastSeenBlock]) = Except.ok L →
      env.GetBlocksWithLimit
        (tr ++ [HarvestEvent.GetLastSeenBlock, HarvestEvent.GetLatestBlock]) L blockLimit =
        Except.ok blocks →
      env.AddBlocks (tr ++ [HarvestEvent.GetLastSeenBlock, HarvestEvent.GetLatestBlock] ++
        [HarvestEvent.GetBlocksWithLimit L blockLimit]) blocks = none →
      ∃ stored' err, harvestPass env stored tr =
        (stored', tr ++ [HarvestEvent.GetLastSeenBlock, HarvestEvent.GetLatestBlock,
          HarvestEvent.GetBlocksWithLimit L blockLimit, HarvestEvent.AddBlocks blocks,
          HarvestEvent.SaveLastSeenBlock (lastSeenOf L blocks)], err) ∧
        (err = none → stored' = some (lastSeenOf L blocks)) ∧
        (blocks = [] → lastSeenOf L blocks = L)) ∧
    (∀ c, stored = some c → c ≠ 0 →
      ∃ rest stored' err, harvestPass env stored tr =
        (stored', tr ++ [HarvestEvent.GetLastSeenBlock,
          HarvestEvent.GetBlocksWithLimit c blockLimit] ++ rest, err) ∧
        HarvestEvent.GetLatestBlock ∉ rest) := by
  constructor
  · intro h0 L blocks hl hb ha
    unfold harvestPass
    rw [startBlockOf_cold env stored tr hg h0, hl]
    simp only [hd, Bool.false_eq_true, if_false]
    unfold harvestFrom
    simp only [hb, ha]
    unfold SaveLastSeenBlock
    cases hs : env.saveFails (tr ++ [HarvestEvent.GetLastSeenBlock, HarvestEvent.GetLatestBlock] ++
        [HarvestEvent.GetBlocksWithLimit L blockLimit] ++ [HarvestEvent.AddBlocks blocks])
        (lastSeenOf L blocks) with
    | none =>
      exact ⟨some (lastSeenOf L blocks), none, by simp, fun _ => rfl,
        fun hb0 => by subst hb0; rfl⟩
    | some p =>
      obtain ⟨e, applied⟩ := p
      refine ⟨if applied then some (lastSeenOf L blocks) else stored,
        some ("harvest blocks: " ++ ("error saving last seen block: " ++ e)), by simp, ?_, ?_⟩
      · intro hn
        cases hn
      · intro hb0
        subst hb0
        rfl
  · intro c hst hc
    subst hst
    unfold harvestPass
    rw [startBlockOf_warm env c tr hg hc]
    simp only [hd, Bool.false_eq_true, if_false]
    unfold harvestFrom
    cases hb : env.GetBlocksWithLimit (tr ++ [HarvestEvent.GetLastSeenBlock]) c blockLimit with
    | error e => exact ⟨[], some c, some ("harvest blocks: " ++ e), by simp, by simp⟩
    | ok blocks =>
      simp only
      cases ha : env.AddBlocks (tr ++ [HarvestEvent.GetLastSeenBlock] ++
          [HarvestEvent.GetBlocksWithLimit c blockLimit]) blocks with
      | some e =>
        exact ⟨[HarvestEvent.AddBlocks blocks], some c,
          some ("harvest blocks: error adding blocks to the queue: " ++ e), by simp, by simp⟩
      | none =>
        simp only
        split
        · rename_i st e _
          exact ⟨[HarvestEvent.AddBlocks blocks,
            HarvestEvent.SaveLastSeenBlock (lastSeenOf c blocks)], st,
            some ("harvest blocks: " ++ e), by simp, by simp⟩
        · rename_i st _
          exact ⟨[HarvestEvent.AddBlocks blocks,
            HarvestEvent.SaveLastSeenBlock (lastSeenOf c blocks)], st, none, by simp, by simp⟩

/-- C17 (counterexample).  Cold start with latest slot 1000 and `GetBlocksWithLimit(1000, 1000)`
answering `[1000, 1001]`: the pass enqueues both slots and stores the cursor 1002, not
1000. -/
theorem harvestPass_cold_start_enqueues :
    harvestPass (exHarvestEnv 1000 [1000, 1001]) none [] =
      (some 1002, [HarvestEvent.GetLastSeenBlock, HarvestEvent.GetLatestBlock,
        HarvestEvent.GetBlocksWithLimit 1000 1000, HarvestEvent.AddBlocks [1000, 1001],
        HarvestEvent.SaveLastSeenBlock 1002], none) := by
  rfl

/-- C17 (amended) at a cold start with latest slot 1000 and no block returned. -/
theorem harvestPass_cold_start_witness :
    ∃ stored' err, harvestPass (exHarvestEnv 1000 []) none [] =
      (stored', [] ++ [HarvestEvent.GetLastSeenBlock, HarvestEvent.GetLatestBlock,
        HarvestEvent.GetBlocksWithLimit 1000 blockLimit, HarvestEvent.AddBlocks [],
        HarvestEvent.SaveLastSeenBlock (lastSeenOf 1000 [])], err) ∧
      (err = none → stored' = some (lastSeenOf 1000 [])) ∧
      (([] : List Nat) = [] → lastSeenOf 1000 [] = 1000) :=
  (harvestPass_cold_start (exHarvestEnv 1000 []) none [] rfl rfl).1 rfl 1000 [] rfl rfl rfl

/-- C14 at a pass whose `AddBlocks` call fails. -/
theorem harvestPass_error_skips_save_witness :
    harvestPass (exHarvestEnvDown 1000 [1001]) (some 1000) [] =
      (some 1000, [HarvestEvent.GetLastSeenBlock] ++
        [HarvestEvent.GetBlocksWithLimit 1000 blockLimit, HarvestEvent.AddBlocks [1001]],
        some ("harvest blocks: error adding blocks to the queue: " ++ "connection refused")) :=
  (harvestPass_error_skips_save (exHarvestEnvDown 1000 [1001]) (some 1000) [] 0 rfl).2.2.2.1
    [HarvestEvent.GetLastSeenBlock] 1000 [1001] "connection refused" (by rfl) (by rfl) (by rfl)

/-- C20.  `FindRelations` with limit 0 makes one store call with limit 100; with a limit above
1000 it returns the error "invalid limit" and makes no store call; with a limit from 1 to 1000
it makes one store call with that limit; in both store calls `from`, `to`, `providers` and
`after` are those of the request. -/
theorem FindRelations_limit (FetchRelations : FetchCall → Except String (List Relation))
    (toBase58 : PublicKey → String) (params : GetRelationsParams) :
    (params.Limit = 0 →
      (FindRelations FetchRelations toBase58 params).1 =
        [⟨params.From, params.To, params.Providers, params.After, 100⟩]) ∧
    (params.Limit > 1000 →
      FindRelations FetchRelations toBase58 params = ([], Except.error "invalid limit")) ∧
    (1 ≤ params.Limit → params.Limit ≤ 1000 →
      (FindRelations FetchRelations toBase58 params).1 =
        [⟨params.From, params.To, params.Providers, params.After, params.Limit⟩]) := by
  refine ⟨?_, ?_, ?_⟩
  · intro h0
    unfold FindRelations
    simp only [h0, if_true, show ¬ (100 > 1000) by decide, if_false]
    cases FetchRelations ⟨params.From, params.To, params.Providers, params.After, 100⟩ <;> rfl
  · intro hgt
    unfold FindRelations
    have hne : params.Limit ≠ 0 := by omega
    simp [hne, hgt]
  · intro h1 h2
    unfold FindRelations
    have hne : params.Limit ≠ 0 := by omega
    have hle : ¬ params.Limit > 1000 := by omega
    simp only [hne, if_false, hle]
    cases FetchRelations
      ⟨params.From, params.To, params.Providers, params.After, params.Limit⟩ <;> rfl

/-- Lines 166-167 after a step without error on a non-empty batch: `lastProcessedBlock` is the
block id that `values(batch)` enumerated last, one of the ids of the batch, and
`processedBlocksCount` has grown by the number of entries in `uint64`. -/
theorem ProcessBlocks_counters (P : Program) (env : Env) (p p' : Processor)
    (tr tr' : List Event) (stale fresh : GoMap String Nat)
    (hs : env.FindStaleBlocks tr batchSize = Except.ok stale)
    (hf : env.FetchStreamEvents (tr ++ [Event.FindStaleBlocks batchSize])
      (remainingOf stale.length) = Except.ok fresh)
    (hne : (mergeStale (env.ordStale stale) fresh).length ≠ 0)
    (hv : env.ordValues.Valid)
    (h : ProcessBlocks P env p tr = some (p', tr', none)) :
    (values env.ordValues (mergeStale (env.ordStale stale) fresh)).getLast? =
      some p'.lastProcessedBlock ∧
    p'.lastProcessedBlock ∈ (mergeStale (env.ordStale stale) fresh).map Prod.snd ∧
    p'.processedBlocksCount =
      (p.processedBlocksCount + (mergeStale (env.ordStale stale) fresh).length) % 2 ^ 64 ∧
    (p.processedBlocksCount + (mergeStale (env.ordStale stale) fresh).length < 2 ^ 64 →
      p'.processedBlocksCount =
        p.processedBlocksCount + (mergeStale (env.ordStale stale) fresh).length) := by
  unfold ProcessBlocks at h
  simp only [hs, hf, hne, if_false] at h
  split at h
  · cases h
  · cases h
  · rename_i tr3 failed hpb
    obtain ⟨last, hl, hp', _, _, _⟩ := finishBatch_ok env p p' tr3 tr' _ _ _ h
    have hperm := hv (mergeStale (env.ordStale stale) fresh)
    have hlen : (values env.ordValues (mergeStale (env.ordStale stale) fresh)).length =
        (mergeStale (env.ordStale stale) fresh).length := by
      unfold values
      rw [List.length_map, hperm.length_eq]
    have hcount : p'.processedBlocksCount =
        (p.processedBlocksCount + (mergeStale (env.ordStale stale) fresh).length) % 2 ^ 64 := by
      rw [hp', ← hlen]
      rfl
    refine ⟨by rw [hl, hp']; rfl, ?_, hcount, fun hlt => by rw [hcount, Nat.mod_eq_of_lt hlt]⟩
    have hmem : last ∈ values env.ordValues (mergeStale (env.ordStale stale) fresh) :=
      List.mem_of_mem_getLast? (by rw [hl]; exact rfl)
    have : p'.lastProcessedBlock = last := by rw [hp']; rfl
    rw [this]
    unfold values at hmem
    exact ((hperm.map Prod.snd).mem_iff).1 hmem

/-- C18 (code defect).  A step on the batch with the slots 1003 and 1004, enumerated as
`[1004, 1003]`, completes without error and stores `lastProcessedBlock = 1003`, which is not
the maximum 1004; the count grows by 2. -/
theorem ProcessBlocks_last_is_not_max :
    ProcessBlocks (exProgram exDisc) (exEnv [] none none) ⟨0, 0⟩ [] =
      some (⟨1003, 2⟩, exCalls ++ [Event.AcknowledgeBlocks ["2-0", "1-0"]], none) ∧
    mergeStale ((exEnv [] none none).ordStale [("1-0", 1003)]) [("2-0", 1004)] =
      [("2-0", 1004), ("1-0", 1003)] := by
  refine ⟨by rfl, by rfl⟩

/-- A transaction that yields relations makes `process` hand exactly them to the sink. -/
theorem process_saves (P : Program) (env : Env) (tr tr' : List Event) (tx : Tx)
    (blockTime : Nat) (err : Option String)
    (h : process P env tr tx blockTime = some (tr', err)) (rels : List Relation)
    (hr : relationsOf P env.ordInner blockTime tx = some rels) (hne : rels ≠ []) :
    tr' = tr ++ [Event.SaveRelations rels] := by
  unfold process at h
  unfold relationsOf at hr
  split at h
  · cases h
  · rename_i addTxs hfind
    rw [hfind] at hr
    simp only at hr
    split at h
    · rename_i hlen
      have hnil : addTxs = [] := List.length_eq_zero.1 hlen
      subst hnil
      simp only [sliceMap, Option.some.injEq] at hr
      exact absurd hr.symm hne
    · rw [hr] at h
      simp only at h
      split at h <;> · cases h; rfl

/-- A block's loop that ends without error has handed the relations of each of its
transactions to the sink. -/
theorem processTxs_saves (P : Program) (env : Env) (blockTime : Nat) :
    ∀ (txs : List Tx) (tr tr' : List Event),
      processTxs P env blockTime txs tr = some (tr', none) →
      ∀ tx ∈ txs, ∀ rels, relationsOf P env.ordInner blockTime tx = some rels → rels ≠ [] →
        Event.SaveRelations rels ∈ tr' := by
  intro txs
  induction txs with
  | nil => intro tr tr' _ tx htx; simp at htx
  | cons t rest ih =>
    intro tr tr' h tx htx rels hr hne
    simp only [processTxs] at h
    split at h
    · cases h
    · cases h
    · rename_i tr1 hp
      obtain ⟨⟨saves, hsv, _⟩, _⟩ := processTxs_trace P env blockTime rest tr1 tr' none h
      rcases List.mem_cons.1 htx with heq | hmem
      · subst heq
        have := process_saves P env tr tr1 tx blockTime none hp rels hr hne
        rw [hsv, this]
        simp
      · exact ih tr1 tr' h tx hmem rels hr hne

/-- The loop over the blocks that ends without error has handed the relations of every
transaction of every block to the sink. -/
theorem classify_saves (P : Program) (env : Env) :
    ∀ (blocks : List Block) (tr tr' : List Event),
      classify P env blocks tr = some (tr', none) →
      ∀ blk ∈ blocks, ∀ tx ∈ blk.Transactions, ∀ rels,
        relationsOf P env.ordInner blk.BlockTime tx = some rels → rels ≠ [] →
        Event.SaveRelations rels ∈ tr' := by
  intro blocks
  induction blocks with
  | nil => intro tr tr' _ blk hb; simp at hb
  | cons b rest ih =>
    intro tr tr' h blk hb tx htx rels hr hne
    simp only [classify] at h
    split at h
    · cases h
    · cases h
    · rename_i tr1 hp
      obtain ⟨⟨saves, hsv, _⟩, _⟩ := classify_trace P env rest tr1 tr' none h
      rcases List.mem_cons.1 hb with heq | hmem
      · subst heq
        have := processTxs_saves P env blk.BlockTime blk.Transactions tr tr1 hp tx htx rels hr hne
        rw [hsv]
        exact List.mem_append_left _ this
      · exact ih tr1 tr' h blk hmem tx htx rels hr hne

/-- C19 (amended).  When `processBlocks` returns without error, the relations of every
transaction of every block that `GetBlocks` returned were handed to the sink, whether or not
the block's position is among the failed indices; the zero block, which a position keeps
when nothing was fetched for it, has no transaction. -/
theorem processBlocks_extracts_every_block (P : Program) (env : Env) (tr tr' : List Event)
    (ids : List Nat) (blocks : List Block) (F failed : List Nat)
    (hg : env.GetBlocks tr retries ids = (blocks, F, none))
    (h : processBlocks P env tr ids = some (tr', Except.ok failed)) :
    (∀ (i : Nat) (blk : Block), blocks[i]? = some blk →
      ∀ tx ∈ blk.Transactions, ∀ rels,
        relationsOf P env.ordInner blk.BlockTime tx = some rels → rels ≠ [] →
        Event.SaveRelations rels ∈ tr') ∧
    Block.zero.Transactions = [] := by
  refine ⟨?_, rfl⟩
  intro i blk hi tx htx rels hr hne
  unfold processBlocks at h
  rw [hg] at h
  simp only at h
  split at h
  · cases h
  · split at h
    · cases h
    · cases h
    · rename_i tr1 hc
      simp only [Option.some.injEq, Prod.mk.injEq] at h
      obtain ⟨h1, _⟩ := h
      subst h1
      exact classify_saves P env blocks _ _ hc blk (List.getElem?_mem hi) tx htx rels hr hne

/-- C19 (counterexample).  `fetchBlocks` answers slot 1003 with a block whose first transaction
does not parse, so `GetBlocks` reports position 0 as failed; `processBlocks` hands the
relation of the block's other transaction to the sink and returns slot 1003 for
re-enqueueing. -/
theorem processBlocks_extracts_failed_block :
    processBlocks (exProgram exDisc) exFetchEnv [] [1003] =
      some ([Event.GetBlocks 4 [1003], Event.SaveRelations [exRelation]], Except.ok [1003]) ∧
    (exFetchEnv.GetBlocks [] 4 [1003]).2.1 = [0] := by
  refine ⟨by rfl, by rfl⟩

/-- C19 (amended) at a step of `exEnv` whose position 0 is reported as failed. -/
theorem processBlocks_extracts_every_block_witness :
    Event.SaveRelations [exRelation] ∈
      [Event.GetBlocks 4 [1004, 1003], Event.SaveRelations [exRelation]] :=
  (processBlocks_extracts_every_block (exProgram exDisc) (exEnv [0] none none) []
    [Event.GetBlocks 4 [1004, 1003], Event.SaveRelations [exRelation]] [1004, 1003] exBlocks [0]
    [1004] rfl (by rfl)).1 0 ⟨1003, 1700000000, "hash", [exRelTx]⟩ rfl exRelTx
    (List.mem_cons_self _ _) [exRelation] (by rfl) (by decide)

/-- C21.  `calcStatus` answers by the first rule that applies: "UNKNOWN" when the latest block
is below the last processed one; otherwise, with `remaining` their difference, the UP-TO-DATE
label when `remaining < 250`, whatever the rate; otherwise the CATCHING UP label when the rate
is above 1.0; otherwise the STALLED label, which includes a rate of exactly 1.0 and a NaN rate.
The three last labels carry `remaining`. -/
theorem calcStatus_rules (latest lastProcessed : Nat) (rate : Float64) :
    (latest < lastProcessed → calcStatus latest lastProcessed rate = "UNKNOWN") ∧
    (lastProcessed ≤ latest → latest - lastProcessed < 250 →
      calcStatus latest lastProcessed rate =
        "UP-TO-DATE (" ++ toString (latest - lastProcessed) ++ " slots behind)") ∧
    (lastProcessed ≤ latest → 250 ≤ latest - lastProcessed → rate.gtOne = true →
      calcStatus latest lastProcessed rate =
        "CATCHING UP (" ++ toString (latest - lastProcessed) ++ " slots behind)") ∧
    (lastProcessed ≤ latest → 250 ≤ latest - lastProcessed → rate.gtOne = false →
      calcStatus latest lastProcessed rate =
        "STALLED!!! (" ++ toString (latest - lastProcessed) ++ " slots behind)") ∧
    (Float64.finite 1).gtOne = false ∧ Float64.nan.gtOne = false ∧
    (∀ q : ℚ, (Float64.finite q).gtOne = true ↔ q > 1) ∧
    calcStatus 1000 500 (Float64.finite 1) = "STALLED!!! (500 slots behind)" := by
  refine ⟨?_, ?_, ?_, ?_, ?_, rfl, ?_, by decide⟩
  · intro h
    simp [calcStatus, h]
  · intro h1 h2
    have : ¬ latest < lastProcessed := by omega
    simp [calcStatus, this, delayTolerance, h2]
  · intro h1 h2 h3
    have : ¬ latest < lastProcessed := by omega
    have h4 : ¬ latest - lastProcessed < 250 := by omega
    simp [calcStatus, this, delayTolerance, h4, h3]
  · intro h1 h2 h3
    have : ¬ latest < lastProcessed := by omega
    have h4 : ¬ latest - lastProcessed < 250 := by omega
    simp [calcStatus, this, delayTolerance, h4, h3]
  · simp [Float64.gtOne]
  · intro q
    simp [Float64.gtOne]

/-- A lookup misses exactly when the key is not among the keys of the map. -/
theorem GoMap.get?_eq_none_iff {κ ν : Type} [DecidableEq κ] (m : GoMap κ ν) (k : κ) :
    GoMap.get? m k = none ↔ k ∉ m.map Prod.fst := by
  induction m with
  | nil => simp [GoMap.get?]
  | cons hd tl ih =>
    obtain ⟨a, b⟩ := hd
    unfold GoMap.get?
    by_cases hak : a = k
    · simp [hak]
    · simp only [hak, if_false, ih, List.map_cons, List.mem_cons, not_or]
      constructor
      · intro h
        exact ⟨fun h' => hak h'.symm, h⟩
      · intro h
        exact h.2

/-- After a sequence of `Register` calls a lowered name has no handler exactly when it had
none before and no call registered it; otherwise the last call that registered it wins. -/
theorem registerAll_get? (toLower : String → String) (k : String) :
    ∀ (regs : List (String × HandlerFunc)) (s : Server),
      ((regs.foldl (fun s r => s.Register toLower r.1 r.2) s).handlers.get? k = none ↔
        (s.handlers.get? k = none ∧ ∀ r ∈ regs, toLower r.1 ≠ k)) ∧
      (∀ (i : Nat) (r : String × HandlerFunc), regs[i]? = some r → toLower r.1 = k →
        (∀ j r', i < j → regs[j]? = some r' → toLower r'.1 ≠ k) →
        (regs.foldl (fun s r => s.Register toLower r.1 r.2) s).handlers.get? k = some r.2) := by
  intro regs
  induction regs with
  | nil =>
    intro s
    exact ⟨by simp, fun i r h => by simp at h⟩
  | cons r0 rest ih =>
    intro s
    obtain ⟨ih1, ih2⟩ := ih (s.Register toLower r0.1 r0.2)
    constructor
    · simp only [List.foldl_cons, ih1, List.mem_cons, forall_eq_or_imp]
      by_cases h0 : toLower r0.1 = k
      · subst h0
        simp [Server.Register, GoMap.get?_set_self]
      · have : (s.Register toLower r0.1 r0.2).handlers.get? k = s.handlers.get? k := by
          simp only [Server.Register]
          exact GoMap.get?_set_ne _ _ _ _ (fun h => h0 h.symm)
        rw [this]
        simp [h0]
    · intro i r hi hk hlast
      simp only [List.foldl_cons]
      cases i with
      | zero =>
        simp only [List.getElem?_cons_zero, Option.some.injEq] at hi
        subst hi
        have hnone : ∀ r' ∈ rest, toLower r'.1 ≠ k := by
          intro r' hr'
          obtain ⟨j, hj⟩ := List.mem_iff_getElem?.1 hr'
          exact hlast (j + 1) r' (by omega) (by simpa using hj)
        -- no later registration touches the key
        have key : ∀ (l : List (String × HandlerFunc)) (t : Server),
            (∀ r' ∈ l, toLower r'.1 ≠ k) →
            (l.foldl (fun s r => s.Register toLower r.1 r.2) t).handlers.get? k =
              t.handlers.get? k := by
          intro l
          induction l with
          | nil => intro t _; rfl
          | cons x xs ihx =>
            intro t hx
            simp only [List.foldl_cons]
            rw [ihx _ (fun r' hr' => hx r' (List.mem_cons_of_mem _ hr'))]
            simp only [Server.Register]
            exact GoMap.get?_set_ne _ _ _ _
              (fun h => hx x (List.mem_cons_self _ _) h.symm)
        rw [key rest _ hnone]
        subst hk
        simp [Server.Register, GoMap.get?_set_self]
      | succ i =>
        exact ih2 i r (by simpa using hi) hk
          (fun j r' hj hr' => hlast (j + 1) r' (by omega) (by simpa using hr'))

/-- C22.  On a server built by `Register` calls, `process` answers with error code -32601
exactly when no registered method name equals the request's method after lower-casing; when
one does, with `r` the last such registration, it answers with error -32000 and the message
of the handler's error exactly when the handler of `r` returns an error, and otherwise with no
error, the handler's output as result and the request's id. -/
theorem Server_process_response (toLower : String → String)
    (regs : List (String × HandlerFunc)) (req : RpcRequest) :
    ((((registerAll toLower regs).process toLower req).Error.map RpcError.Code = some (-32601)) ↔
      ∀ r ∈ regs, toLower r.1 ≠ toLower req.Method) ∧
    ((∀ r ∈ regs, toLower r.1 ≠ toLower req.Method) →
      (registerAll toLower regs).process toLower req =
        ⟨"2.0", none, some ⟨-32601, "method not found"⟩, none⟩) ∧
    (∀ (i : Nat) (r : String × HandlerFunc), regs[i]? = some r →
      toLower r.1 = toLower req.Method →
      (∀ j r', i < j → regs[j]? = some r' → toLower r'.1 ≠ toLower req.Method) →
      (∀ msg, ((registerAll toLower regs).process toLower req).Error = some ⟨-32000, msg⟩ ↔
        (r.2 req.Params).2 = some msg) ∧
      (∀ msg, (r.2 req.Params).2 = some msg →
        (registerAll toLower regs).process toLower req =
          ⟨"2.0", none, some ⟨-32000, msg⟩, none⟩) ∧
      ((r.2 req.Params).2 = none →
        (registerAll toLower regs).process toLower req =
          ⟨"2.0", (r.2 req.Params).1, none, req.ID⟩)) := by
  obtain ⟨h1, h2⟩ := registerAll_get? toLower (toLower req.Method) regs NewServer
  have hnone : (registerAll toLower regs).handlers.get? (toLower req.Method) = none ↔
      ∀ r ∈ regs, toLower r.1 ≠ toLower req.Method := by
    unfold registerAll
    rw [h1]
    simp [NewServer, GoMap.get?]
  refine ⟨?_, ?_, ?_⟩
  · rw [← hnone]
    unfold Server.process
    cases hg : (registerAll toLower regs).handlers.get? (toLower req.Method) with
    | none => simp
    | some handler =>
      simp only [reduceCtorEq, iff_false]
      cases hh : handler req.Params with
      | mk response err =>
        cases err with
        | none => simp
        | some e => simp
  · intro hno
    unfold Server.process
    rw [hnone.2 hno]
  · intro i r hi hk hlast
    have hget : (registerAll toLower regs).handlers.get? (toLower req.Method) = some r.2 := by
      unfold registerAll
      exact h2 i r hi hk hlast
    unfold Server.process
    rw [hget]
    cases hh : r.2 req.Params with
    | mk response err =>
      cases err with
      | none => simp [hh]
      | some e => simp [hh]

/-- The assignment `m[k] = v` keeps the keys of the map distinct. -/
theorem GoMap.nodup_keys_set {κ ν : Type} [DecidableEq κ] (m : GoMap κ ν) (k : κ) (v : ν)
    (h : (m.map Prod.fst).Nodup) : ((GoMap.set m k v).map Prod.fst).Nodup := by
  induction m with
  | nil => simp [GoMap.set]
  | cons hd tl ih =>
    obtain ⟨a, b⟩ := hd
    simp only [List.map_cons, List.nodup_cons] at h
    unfold GoMap.set
    split
    · rename_i hak
      subst hak
      simpa using h
    · rename_i hak
      simp only [List.map_cons, List.nodup_cons]
      refine ⟨?_, ih h.2⟩
      rw [GoMap.mem_keys_set]
      intro hmem
      rcases hmem with h1 | h1
      · exact hak h1
      · exact h.1 h1

/-- The keys that the loop of lines 232-238 adds to `failed` are exactly the ids whose
position holds an error, and they stay distinct. -/
theorem recordFailed_keys (ids : List Nat) :
    ∀ (errs : List (Option String)) (i : Nat) (failed0 failed : GoMap Nat Nat),
      recordFailed ids errs i failed0 = some failed →
      ((failed0.map Prod.fst).Nodup → (failed.map Prod.fst).Nodup) ∧
      (∀ id, id ∈ failed.map Prod.fst ↔
        (id ∈ failed0.map Prod.fst ∨
          ∃ j e, errs[j]? = some (some e) ∧ ids[i + j]? = some id)) := by
  intro errs
  induction errs with
  | nil =>
    intro i failed0 failed h
    simp only [recordFailed, Option.some.injEq] at h
    subst h
    exact ⟨id, fun x => by simp⟩
  | cons e errs ih =>
    intro i failed0 failed h
    cases e with
    | none =>
      simp only [recordFailed] at h
      obtain ⟨h1, h2⟩ := ih _ _ _ h
      refine ⟨h1, fun x => ?_⟩
      rw [h2 x]
      constructor
      · rintro (hx | ⟨j, e, he, hi⟩)
        · exact Or.inl hx
        · exact Or.inr ⟨j + 1, e, by simpa using he, by rw [← hi]; congr 1; omega⟩
      · rintro (hx | ⟨j, e, he, hi⟩)
        · exact Or.inl hx
        · cases j with
          | zero => simp at he
          | succ j =>
            exact Or.inr ⟨j, e, by simpa using he, by rw [← hi]; congr 1; omega⟩
    | some msg =>
      simp only [recordFailed] at h
      split at h
      · cases h
      · rename_i id0 hid
        obtain ⟨h1, h2⟩ := ih _ _ _ h
        refine ⟨fun hn => h1 (GoMap.nodup_keys_set _ _ _ hn), fun x => ?_⟩
        rw [h2 x, GoMap.mem_keys_set]
        constructor
        · rintro ((hx | hx) | ⟨j, e, he, hi⟩)
          · subst hx
            exact Or.inr ⟨0, msg, by simp, by simpa using hid⟩
          · exact Or.inl hx
          · exact Or.inr ⟨j + 1, e, by simpa using he, by rw [← hi]; congr 1; omega⟩
        · rintro (hx | ⟨j, e, he, hi⟩)
          · exact Or.inl (Or.inr hx)
          · cases j with
            | zero =>
              rw [Nat.add_zero, hid] at hi
              exact Or.inl (Or.inl (by simpa using hi.symm))
            | succ j =>
              exact Or.inr ⟨j, e, by simpa using he, by rw [← hi]; congr 1; omega⟩

/-- Without any error the loop of lines 232-238 leaves `failed` as it was. -/
theorem recordFailed_no_error (ids : List Nat) :
    ∀ (errs : List (Option String)) (i : Nat) (failed0 : GoMap Nat Nat),
      (∀ e ∈ errs, e = none) → recordFailed ids errs i failed0 = some failed0 := by
  intro errs
  induction errs with
  | nil => intro i failed0 _; rfl
  | cons e errs ih =>
    intro i failed0 h
    have he : e = none := h e (List.mem_cons_self _ _)
    subst he
    simp only [recordFailed]
    exact ih _ _ (fun e he => h e (List.mem_cons_of_mem _ he))

/-- The first fetch call of `GetBlocks` is made with its own arguments. -/
theorem GetBlocksTraced_head (loader : Loader) (ord : Nat → MapOrder Nat Nat) (r : Nat)
    (ids : List Nat) :
    ∃ rest, (GetBlocksTraced loader ord r ids).1 = (r, ids) :: rest := by
  cases r with
  | zero =>
    simp only [GetBlocksTraced]
    split
    · exact ⟨[], rfl⟩
    · split <;> exact ⟨[], rfl⟩
  | succ r =>
    simp only [GetBlocksTraced]
    split
    · exact ⟨[], rfl⟩
    · split
      · exact ⟨[], rfl⟩
      · split
        · exact ⟨_, rfl⟩
        · split <;> exact ⟨_, rfl⟩

/-- C24.  For every `ids` and `r`, `GetBlocks` (a total function) makes at most `r + 1` fetch
calls, at most 5 for the `retries = 4` of `processBlocks`; the first call fetches `ids`; when
no key errors on the first pass it is the only call; and every later call is made with
retries one lower than the call before and fetches the ids that errored in the call before,
each once. -/
theorem GetBlocks_fetch_calls (loader : Loader) (ord : Nat → MapOrder Nat Nat)
    (hord : ∀ r, (ord r).Valid) (r : Nat) (ids : List Nat) :
    (GetBlocksTraced loader ord r ids).2 = GetBlocks loader ord r ids ∧
    (GetBlocksTraced loader ord r ids).1.length ≤ r + 1 ∧
    (GetBlocksTraced loader ord retries ids).1.length ≤ 5 ∧
    (GetBlocksTraced loader ord r ids).1[0]? = some (r, ids) ∧
    ((∀ e ∈ (loader r ids).2, e = none) →
      (GetBlocksTraced loader ord r ids).1 = [(r, ids)]) ∧
    (∀ (i k k' : Nat) (ks ks' : List Nat),
      (GetBlocksTraced loader ord r ids).1[i]? = some (k, ks) →
      (GetBlocksTraced loader ord r ids).1[i + 1]? = some (k', ks') →
      k = k' + 1 ∧ ks'.Nodup ∧
      ∀ id, id ∈ ks' ↔
        ∃ (j : Nat) (e : String), ks[j]? = some id ∧ (loader k ks).2[j]? = some (some e)) := by
  have key : ∀ (r : Nat) (ids : List Nat),
      (GetBlocksTraced loader ord r ids).2 = GetBlocks loader ord r ids ∧
      (GetBlocksTraced loader ord r ids).1.length ≤ r + 1 ∧
      (GetBlocksTraced loader ord r ids).1[0]? = some (r, ids) ∧
      ((∀ e ∈ (loader r ids).2, e = none) →
        (GetBlocksTraced loader ord r ids).1 = [(r, ids)]) ∧
      (∀ (i k k' : Nat) (ks ks' : List Nat),
        (GetBlocksTraced loader ord r ids).1[i]? = some (k, ks) →
        (GetBlocksTraced loader ord r ids).1[i + 1]? = some (k', ks') →
        k = k' + 1 ∧ ks'.Nodup ∧
        ∀ id, id ∈ ks' ↔
          ∃ (j : Nat) (e : String), ks[j]? = some id ∧ (loader k ks).2[j]? = some (some e)) := by
    intro r ids
    induction r generalizing ids with
    | zero =>
      refine ⟨?_, ?_, ?_, ?_, ?_⟩
      · simp only [GetBlocksTraced, GetBlocks]
        split
        · rfl
        · split <;> rfl
      · obtain ⟨rest, h⟩ := GetBlocksTraced_head loader ord 0 ids
        simp only [GetBlocksTraced]
        split
        · simp
        · split <;> simp
      · obtain ⟨rest, h⟩ := GetBlocksTraced_head loader ord 0 ids
        rw [h]; simp
      · intro _
        simp only [GetBlocksTraced]
        split
        · rfl
        · split <;> rfl
      · intro i k k' ks ks' h1 h2
        have hlen : (GetBlocksTraced loader ord 0 ids).1.length = 1 := by
          simp only [GetBlocksTraced]
          split
          · rfl
          · split <;> rfl
        have := (List.getElem?_eq_some.1 h2).1
        omega
    | succ r ih =>
      cases hrec : recordFailed ids (loader (r + 1) ids).2 0 [] with
      | none =>
        have hT : GetBlocksTraced loader ord (r + 1) ids = ([(r + 1, ids)], none) := by
          simp only [GetBlocksTraced, hrec]
        have hG : GetBlocks loader ord (r + 1) ids = none := by
          simp only [GetBlocks, hrec]
        rw [hT, hG]
        refine ⟨rfl, by simp, rfl, fun _ => rfl, ?_⟩
        intro i k k' ks ks' h1 h2
        have := (List.getElem?_eq_some.1 h2).1
        simp at this
      | some failed =>
        by_cases hf : failed.length = 0
        · have hT : GetBlocksTraced loader ord (r + 1) ids =
              ([(r + 1, ids)], some (copyBlocks ids.length (loader (r + 1) ids).1, [])) := by
            simp only [GetBlocksTraced, hrec, hf, if_true]
          have hG : GetBlocks loader ord (r + 1) ids =
              some (copyBlocks ids.length (loader (r + 1) ids).1, []) := by
            simp only [GetBlocks, hrec, hf, if_true]
          rw [hT, hG]
          refine ⟨rfl, by simp, rfl, fun _ => rfl, ?_⟩
          intro i k k' ks ks' h1 h2
          have := (List.getElem?_eq_some.1 h2).1
          simp at this
        · obtain ⟨ih1, ih2, ih3, _, ih5⟩ := ih (keys (ord (r + 1)) failed)
          have hcalls : (GetBlocksTraced loader ord (r + 1) ids).1 =
              (r + 1, ids) :: (GetBlocksTraced loader ord r (keys (ord (r + 1)) failed)).1 := by
            simp only [GetBlocksTraced, hrec, hf, if_false]
            split
            · rename_i calls heq
              rw [heq]
            · rename_i calls missing fIdx heq
              rw [heq]
              split <;> rfl
          refine ⟨?_, ?_, ?_, ?_, ?_⟩
          · simp only [GetBlocksTraced, GetBlocks, hrec, hf, if_false]
            rw [← ih1]
            split
            · rename_i calls heq
              rw [heq]
            · rename_i calls missing fIdx heq
              rw [heq]
              simp only
              split <;> rfl
          · rw [hcalls]
            simp only [List.length_cons]
            omega
          · rw [hcalls]; simp
          · intro hno
            rw [recordFailed_no_error ids _ 0 [] hno] at hrec
            cases hrec
            exact absurd rfl hf
          · intro i k k' ks ks' h1 h2
            rw [hcalls] at h1 h2
            cases i with
            | zero =>
              simp only [List.getElem?_cons_zero, Option.some.injEq, Prod.mk.injEq] at h1
              obtain ⟨hk, hks⟩ := h1
              subst hk hks
              simp only [Nat.zero_add, List.getElem?_cons_succ] at h2
              rw [ih3] at h2
              simp only [Option.some.injEq, Prod.mk.injEq] at h2
              obtain ⟨hk', hks'⟩ := h2
              subst hk' hks'
              obtain ⟨hnd, hmem⟩ := recordFailed_keys ids _ 0 [] failed hrec
              have hperm : (keys (ord (r + 1)) failed).Perm (failed.map Prod.fst) :=
                (hord (r + 1) failed).map Prod.fst
              refine ⟨rfl, hperm.nodup_iff.2 (hnd (by simp)), fun x => ?_⟩
              rw [hperm.mem_iff, hmem x]
              constructor
              · rintro (hx | ⟨j, e, he, hi⟩)
                · simp at hx
                · exact ⟨j, e, by simpa using hi, he⟩
              · rintro ⟨j, e, hi, he⟩
                exact Or.inr ⟨j, e, he, by simpa using hi⟩
            | succ i =>
              simp only [List.getElem?_cons_succ] at h1 h2
              exact ih5 i k k' ks ks' h1 h2
  obtain ⟨h1, h2, h3, h4, h5⟩ := key r ids
  exact ⟨h1, h2, (key retries ids).2.1, h3, h4, h5⟩

/-- C24 at `ids = [10, 20]`, `retries = 1`, with the loader that fails for slot 20: two calls,
the second one for slot 20 alone. -/
theorem GetBlocks_fetch_calls_witness :
    (∀ r : Nat, MapOrder.Valid ((fun _ m => m : Nat → MapOrder Nat Nat) r)) ∧
    (GetBlocksTraced exLoader (fun _ m => m) 1 [10, 20]).1 = [(1, [10, 20]), (0, [20])] ∧
    (GetBlocksTraced exLoader (fun _ m => m) 1 [10, 20]).1.length ≤ 1 + 1 ∧
    ((∀ e ∈ (exLoader 1 [10, 20]).2, e = none) →
      (GetBlocksTraced exLoader (fun _ m => m) 1 [10, 20]).1 = [(1, [10, 20])]) ∧
    (∀ (i k k' : Nat) (ks ks' : List Nat),
      (GetBlocksTraced exLoader (fun _ m => m) 1 [10, 20]).1[i]? = some (k, ks) →
      (GetBlocksTraced exLoader (fun _ m => m) 1 [10, 20]).1[i + 1]? = some (k', ks') →
      k = k' + 1 ∧ ks'.Nodup ∧
      ∀ id, id ∈ ks' ↔
        ∃ (j : Nat) (e : String), ks[j]? = some id ∧ (exLoader k ks).2[j]? = some (some e)) :=
  have h := GetBlocks_fetch_calls exLoader (fun _ m => m) (fun _ m => List.Perm.refl m) 1 [10, 20]
  ⟨fun _ m => List.Perm.refl m, by rfl, h.2.1, h.2.2.2.2.1, h.2.2.2.2.2⟩

/-- The helper `sliceMap` returns one result per element. -/
theorem sliceMap_length {α β : Type} (f : α → Option β) :
    ∀ (l : List α) (bs : List β), sliceMap f l = some bs → bs.length = l.length := by
  intro l
  induction l with
  | nil =>
    intro bs h
    simp only [sliceMap, Option.some.injEq] at h
    subst h
    rfl
  | cons a rest ih =>
    intro bs h
    simp only [sliceMap] at h
    split at h
    · cases h
    · split at h
      · cases h
      · rename_i b hb bs' hbs
        simp only [Option.some.injEq] at h
        subst h
        simp [ih bs' hbs]

/-- Sink calls of `process`: none when the transaction yields no relation, and otherwise one
call with all the relations of the transaction, in extraction order, whose error is
returned wrapped. -/
theorem process_sink_call (P : Program) (env : Env) (tr : List Event) (tx : Tx)
    (blockTime : Nat) :
    (relationsOf P env.ordInner blockTime tx = none → process P env tr tx blockTime = none) ∧
    (relationsOf P env.ordInner blockTime tx = some [] →
      process P env tr tx blockTime = some (tr, none)) ∧
    (∀ rels, relationsOf P env.ordInner blockTime tx = some rels → rels ≠ [] →
      process P env tr tx blockTime =
        some (tr ++ [Event.SaveRelations rels],
          (env.SaveRelations tr rels).map (fun e => "save relations: " ++ e))) := by
  unfold relationsOf process
  cases hfind : findAddInst P env.ordInner tx with
  | none => simp
  | some addTxs =>
    simp only
    cases hrel : sliceMap (relationOf blockTime) addTxs with
    | none =>
      have hne : addTxs.length ≠ 0 := by
        intro h0
        rw [List.length_eq_zero.1 h0] at hrel
        simp [sliceMap] at hrel
      refine ⟨?_, ?_, ?_⟩
      · intro _
        simp only [hne, if_false]
      · intro h
        cases h
      · intro rels h
        cases h
    | some relations =>
      have hlen := sliceMap_length _ _ _ hrel
      refine ⟨?_, ?_, ?_⟩
      · intro h
        cases h
      · intro h
        simp only [Option.some.injEq] at h
        subst h
        have h0 : addTxs.length = 0 := by simpa using hlen.symm
        simp only [h0, if_true]
      · intro rels h hne
        simp only [Option.some.injEq] at h
        subst h
        have h0 : addTxs.length ≠ 0 := by
          rw [← hlen]
          exact fun h0 => hne (List.length_eq_zero.1 h0)
        simp only [h0, if_false]
        cases env.SaveRelations tr relations <;> rfl

/-- C23 (code defect).  A block whose only transaction has one target-program instruction with
eight zero bytes in place of the discriminator `exDisc`, followed by a Borsh payload, makes
`process` call the sink with one relation: the block holds no AddRelation instruction and
still produces a sink write, whatever the discriminator is. -/
theorem classify_writes_without_AddRelation (disc : List Nat) :
    process (exProgram disc) (exEnv [] none none) []
        (exTx (ByteSlice.ofBytes (List.replicate 8 0 ++ exPayload))) 1700000000 =
      some ([Event.SaveRelations [exRelation]], none) ∧
    classify (exProgram disc) (exEnv [] none none)
        [⟨1003, 1700000000, "hash", [exTx (ByteSlice.ofBytes (List.replicate 8 0 ++ exPayload))]⟩] [] =
      some ([Event.SaveRelations [exRelation]], none) ∧
    (ByteSlice.ofBytes (List.replicate 8 0 ++ exPayload)).bytes.take 8 ≠ exDisc := by
  refine ⟨by rfl, by rfl, by decide⟩

/-- C25.  In a step on a non-empty batch where `GetBlocks` reports the non-empty list `F` of
failed positions, all in range: a panic of the extraction is a panic of the step; a sink
error ends the step with that error and no acknowledgement; otherwise no call up to there is
an `AddBlocks` or an acknowledgement, `AddBlocks` is called with the failed ids, and either it
returns an error, and then `ProcessBlocks` returns that error wrapped, its last call is the
`AddBlocks` call and the counters are unchanged, or it succeeds and the acknowledgement is the
next call. -/
theorem ProcessBlocks_reenqueue_error (P : Program) (env : Env) (p : Processor)
    (tr : List Event) (stale fresh : GoMap String Nat) (blocks : List Block) (F : List Nat)
    (hs : env.FindStaleBlocks tr batchSize = Except.ok stale)
    (hf : env.FetchStreamEvents (tr ++ [Event.FindStaleBlocks batchSize])
      (remainingOf stale.length) = Except.ok fresh)
    (hne : (mergeStale (env.ordStale stale) fresh).length ≠ 0)
    (hv : env.ordValues.Valid)
    (hg : env.GetBlocks
      (tr ++ [Event.FindStaleBlocks batchSize] ++ [Event.FetchStreamEvents (remainingOf stale.length)])
      retries (values env.ordValues (mergeStale (env.ordStale stale) fresh)) = (blocks, F, none))
    (hin : ∀ f ∈ F, f < (values env.ordValues (mergeStale (env.ordStale stale) fresh)).length)
    (hF : F ≠ []) :
    (classify P env blocks
      (tr ++ [Event.FindStaleBlocks batchSize] ++ [Event.FetchStreamEvents (remainingOf stale.length)]
        ++ [Event.GetBlocks retries (values env.ordValues (mergeStale (env.ordStale stale) fresh))])
      = none → ProcessBlocks P env p tr = none) ∧
    (∀ tr3 e, classify P env blocks
      (tr ++ [Event.FindStaleBlocks batchSize] ++ [Event.FetchStreamEvents (remainingOf stale.length)]
        ++ [Event.GetBlocks retries (values env.ordValues (mergeStale (env.ordStale stale) fresh))])
      = some (tr3, some e) →
      ProcessBlocks P env p tr = some (p, tr3, some ("process batch: " ++ e)) ∧
      ∃ mid, tr3 = tr ++ mid ∧ ∀ l, Event.AcknowledgeBlocks l ∉ mid) ∧
    (∀ tr3, classify P env blocks
      (tr ++ [Event.FindStaleBlocks batchSize] ++ [Event.FetchStreamEvents (remainingOf stale.length)]
        ++ [Event.GetBlocks retries (values env.ordValues (mergeStale (env.ordStale stale) fresh))])
      = some (tr3, none) →
      (∃ mid, tr3 = tr ++ mid ∧ (∀ l, Event.AcknowledgeBlocks l ∉ mid) ∧
        ∀ l, Event.AddBlocks l ∉ mid) ∧
      (∀ e, env.AddBlocks tr3
          (F.map (fun f => (values env.ordValues (mergeStale (env.ordStale stale) fresh)).getD f 0))
          = some e →
        ProcessBlocks P env p tr = some (p, tr3 ++ [Event.AddBlocks
          (F.map (fun f => (values env.ordValues (mergeStale (env.ordStale stale) fresh)).getD f 0))],
          some ("adding failed blocks: " ++ e))) ∧
      (env.AddBlocks tr3
          (F.map (fun f => (values env.ordValues (mergeStale (env.ordStale stale) fresh)).getD f 0))
          = none →
        ∃ p' err, ProcessBlocks P env p tr = some (p', tr3 ++ [Event.AddBlocks
          (F.map (fun f => (values env.ordValues (mergeStale (env.ordStale stale) fresh)).getD f 0)),
          Event.AcknowledgeBlocks (keys env.ordKeys (mergeStale (env.ordStale stale) fresh))],
          err))) := by
  have hmid : ∀ tr3 err, classify P env blocks
      (tr ++ [Event.FindStaleBlocks batchSize] ++ [Event.FetchStreamEvents (remainingOf stale.length)]
        ++ [Event.GetBlocks retries (values env.ordValues (mergeStale (env.ordStale stale) fresh))])
      = some (tr3, err) →
      ∃ mid, tr3 = tr ++ mid ∧ (∀ l, Event.AcknowledgeBlocks l ∉ mid) ∧
        ∀ l, Event.AddBlocks l ∉ mid := by
    intro tr3 err hc
    obtain ⟨⟨saves, hsv, hsv'⟩, _⟩ := classify_trace P env _ _ _ _ hc
    refine ⟨[Event.FindStaleBlocks batchSize, Event.FetchStreamEvents (remainingOf stale.length),
      Event.GetBlocks retries (values env.ordValues (mergeStale (env.ordStale stale) fresh))]
      ++ saves, by simpa using hsv, ?_, ?_⟩
    · intro l hl
      simp only [List.cons_append, List.nil_append, List.mem_cons] at hl
      rcases hl with hl | hl | hl | hl
      · cases hl
      · cases hl
      · cases hl
      · have := hsv' _ hl
        simp [Event.isSave] at this
    · intro l hl
      simp only [List.cons_append, List.nil_append, List.mem_cons] at hl
      rcases hl with hl | hl | hl | hl
      · cases hl
      · cases hl
      · cases hl
      · have := hsv' _ hl
        simp [Event.isSave] at this
  have hids : values env.ordValues (mergeStale (env.ordStale stale) fresh) ≠ [] := by
    intro h0
    apply hne
    have := (hv (mergeStale (env.ordStale stale) fresh)).length_eq
    unfold values at h0
    rw [← this, ← List.length_map (env.ordValues (mergeStale (env.ordStale stale) fresh)) Prod.snd, h0]
    rfl
  refine ⟨?_, ?_, ?_⟩
  · intro hc
    unfold ProcessBlocks
    simp only [hs, hf, hne, if_false]
    unfold processBlocks
    rw [hg]
    simp only [failedIds, sliceMap_getElem?_total _ _ hin, hc]
  · intro tr3 e hc
    obtain ⟨mid, h1, h2, _⟩ := hmid tr3 _ hc
    refine ⟨?_, mid, h1, h2⟩
    unfold ProcessBlocks
    simp only [hs, hf, hne, if_false]
    unfold processBlocks
    rw [hg]
    simp only [failedIds, sliceMap_getElem?_total _ _ hin, hc]
  · intro tr3 hc
    have hPB : ProcessBlocks P env p tr = finishBatch env p tr3 (mergeStale (env.ordStale stale) fresh)
        (values env.ordValues (mergeStale (env.ordStale stale) fresh))
        (F.map (fun f => (values env.ordValues (mergeStale (env.ordStale stale) fresh)).getD f 0)) := by
      unfold ProcessBlocks
      simp only [hs, hf, hne, if_false]
      unfold processBlocks
      rw [hg]
      simp only [failedIds, sliceMap_getElem?_total _ _ hin, hc]
    obtain ⟨_, h2, h3⟩ := finishBatch_total env p tr3 (mergeStale (env.ordStale stale) fresh) _
      (F.map (fun f => (values env.ordValues (mergeStale (env.ordStale stale) fresh)).getD f 0)) hids
    refine ⟨hmid tr3 _ hc, ?_, ?_⟩
    · intro e he
      rw [hPB]
      exact h2 (by simpa using hF) e he
    · intro he
      rw [hPB]
      exact h3 (by simpa using hF) he

/-- C25 at a step of `exEnv` in which position 1 (slot 1003) failed and `AddBlocks` answers
"queue down". -/
theorem ProcessBlocks_reenqueue_error_witness :
    ProcessBlocks (exProgram exDisc) (exEnv [1] none (some "queue down")) ⟨0, 0⟩ [] =
      some (⟨0, 0⟩, exCalls ++ [Event.AddBlocks [1003]],
        some ("adding failed blocks: " ++ "queue down")) :=
  ((ProcessBlocks_reenqueue_error (exProgram exDisc) (exEnv [1] none (some "queue down")) ⟨0, 0⟩ []
    [("1-0", 1003)] [("2-0", 1004)] exBlocks [1]
    rfl rfl (by decide) (fun m => List.Perm.refl m) rfl (by decide) (by decide)).2.2
      exCalls rfl).2.1 "queue down" rfl

end Indexer
